import Mathlib

set_option maxRecDepth 100000

/-!
# gonetic: request / retry / auth pipeline

A shallow embedding of the Go sources of `joy-dx/gonetic` and machine-checked
statements about them.

Conventions of the embedding

* A Go `error` is a `GoError`: a chain of error values, each with a message,
  an optional `Temporary() bool` method and an optional wrapped error.  A nil
  error is `none : Option GoError`.
* Code that talks to the outside (a registered client, the OAuth source, the
  auth provider, a middleware, the HTTP transport, the clock) is a function on
  an external state `σ`; every invocation is also appended to an event log, so
  that "is invoked exactly n times" is a statement about the log.
* Go `int` and `time.Duration` are 64 bit; they are `Int` here, with an explicit
  wrap where the source can overflow.
-/

namespace Gonetic

/-! ## Errors (`errors`, `fmt.Errorf`) and `utils.IsTemporaryErr` -/

/-- A Go error value.  `leaf` is an error that wraps nothing, `wrap` an error
whose `Unwrap` returns `inner`.  `temporary` is `some b` when the value has a
method `Temporary() bool` that returns `b`. -/
inductive GoError where
  | leaf (msg : String) (temporary : Option Bool)
  | wrap (msg : String) (temporary : Option Bool) (inner : GoError)
deriving DecidableEq, Repr

namespace GoError

/-- The value of `errors.New(msg)`, and of `fmt.Errorf` without a `%w` verb. -/
def errorsNew (msg : String) : GoError := leaf msg none

/-- The value of `fmt.Errorf(pfx + "%w", inner)`: it wraps `inner` and has no
`Temporary` method of its own. -/
def errorf (pfx : String) (inner : GoError) : GoError := wrap pfx none inner

/-- The text of `err.Error()`. -/
def Error : GoError → String
  | leaf msg _ => msg
  | wrap pfx _ inner => pfx ++ inner.Error

/-- The search of `errors.As(err, &netErr)` for `netErr interface{ Temporary() bool }`:
the first error of the chain that has the method, as the value it returns. -/
def asTemporary : GoError → Option Bool
  | leaf _ t => t
  | wrap _ (some b) _ => some b
  | wrap _ none inner => inner.asTemporary

end GoError

/-- The function `utils.IsTemporaryErr` (src/utils/is_temporary_error.go). -/
def IsTemporaryErr (err : Option GoError) : Bool :=
  match err.bind GoError.asTemporary with
  | some b => b
  | none => true

/-! ## Data model (`dto`) -/

/-- The 64-bit two's complement value of an integer (Go `int`, `int64`). -/
def wrapInt64 (x : Int) : Int := (x + 2 ^ 63) % 2 ^ 64 - 2 ^ 63

/-- A `[]byte`. -/
abbrev Bytes := List Nat

/-- The struct `dto.Response`.  `Headers` is the `http.Header` map as an association list. -/
structure Response where
  StatusCode : Int := 0
  Headers : List (String × List String) := []
  Body : Bytes := []
deriving DecidableEq, Repr

/-- Modelled from the spec: the delay policies of `utils` (`RetryDelay`,
`ConstantDelay`, `ExponentialBackoff`; their file is not part of the sources):
"policies: constant delay; exponential backoff with a cap and randomized
jitter".  `custom` is any other implementation of the interface. -/
inductive RetryDelay where
  | ConstantDelay (Period : Int)
  | ExponentialBackoff
  | custom (name : String)
deriving DecidableEq, Repr

/-- A value of type `any` stored in a body map: the scalars, and any other
value (a float, a nested map, a slice) as its rendering. -/
inductive Value where
  | null
  | bool (b : Bool)
  | int (n : Int)
  | str (s : String)
  | other (rendering : String)
deriving DecidableEq, Repr

/-- A Go `map[string]α`: an association list with one entry per key, or `none`
for the nil map. -/
abbrev GoMap (α : Type) := Option (List (String × α))

/-- The assignment `m[k] = v` on a map that is not nil: the entry of `k` is
replaced, or a new entry is added. -/
def entriesSet {α : Type} : List (String × α) → String → α → List (String × α)
  | [], k, v => [(k, v)]
  | (k', v') :: rest, k, v =>
    if k' = k then (k, v) :: rest else (k', v') :: entriesSet rest k v

/-- The lookup `m[k]`, `none` when the key is absent. -/
def entriesGet {α : Type} : List (String × α) → String → Option α
  | [], _ => none
  | (k', v') :: rest, k => if k' = k then some v' else entriesGet rest k

/-- The entries of a map, none for the nil map. -/
def GoMap.entries {α : Type} (m : GoMap α) : List (String × α) := m.getD []

/-- The struct `httpclient.HTTPRequestConfig`. -/
structure HTTPRequestConfig where
  Method : String := ""
  URL : String := ""
  Body : GoMap Value := none
  BodyType : String := ""
  Headers : GoMap String := none
deriving DecidableEq, Repr

/-- The type tag `httpclient.NetClientHTTPRef`. -/
def NetClientHTTPRef : String := "net.client.http"

/-- The type tag `s3client.NetClientS3Ref`. -/
def NetClientS3Ref : String := "net.client.s3"

/-- A value of type `any` stored in the `ExtraOpts` of an S3 request, by the
dynamic types that the S3 client distinguishes: the nil interface, a string, a
`map[string]string`, a `map[string]any`, and any other value as its rendering. -/
inductive ExtraOpt where
  | nil
  | str (s : String)
  | stringMap (m : GoMap String)
  | anyMap (m : GoMap Value)
  | other (rendering : String)
deriving DecidableEq, Repr

/-- The struct `s3client.S3RequestConfig`. -/
structure S3RequestConfig where
  Operation : String := ""
  Bucket : String := ""
  Key : String := ""
  Body : Bytes := []
  Prefix : String := ""
  ContentType : String := ""
  ExtraOpts : GoMap ExtraOpt := none
  Headers : GoMap String := none
deriving DecidableEq, Repr

/-- A value of the interface `dto.ReqConfigInterface`: the HTTP request config,
the S3 request config, or any other implementation, of which only the type tag
`Ref()` is used here. -/
inductive ReqConfig where
  | http (c : HTTPRequestConfig)
  | s3 (c : S3RequestConfig)
  | other (ref : String)
deriving DecidableEq, Repr

/-- The method `Ref()` of a request config. -/
def ReqConfig.Ref : ReqConfig → String
  | .http _ => NetClientHTTPRef
  | .s3 _ => NetClientS3Ref
  | .other ref => ref

/-- The struct `dto.RequestConfig`.  `ReqConfig`, `ResponseObject` and `Delay`
are `none` when nil.  `ResponseObject` names the decode target. -/
structure RequestConfig where
  ClientRef : String := ""
  ReqConfig : Option ReqConfig := none
  ResponseObject : Option String := none
  Timeout : Int := 0
  MaxRetries : Int := 0
  Delay : Option RetryDelay := none
  TaskName : String := ""
deriving DecidableEq, Repr

/-! ## The service `NetSvc`: `RequestOnce` and `RequestWithRetry` (src/request.go) -/

/-- What the retry controller does to the outside, in order. -/
inductive Event where
  /-- The call `cfg.Delay.Wait(cfg.TaskName, attempt)`. -/
  | wait (delay : RetryDelay) (task : String) (attempt : Int)
  /-- The call `netClient.ProcessRequest(ctx, cfg)` on the client registered as `ref`. -/
  | processRequest (ref : String)
deriving DecidableEq, Repr

/-- External state together with the log of what was done to it. -/
structure World (σ : Type) where
  ext : σ
  log : List Event

/-- Append an event to the log. -/
def World.emit {σ : Type} (w : World σ) (e : Event) : World σ :=
  { w with log := w.log ++ [e] }

/-- A value of the interface `dto.NetClientInterface`.  `ProcessRequest` reads
the request config and acts on the external state; like the clients of the
repository, it does not write to the config it is handed. -/
structure NetClient (σ : Type) where
  typ : String
  ProcessRequest : σ → RequestConfig → (Response × Option GoError) × σ

/-- The struct `NetSvc`, as far as the request path reads it: the client
registry, and `json.Unmarshal(body, target)` as the error it returns. -/
structure NetSvc (σ : Type) where
  clients : String → Option (NetClient σ)
  unmarshal : Bytes → String → Option GoError

/-- The outcome of a call: the returned pair, the caller's config as the call
leaves it (it is passed by pointer), and the world. -/
structure CallResult (σ : Type) where
  resp : Response
  err : Option GoError
  cfg : RequestConfig
  world : World σ

/-- The method `NetSvc.RequestOnce` (src/request.go).  The timeout only bounds
the context handed to the client and is not modelled. -/
def RequestOnce {σ : Type} (s : NetSvc σ) (cfg : RequestConfig) (w : World σ) : CallResult σ :=
  if cfg.ClientRef = "" then
    ⟨{}, some (GoError.errorsNew "nil ClientRef provided"), cfg, w⟩
  else
    match cfg.ReqConfig with
    | none => ⟨{}, some (GoError.errorsNew "nil ReqConfig provided"), cfg, w⟩
    | some rc =>
      let cfg := if cfg.TaskName = "" then { cfg with TaskName := "http_request" } else cfg
      match s.clients cfg.ClientRef with
      | none => ⟨{}, some (GoError.errorsNew ("client not found: " ++ cfg.ClientRef)), cfg, w⟩
      | some netClient =>
        if netClient.typ ≠ rc.Ref then
          ⟨{}, some (GoError.errorsNew ("client type mismatch: client=" ++ cfg.ClientRef ++ "("
            ++ netClient.typ ++ ") req=" ++ rc.Ref)), cfg, w⟩
        else
          let w := w.emit (Event.processRequest cfg.ClientRef)
          let out := netClient.ProcessRequest w.ext cfg
          let w := { w with ext := out.2 }
          match out.1.2 with
          | some err => ⟨{}, some (GoError.errorf "perform request: " err), cfg, w⟩
          | none =>
            let response := out.1.1
            match cfg.ResponseObject with
            | none => ⟨response, none, cfg, w⟩
            | some target =>
              if response.Body.length > 0 then
                match s.unmarshal response.Body target with
                | some unmarshalErr =>
                  ⟨response, some (GoError.errorf "unmarshal response: " unmarshalErr), cfg, w⟩
                | none => ⟨response, none, cfg, w⟩
              else ⟨response, none, cfg, w⟩

/-- The value of `fmt.Errorf("failed after %d attempts: %w", n, lastErr)`; with a
nil `lastErr` nothing is wrapped. -/
def failedAfter (n : Int) (lastErr : Option GoError) : GoError :=
  match lastErr with
  | some e => GoError.errorf ("failed after " ++ toString n ++ " attempts: ") e
  | none => GoError.errorsNew ("failed after " ++ toString n ++ " attempts: %!w(<nil>)")

/-- The value of `fmt.Errorf("server error (%d)", code)`. -/
def serverError (code : Int) : GoError :=
  GoError.errorsNew ("server error (" ++ toString code ++ ")")

/-- The `for attempt := ...; attempt <= cfg.MaxRetries; attempt++` loop of
`RequestWithRetry` from the state at the loop test.  The loop is bounded by
`fuel` iterations; `none` means that the fuel ran out or that a nil `Delay`
was dereferenced. -/
def retryLoop {σ : Type} (s : NetSvc σ) :
    Nat → Int → Option GoError → RequestConfig → World σ → Option (CallResult σ)
  | 0, _, _, _, _ => none
  | fuel + 1, attempt, lastErr, cfg, w =>
    if attempt ≤ cfg.MaxRetries then
      let waited : Option (World σ) :=
        if attempt > 0 then
          match cfg.Delay with
          | some d => some (w.emit (Event.wait d cfg.TaskName attempt))
          | none => none
        else some w
      match waited with
      | none => none
      | some w1 =>
        let r := RequestOnce s cfg w1
        match r.err with
        | some err =>
          if IsTemporaryErr (some err) && attempt < r.cfg.MaxRetries then
            retryLoop s fuel (attempt + 1) (some err) r.cfg r.world
          else some r
        | none =>
          if r.resp.StatusCode ≥ 500 then
            let lastErr := serverError r.resp.StatusCode
            if attempt < r.cfg.MaxRetries then
              retryLoop s fuel (attempt + 1) (some lastErr) r.cfg r.world
            else
              some { r with err := some (failedAfter (wrapInt64 (r.cfg.MaxRetries + 1)) (some lastErr)) }
          else some r
    else
      some ⟨{}, some (failedAfter (wrapInt64 (cfg.MaxRetries + 1)) lastErr), cfg, w⟩

/-- The result of `RequestWithRetry`: the returned pair, the caller's config
after the call (`none` for a nil pointer) and the world. -/
structure RetryResult (σ : Type) where
  resp : Response
  err : Option GoError
  cfg : Option RequestConfig
  world : World σ

/-- The method `NetSvc.RequestWithRetry` (src/request.go).  The loop gets
`MaxRetries + 2` iterations of fuel, one more than it can use. -/
def RequestWithRetry {σ : Type} (s : NetSvc σ) (cfg : Option RequestConfig) (w : World σ) :
    Option (RetryResult σ) :=
  match cfg with
  | none => some ⟨{}, some (GoError.errorsNew "nil RequestConfig provided"), none, w⟩
  | some cfg =>
    let cfg := if cfg.MaxRetries < 0 then { cfg with MaxRetries := 0 } else cfg
    let cfg := if cfg.Delay = none then { cfg with Delay := some (RetryDelay.ConstantDelay 1) } else cfg
    (retryLoop s (cfg.MaxRetries.toNat + 2) 0 none cfg w).map
      fun r => ⟨r.resp, r.err, some r.cfg, r.world⟩

/-! ## Strings and header names (`strings`, `net/textproto`) -/

/-- The function `strings.ToLower`: every rune goes through `unicode.ToLower`,
which shifts the ASCII letters `A` to `Z` and looks every rune beyond ASCII up
in the case tables of package `unicode`.  That lookup,
`unicode.To(unicode.LowerCase, r)`, is the parameter `toLowerCase`; the tables
are not among the sources. -/
def ToLower (toLowerCase : Char → Char) (s : String) : String :=
  String.mk (s.toList.map fun c => if c.toNat ≤ 127 then Char.toLower c else toLowerCase c)

/-- The predicate `unicode.IsSpace`. -/
def IsSpace (c : Char) : Bool :=
  let n := c.toNat
  (9 ≤ n && n ≤ 13) || n = 32 || n = 0x85 || n = 0xA0 || n = 0x1680
    || (0x2000 ≤ n && n ≤ 0x200a) || n = 0x2028 || n = 0x2029 || n = 0x202f
    || n = 0x205f || n = 0x3000

/-- The function `strings.TrimSpace`. -/
def TrimSpace (s : String) : String :=
  String.mk ((s.toList.dropWhile IsSpace).reverse.dropWhile IsSpace).reverse

/-- The predicate `validHeaderFieldByte` of `net/textproto`: the token
characters of RFC 7230. -/
def validHeaderFieldByte (c : Char) : Bool :=
  c.isAlphanum || c.toNat ∈ [33, 35, 36, 37, 38, 39, 42, 43, 45, 46, 94, 95, 96, 124, 126]

/-- The case rewriting of `canonicalMIMEHeaderKey`: upper case at the start and
after each dash, lower case elsewhere. -/
def canonicalChars : Bool → List Char → List Char
  | _, [] => []
  | upper, c :: rest =>
    let c' := if upper then c.toUpper else c.toLower
    c' :: canonicalChars (c' = '-') rest

/-- The function `textproto.CanonicalMIMEHeaderKey`: a key made of token
characters is rewritten to its canonical case, any other key is kept. -/
def CanonicalMIMEHeaderKey (s : String) : String :=
  if s.toList.all validHeaderFieldByte then String.mk (canonicalChars true s.toList) else s

/-- A `http.Header`: the values of each (canonical) header name. -/
abbrev Header := List (String × List String)

/-- The method `Header.Set`. -/
def Header.Set (h : Header) (k v : String) : Header := entriesSet h (CanonicalMIMEHeaderKey k) [v]

/-- The method `Header.Get`: the first value of the header, or `""`. -/
def Header.Get (h : Header) (k : String) : String :=
  match entriesGet h (CanonicalMIMEHeaderKey k) with
  | some (v :: _) => v
  | _ => ""

/-! ## Tokens (src/dto/models_token_info.go) -/

/-- A `time.Time` as the number of nanoseconds since the zero time, so that
`IsZero` is `= 0`, `After` is `>` and `Add` is `+`. -/
abbrev Time := Int

/-- A `time.Duration`: a 64-bit count of nanoseconds. -/
abbrev Duration := Int

/-- The fields of a `http.Cookie` that this code reads. -/
structure Cookie where
  Name : String
  Value : String
deriving DecidableEq, Repr

/-- The struct `dto.TokenInfo`. -/
structure TokenInfo where
  AccessToken : String := ""
  TokenType : String := ""
  Expiry : Time := 0
  Cookies : List Cookie := []
deriving DecidableEq, Repr

/-- The method `TokenInfo.IsExpired`, with the reading `now` of `time.Now()`.
`-buffer` is the 64-bit negation. -/
def TokenInfo.IsExpired (t : TokenInfo) (buffer : Duration) (now : Time) : Bool :=
  if t.AccessToken = "" ∧ t.Cookies.length = 0 then true
  else if t.Expiry = 0 then false
  else decide (now > t.Expiry + wrapInt64 (-buffer))

/-! ## The HTTP client (src/client/httpclient) -/

/-- The struct `httpclient.HTTPRequest`: the per-call mutable request. -/
structure HTTPRequest where
  Method : String := ""
  URL : String := ""
  Body : GoMap Value := none
  BodyType : String := ""
  Headers : GoMap String := none
  BodyBytes : Option Bytes := none
  ContentType : String := ""
deriving DecidableEq, Repr

/-- The method `HTTPRequestConfig.NewRequest`: both maps are allocated anew and
filled entry by entry. -/
def HTTPRequestConfig.NewRequest (c : HTTPRequestConfig) : HTTPRequest :=
  { Method := c.Method
    URL := c.URL
    BodyType := c.BodyType
    Headers := some (c.Headers.entries.foldl (fun m kv => entriesSet m kv.1 kv.2) [])
    Body := some (c.Body.entries.foldl (fun m kv => entriesSet m kv.1 kv.2) []) }

/-- The functions of the standard library behind `PrepareBody` and
`normalizeAuthType`: `json.Marshal(body)`, the `url.Values` encoding of the
entries rendered with `%v`, and the lower-case mapping of the runes beyond
ASCII that `strings.ToLower` uses. -/
structure BodyCodec where
  jsonMarshal : List (String × Value) → Except GoError Bytes
  formEncode : List (String × Value) → Bytes
  toLowerCase : Char → Char

/-- The function `utils.PrepareBody`: the bytes (`none` for nil), the content
type and the error. -/
def PrepareBody (codec : BodyCodec) (body : GoMap Value) (bodyType : String) :
    Option Bytes × String × Option GoError :=
  match body with
  | none => (none, "", none)
  | some entries =>
    if ToLower codec.toLowerCase bodyType = "application/json" then
      match codec.jsonMarshal entries with
      | .ok buf => (some buf, "application/json", none)
      | .error err => (none, "application/json", some err)
    else if ToLower codec.toLowerCase bodyType = "application/x-www-form-urlencoded" then
      (some (codec.formEncode entries), "application/x-www-form-urlencoded", none)
    else (none, "", some (GoError.errorsNew ("unsupported body_type: " ++ bodyType)))

/-- The method `HTTPRequest.FinalizeBody`: the request as it leaves it, and the error. -/
def HTTPRequest.FinalizeBody (codec : BodyCodec) (r : HTTPRequest) : HTTPRequest × Option GoError :=
  match r.BodyBytes with
  | some _ => (r, none)
  | none =>
    match PrepareBody codec r.Body r.BodyType with
    | (_, _, some err) => (r, some (GoError.errorf "prepare body: " err))
    | (bodyBuf, ct, none) =>
      ({ r with BodyBytes := bodyBuf, ContentType := if r.ContentType = "" then ct else r.ContentType },
        none)

/-- The function `normalizeAuthType` (src/client/httpclient/http_auth.go), with
the lower-case mapping of `strings.ToLower` beyond ASCII. -/
def normalizeAuthType (toLowerCase : Char → Char) (t : String) : String :=
  if ToLower toLowerCase (TrimSpace t) = "bearer" then "Bearer"
  else if ToLower toLowerCase (TrimSpace t) = "basic" then "Basic"
  else if t = "" then "Bearer"
  else t

/-- The method `HTTPClient.attachAuth`, on the stored token, with the lower-case
mapping that `normalizeAuthType` uses. -/
def attachAuth (toLowerCase : Char → Char) (token : TokenInfo) (cfg : HTTPRequest) :
    HTTPRequest :=
  let cfg := if cfg.Headers = none then { cfg with Headers := some [] } else cfg
  if token.AccessToken ≠ "" then
    { cfg with Headers := some (entriesSet cfg.Headers.entries "Authorization"
        (normalizeAuthType toLowerCase token.TokenType ++ " " ++ token.AccessToken)) }
  else if token.Cookies.length > 0 then
    { cfg with Headers := some (entriesSet cfg.Headers.entries "Cookie"
        (token.Cookies.foldl (fun merged ck => merged ++ ck.Name ++ "=" ++ ck.Value ++ "; ") "")) }
  else cfg

/-- The fields of an `oauth2.Token` that `refreshToken` reads. -/
structure OAuthToken where
  AccessToken : String := ""
  TokenType : String := ""
  Expiry : Time := 0
deriving DecidableEq, Repr

/-- A value of the interface `dto.AuthProvider`, acting on the external state. -/
structure AuthProvider (σ : Type) where
  Authenticate : σ → Except GoError TokenInfo × σ
  Refresh : σ → TokenInfo → Except GoError TokenInfo × σ

/-- A middleware over requests of type `ρ` (`httpclient.Middleware`,
`s3client.Middleware`): it may rewrite the request it is given, and returns an
error or nil. -/
abbrev MiddlewareOf (σ ρ : Type) := σ → ρ → (ρ × Option GoError) × σ

/-- A `httpclient.Middleware`. -/
abbrev Middleware (σ : Type) := MiddlewareOf σ HTTPRequest

/-- The middleware `StaticHeaderMiddleware` (src/client/httpclient/http_middleware.go). -/
def StaticHeaderMiddleware {σ : Type} (headers : GoMap String) : Middleware σ :=
  fun x r =>
    let r := if r.Headers = none then { r with Headers := some [] } else r
    let merged := headers.entries.foldl (fun m kv => entriesSet m kv.1 kv.2) r.Headers.entries
    (({ r with Headers := some merged }, none), x)

/-- The struct `httpclient.HTTPClientConfig`.  `OAuthSource` is the method
`Token()` of the `oauth2.TokenSource`. -/
structure HTTPClientConfig (σ : Type) where
  AuthProvider : Option (AuthProvider σ) := none
  OAuthSource : Option (σ → Except GoError OAuthToken × σ) := none
  RefreshBuffer : Duration := 0
  Middlewares : List (Middleware σ) := []

/-- The request handed to `http.Client.Do`. -/
structure WireRequest where
  Method : String
  URL : String
  Header : Header
  Body : Bytes
deriving DecidableEq, Repr

/-- The answer of `http.Client.Do`: an error, or a response whose body is read
by `io.ReadAll` into bytes or into a read error. -/
inductive DoResult where
  | failed (reqErr : GoError)
  | response (StatusCode : Int) (Header : Header) (body : Except GoError Bytes)

/-- The struct `s3.GetObjectInput`, as far as `Finalize` fills it. -/
structure GetObjectInput where
  Bucket : String
  Key : String
deriving DecidableEq, Repr

/-- The struct `s3.PutObjectInput`, as far as `Finalize` fills it; an unset
pointer field is `none`. -/
structure PutObjectInput where
  Bucket : String
  Key : String
  Body : Bytes
  ContentType : Option String := none
  Metadata : GoMap String := none
  CacheControl : Option String := none
deriving DecidableEq, Repr

/-- The struct `s3.DeleteObjectInput`, as far as `Finalize` fills it. -/
structure DeleteObjectInput where
  Bucket : String
  Key : String
deriving DecidableEq, Repr

/-- The struct `s3.ListObjectsV2Input`, as far as `Finalize` fills it. -/
structure ListObjectsV2Input where
  Bucket : String
  Prefix : Option String := none
deriving DecidableEq, Repr

/-- A call of the S3 SDK with the input pointer it is given (`none` for nil). -/
inductive S3Call where
  | GetObject (params : Option GetObjectInput)
  | PutObject (params : Option PutObjectInput)
  | DeleteObject (params : Option DeleteObjectInput)
  | ListObjectsV2 (params : Option ListObjectsV2Input)
deriving DecidableEq, Repr

/-- What a client (the HTTP client, the S3 client) does to the outside, in order. -/
inductive ClientEvent where
  /-- The call of the middleware registered at position `i`. -/
  | middleware (i : Nat)
  /-- The call `OAuthSource.Token()`. -/
  | oauthToken
  /-- The call `AuthProvider.Authenticate(ctx)`. -/
  | authenticate
  /-- The call `AuthProvider.Refresh(ctx, old)`. -/
  | refresh (old : TokenInfo)
  /-- The call `client.Do(httpReq)`: one network round-trip. -/
  | roundTrip (req : WireRequest)
  /-- A call of the S3 SDK. -/
  | sdk (call : S3Call)
deriving DecidableEq, Repr

/-- External state together with the log of what a client did to it. -/
structure ClientWorld (σ : Type) where
  ext : σ
  log : List ClientEvent

/-- The surroundings of the HTTP client: the clock `time.Now()`, the transport
`client.Do`, the order in which `range` visits the entries of a header map, the
error of `http.NewRequestWithContext(ctx, method, url, body)`, the cookies that
`http.Response.Cookies` parses out of one `Set-Cookie` line, and the body encoders. -/
structure HTTPEnv (σ : Type) where
  Now : σ → Time × σ
  Do : σ → WireRequest → DoResult × σ
  rangeOrder : List (String × String) → List (String × String)
  newRequestErr : String → String → Option GoError
  parseSetCookie : String → List Cookie
  codec : BodyCodec

/-- The struct `httpclient.HTTPClient`: its configuration and the stored token. -/
structure HTTPClient (σ : Type) where
  cfg : HTTPClientConfig σ
  token : TokenInfo := {}

/-- The method `HTTPClient.refreshToken`: the error, the client with its
stored token, and the world. -/
def HTTPClient.refreshToken {σ : Type} (env : HTTPEnv σ) (c : HTTPClient σ) (w : ClientWorld σ) :
    Option GoError × HTTPClient σ × ClientWorld σ :=
  let t := env.Now w.ext
  let w := { w with ext := t.2 }
  if !c.token.IsExpired c.cfg.RefreshBuffer t.1 then (none, c, w)
  else
    match c.cfg.OAuthSource with
    | some source =>
      let out := source w.ext
      let w : ClientWorld σ := ⟨out.2, w.log ++ [ClientEvent.oauthToken]⟩
      match out.1 with
      | .error err => (some (GoError.errorf "oauth2 token fetch: " err), c, w)
      | .ok oauthTok =>
        (none,
          { c with token := { c.token with
              AccessToken := oauthTok.AccessToken
              TokenType := normalizeAuthType env.codec.toLowerCase oauthTok.TokenType
              Expiry := oauthTok.Expiry } }, w)
    | none =>
      match c.cfg.AuthProvider with
      | some provider =>
        let first : Except GoError TokenInfo × ClientWorld σ :=
          if c.token.AccessToken = "" ∧ c.token.Cookies.length = 0 then
            let out := provider.Authenticate w.ext
            (out.1, ⟨out.2, w.log ++ [ClientEvent.authenticate]⟩)
          else
            let out := provider.Refresh w.ext c.token
            let w : ClientWorld σ := ⟨out.2, w.log ++ [ClientEvent.refresh c.token]⟩
            match out.1 with
            | .error _ =>
              let out := provider.Authenticate w.ext
              (out.1, ⟨out.2, w.log ++ [ClientEvent.authenticate]⟩)
            | .ok newTok => (.ok newTok, w)
        match first.1 with
        | .error err => (some (GoError.errorf "auth provider refresh: " err), c, first.2)
        | .ok newTok =>
          (none,
            { c with token :=
                { newTok with
                  TokenType := normalizeAuthType env.codec.toLowerCase newTok.TokenType } },
            first.2)
      | none => (none, c, w)

/-- The method `HTTPClient.ensureToken`. -/
def HTTPClient.ensureToken {σ : Type} (env : HTTPEnv σ) (c : HTTPClient σ) (w : ClientWorld σ) :
    Option GoError × HTTPClient σ × ClientWorld σ :=
  let t := env.Now w.ext
  let w := { w with ext := t.2 }
  let valid := !c.token.IsExpired c.cfg.RefreshBuffer t.1
  if valid then (none, c, w) else c.refreshToken env w

/-- The method `HTTPClient.storeOrReplaceCookie`, on the cookie list of the token. -/
def storeOrReplaceCookie : List Cookie → Cookie → List Cookie
  | [], cookie => [cookie]
  | existing :: rest, cookie =>
    if existing.Name = cookie.Name then cookie :: rest
    else existing :: storeOrReplaceCookie rest cookie

/-- The method `HTTPClient.captureCookiesFromResponse`, on the stored token. -/
def captureCookiesFromResponse {σ : Type} (env : HTTPEnv σ) (token : TokenInfo) (resp : Response) :
    TokenInfo :=
  let jar := ((entriesGet resp.Headers "Set-Cookie").getD []).foldl
    (fun jar line => (env.parseSetCookie line).foldl storeOrReplaceCookie jar) token.Cookies
  { token with Cookies := jar }

/-- The middleware loop of `ProcessRequest` (the same in the HTTP and in the S3
client), from the middleware at position `i`: the error of the first middleware
that fails, the request and the world. -/
def runMiddlewares {σ ρ : Type} :
    List (MiddlewareOf σ ρ) → Nat → ρ → ClientWorld σ → Option GoError × ρ × ClientWorld σ
  | [], _, req, w => (none, req, w)
  | mw :: rest, i, req, w =>
    let out := mw w.ext req
    let w : ClientWorld σ := ⟨out.2, w.log ++ [ClientEvent.middleware i]⟩
    match out.1.2 with
    | some err => (some err, out.1.1, w)
    | none => runMiddlewares rest (i + 1) out.1.1 w

/-- The header loop of `ProcessRequest` over the entries in the order `range` visits them. -/
def wireHeaders (visited : List (String × String)) : Header :=
  visited.foldl
    (fun h kv => if kv.1 = "Authorization" ∧ h.Get "Authorization" ≠ "" then h else h.Set kv.1 kv.2)
    []

/-- The error of `ProcessRequest` on a 401 response: `fmt.Errorf("unauthorized: %s", cfg.URL)`. -/
def unauthorizedErr (url : String) : GoError := GoError.errorsNew ("unauthorized: " ++ url)

/-- The method `HTTPClient.ProcessRequest` (src/client/httpclient/http_client.go):
the returned pair, the client with its stored token, and the world. -/
def HTTPClient.ProcessRequest {σ : Type} (env : HTTPEnv σ) (c : HTTPClient σ)
    (inCfg : RequestConfig) (w : ClientWorld σ) :
    (Response × Option GoError) × HTTPClient σ × ClientWorld σ :=
  match inCfg.ReqConfig with
  | some (ReqConfig.http cfg) =>
    let reqCfg := cfg.NewRequest
    match runMiddlewares c.cfg.Middlewares 0 reqCfg w with
    | (some err, _, w) => (({}, some (GoError.errorf "middleware aborted: " err)), c, w)
    | (none, reqCfg, w) =>
      match c.ensureToken env w with
      | (some err, c, w) => (({}, some (GoError.errorf "ensure token: " err)), c, w)
      | (none, c, w) =>
        let reqCfg := attachAuth env.codec.toLowerCase c.token reqCfg
        match reqCfg.FinalizeBody env.codec with
        | (_, some err) => (({}, some err), c, w)
        | (reqCfg, none) =>
          match env.newRequestErr reqCfg.Method reqCfg.URL with
          | some err => (({}, some (GoError.errorf "create request: " err)), c, w)
          | none =>
            let header := wireHeaders (env.rangeOrder reqCfg.Headers.entries)
            let header :=
              if reqCfg.ContentType ≠ "" ∧ header.Get "Content-Type" = "" then
                header.Set "Content-Type" reqCfg.ContentType
              else header
            let httpReq : WireRequest :=
              ⟨reqCfg.Method, reqCfg.URL, header, (reqCfg.BodyBytes).getD []⟩
            let out := env.Do w.ext httpReq
            let w : ClientWorld σ := ⟨out.2, w.log ++ [ClientEvent.roundTrip httpReq]⟩
            match out.1 with
            | .failed reqErr => (({}, some (GoError.errorf "perform request: " reqErr)), c, w)
            | .response _ _ (.error err) => (({}, some (GoError.errorf "read body: " err)), c, w)
            | .response status hdr (.ok bodyBytes) =>
              let response : Response := ⟨status, hdr, bodyBytes⟩
              let c :=
                if ((entriesGet response.Headers "Set-Cookie").getD []).length > 0 then
                  { c with token := captureCookiesFromResponse env c.token response }
                else c
              if response.StatusCode = 401 then ((response, some (unauthorizedErr cfg.URL)), c, w)
              else ((response, none), c, w)
  | _ => (({}, some (GoError.errorsNew "problem casting to httprequestconfig")), c, w)

/-! ## The S3 client (src/client/s3client) -/

/-- The struct `s3client.S3Request`: the per-call mutable request with the SDK
inputs that `Finalize` prepares. -/
structure S3Request where
  Operation : String := ""
  Bucket : String := ""
  Key : String := ""
  Body : Bytes := []
  Prefix : String := ""
  ContentType : String := ""
  ExtraOpts : GoMap ExtraOpt := none
  Headers : GoMap String := none
  PutInput : Option PutObjectInput := none
  GetInput : Option GetObjectInput := none
  DeleteInput : Option DeleteObjectInput := none
  ListInput : Option ListObjectsV2Input := none
deriving DecidableEq, Repr

/-- The method `S3RequestConfig.NewRequest`: both maps are allocated anew and
filled entry by entry. -/
def S3RequestConfig.NewRequest (c : S3RequestConfig) : S3Request :=
  { Operation := c.Operation
    Bucket := c.Bucket
    Key := c.Key
    Body := c.Body
    Prefix := c.Prefix
    ContentType := c.ContentType
    ExtraOpts := some (c.ExtraOpts.entries.foldl (fun m kv => entriesSet m kv.1 kv.2) [])
    Headers := some (c.Headers.entries.foldl (fun m kv => entriesSet m kv.1 kv.2) []) }

/-- The function `extractStringMap` (src/client/s3client/s3_finalize.go): the
copied map and whether the option holds a map. -/
def extractStringMap (extra : GoMap ExtraOpt) (key : String) : GoMap String × Bool :=
  match entriesGet extra.entries key with
  | none => (none, false)
  | some ExtraOpt.nil => (none, false)
  | some (ExtraOpt.stringMap v) =>
    (some (v.entries.foldl (fun out ks => entriesSet out ks.1 ks.2) []), true)
  | some (ExtraOpt.anyMap v) =>
    (some (v.entries.foldl
      (fun out kv =>
        match kv.2 with
        | Value.str str => entriesSet out kv.1 str
        | _ => out) []), true)
  | some _ => (none, false)

/-- The method `S3Request.Finalize`: the request as it leaves it, and the error. -/
def S3Request.Finalize (r : S3Request) : S3Request × Option GoError :=
  let r := { r with PutInput := none, GetInput := none, DeleteInput := none, ListInput := none }
  if r.Operation = "get" then
    ({ r with GetInput := some ⟨r.Bucket, r.Key⟩ }, none)
  else if r.Operation = "put" then
    let md := extractStringMap r.ExtraOpts "metadata"
    let input : PutObjectInput :=
      { Bucket := r.Bucket
        Key := r.Key
        Body := r.Body
        ContentType := if r.ContentType ≠ "" then some r.ContentType else none
        Metadata := if md.2 ∧ md.1.entries.length > 0 then md.1 else none
        CacheControl :=
          match entriesGet r.ExtraOpts.entries "cache_control" with
          | some (ExtraOpt.str v) => if v ≠ "" then some v else none
          | _ => none }
    ({ r with PutInput := some input }, none)
  else if r.Operation = "delete" then
    ({ r with DeleteInput := some ⟨r.Bucket, r.Key⟩ }, none)
  else if r.Operation = "list" then
    ({ r with ListInput := some ⟨r.Bucket, if r.Prefix ≠ "" then some r.Prefix else none⟩ }, none)
  else (r, some (GoError.errorsNew ("unsupported s3 operation: " ++ r.Operation)))

/-- The bytes of a string. -/
def utf8 (s : String) : Bytes := s.toUTF8.toList.map fun b => b.toNat

/-- The interface `s3API` on the external state, and the order in which `range`
visits the entries of a metadata map.  `GetObject` answers with the outcome of
reading the body and the metadata; `ListObjectsV2` with the keys of the
contents, `none` for a nil key. -/
structure S3Env (σ : Type) where
  GetObject : σ → Option GetObjectInput → Except GoError (Except GoError Bytes × GoMap String) × σ
  PutObject : σ → Option PutObjectInput → Option GoError × σ
  DeleteObject : σ → Option DeleteObjectInput → Option GoError × σ
  ListObjectsV2 : σ → Option ListObjectsV2Input → Except GoError (List (Option String)) × σ
  rangeOrder : List (String × String) → List (String × String)

/-- The struct `s3client.S3ClientConfig`, as far as `ProcessRequest` reads it. -/
structure S3ClientConfig (σ : Type) where
  Middlewares : List (MiddlewareOf σ S3Request) := []

/-- The struct `s3client.S3Client`. -/
structure S3Client (σ : Type) where
  cfg : S3ClientConfig σ

/-- The function `utils.MapToHeader` over the entries in the order `range` visits them. -/
def MapToHeader (visited : List (String × String)) : Header :=
  visited.foldl (fun h kv => h.Set kv.1 kv.2) []

/-- The method `S3Client.doGet`. -/
def S3Client.doGet {σ : Type} (env : S3Env σ) (r : S3Request) (w : ClientWorld σ) :
    (Response × Option GoError) × ClientWorld σ :=
  let out := env.GetObject w.ext r.GetInput
  let w : ClientWorld σ := ⟨out.2, w.log ++ [ClientEvent.sdk (S3Call.GetObject r.GetInput)]⟩
  match out.1 with
  | .error err => (({}, some (GoError.errorf "s3 get object: " err)), w)
  | .ok (.error err, _) => (({}, some (GoError.errorf "read s3 object: " err)), w)
  | .ok (.ok data, metadata) =>
    ((⟨200, MapToHeader (env.rangeOrder metadata.entries), data⟩, none), w)

/-- The method `S3Client.doPut`. -/
def S3Client.doPut {σ : Type} (env : S3Env σ) (r : S3Request) (w : ClientWorld σ) :
    (Response × Option GoError) × ClientWorld σ :=
  let out := env.PutObject w.ext r.PutInput
  let w : ClientWorld σ := ⟨out.2, w.log ++ [ClientEvent.sdk (S3Call.PutObject r.PutInput)]⟩
  match out.1 with
  | some err => (({}, some (GoError.errorf "s3 put object: " err)), w)
  | none => (({ StatusCode := 200 }, none), w)

/-- The method `S3Client.doDelete`. -/
def S3Client.doDelete {σ : Type} (env : S3Env σ) (r : S3Request) (w : ClientWorld σ) :
    (Response × Option GoError) × ClientWorld σ :=
  let out := env.DeleteObject w.ext r.DeleteInput
  let w : ClientWorld σ := ⟨out.2, w.log ++ [ClientEvent.sdk (S3Call.DeleteObject r.DeleteInput)]⟩
  match out.1 with
  | some err => (({}, some (GoError.errorf "s3 delete object: " err)), w)
  | none => (({ StatusCode := 200 }, none), w)

/-- The method `S3Client.doList`: one line per key of the contents. -/
def S3Client.doList {σ : Type} (env : S3Env σ) (r : S3Request) (w : ClientWorld σ) :
    (Response × Option GoError) × ClientWorld σ :=
  let out := env.ListObjectsV2 w.ext r.ListInput
  let w : ClientWorld σ := ⟨out.2, w.log ++ [ClientEvent.sdk (S3Call.ListObjectsV2 r.ListInput)]⟩
  match out.1 with
  | .error err => (({}, some (GoError.errorf "s3 list objects: " err)), w)
  | .ok keys =>
    (({ StatusCode := 200
        Body := keys.foldl (fun buf key => buf ++ utf8 (key.getD "" ++ "\n")) [] }, none), w)

/-- The method `S3Client.ProcessRequest` (src/client/s3client/s3_request.go). -/
def S3Client.ProcessRequest {σ : Type} (env : S3Env σ) (c : S3Client σ)
    (reqCfg : RequestConfig) (w : ClientWorld σ) : (Response × Option GoError) × ClientWorld σ :=
  match reqCfg.ReqConfig with
  | some (ReqConfig.s3 cfg) =>
    match runMiddlewares c.cfg.Middlewares 0 cfg.NewRequest w with
    | (some err, _, w) => (({}, some (GoError.errorf "middleware aborted: " err)), w)
    | (none, r, w) =>
      match r.Finalize with
      | (_, some err) => (({}, some err), w)
      | (r, none) =>
        if r.Operation = "get" then S3Client.doGet env r w
        else if r.Operation = "put" then S3Client.doPut env r w
        else if r.Operation = "delete" then S3Client.doDelete env r w
        else if r.Operation = "list" then S3Client.doList env r w
        else (({}, some (GoError.errorsNew ("unsupported s3 operation: " ++ r.Operation))), w)
  | _ => (({}, some (GoError.errorsNew "problem casting to s3requestconfig")), w)

/-! ## Reference traces and test doubles -/

/-- The events of one attempt numbered `a`: the wait that precedes every attempt
after the first, then the events `ev` of the evaluation itself. -/
def attemptTrace (d : RetryDelay) (task : String) (ev : List Event) (a : Int) : List Event :=
  (if a > 0 then [Event.wait d task a] else []) ++ ev

/-- The events of the attempts `a, a + 1, ..., a + k`. -/
def exhaustTrace (d : RetryDelay) (task : String) (ev : List Event) : Nat → Int → List Event
  | 0, a => attemptTrace d task ev a
  | k + 1, a => attemptTrace d task ev a ++ exhaustTrace d task ev k (a + 1)

/-- The number of `ProcessRequest` calls in a log. -/
def callCount (log : List Event) : Nat :=
  (log.filter fun e => match e with | Event.processRequest _ => true | _ => false).length

/-- The attempt numbers of the `Wait` calls in a log, in order. -/
def waitAttempts : List Event → List Int
  | [] => []
  | Event.wait _ _ a :: rest => a :: waitAttempts rest
  | Event.processRequest _ :: rest => waitAttempts rest

/-- The error that `RequestWithRetry` returns after the last attempt of an
exhausted budget: the attempt's own error, or the wrapped server error. -/
def finalErr (cfg : RequestConfig) (resp : Response) (err : Option GoError) : Option GoError :=
  match err with
  | some e => some e
  | none => some (failedAfter (wrapInt64 (cfg.MaxRetries + 1)) (some (serverError resp.StatusCode)))

/-- The config as the first `RequestOnce` of a call leaves it: past the two nil
checks an empty `TaskName` becomes `"http_request"`. -/
def normTask (cfg : RequestConfig) : RequestConfig :=
  if cfg.ClientRef = "" then cfg
  else match cfg.ReqConfig with
    | none => cfg
    | some _ => if cfg.TaskName = "" then { cfg with TaskName := "http_request" } else cfg

/-- The config as `RequestWithRetry` prepares it before its loop. -/
def prepared (cfg : RequestConfig) : RequestConfig :=
  let cfg := if cfg.MaxRetries < 0 then { cfg with MaxRetries := 0 } else cfg
  if cfg.Delay = none then { cfg with Delay := some (RetryDelay.ConstantDelay 1) } else cfg

/-- The error of the decoding step at the end of `RequestOnce`: the wrapped
error of `json.Unmarshal` when a decode target is set and the body is not empty. -/
def decodeErr {σ : Type} (s : NetSvc σ) (cfg : RequestConfig) (response : Response) :
    Option GoError :=
  match cfg.ResponseObject with
  | none => none
  | some target =>
    if response.Body.length > 0 then
      (s.unmarshal response.Body target).map (GoError.errorf "unmarshal response: ")
    else none

/-- What `RequestOnce` returns once the client has answered `out`. -/
def afterClient {σ : Type} (s : NetSvc σ) (cfg : RequestConfig)
    (out : Response × Option GoError) : Response × Option GoError :=
  match out.2 with
  | some err => ({}, some (GoError.errorf "perform request: " err))
  | none => (out.1, decodeErr s cfg out.1)

/-- The configuration errors of `RequestOnce`: an empty client reference, a
nil request config, a reference that names no registered client, or a request
config whose type tag differs from the type of the client. -/
def ConfigError {σ : Type} (s : NetSvc σ) (cfg : RequestConfig) : Prop :=
  cfg.ClientRef = "" ∨ cfg.ReqConfig = none ∨ s.clients cfg.ClientRef = none
  ∨ ∃ c rc, s.clients cfg.ClientRef = some c ∧ cfg.ReqConfig = some rc ∧ c.typ ≠ rc.Ref

/-- The error that `RequestOnce` returns on a configuration error. -/
def configErr {σ : Type} (s : NetSvc σ) (cfg : RequestConfig) : GoError :=
  if cfg.ClientRef = "" then GoError.errorsNew "nil ClientRef provided"
  else
    match cfg.ReqConfig with
    | none => GoError.errorsNew "nil ReqConfig provided"
    | some rc =>
      match s.clients cfg.ClientRef with
      | none => GoError.errorsNew ("client not found: " ++ cfg.ClientRef)
      | some netClient =>
        GoError.errorsNew ("client type mismatch: client=" ++ cfg.ClientRef ++ "("
          ++ netClient.typ ++ ") req=" ++ rc.Ref)

/-- The test double `fakeNetClient` of src/svc_test.go: it counts its calls in
the external state and answers call number `i` with `seq i`. -/
def fakeNetClient (typ : String) (seq : Nat → Response × Option GoError) : NetClient Nat :=
  { typ := typ, ProcessRequest := fun i _ => (seq i, i + 1) }

/-- The HTTP client as a registered client of the service: the stored token and
the world of the HTTP client make up the external state. -/
def HTTPClient.asNetClient {σ : Type} (env : HTTPEnv σ) (cfg : HTTPClientConfig σ) :
    NetClient (TokenInfo × ClientWorld σ) :=
  { typ := NetClientHTTPRef
    ProcessRequest := fun st inCfg =>
      let r := HTTPClient.ProcessRequest env ⟨cfg, st.1⟩ inCfg st.2
      (r.1, (r.2.1.token, r.2.2)) }

/-- The number of network round-trips in a log of the HTTP client. -/
def roundTrips (log : List ClientEvent) : Nat :=
  (log.filter fun e => match e with | ClientEvent.roundTrip _ => true | _ => false).length

/-- The number of S3 SDK calls in a log. -/
def sdkCalls (log : List ClientEvent) : Nat :=
  (log.filter fun e => match e with | ClientEvent.sdk _ => true | _ => false).length

/-- A double of the lower-case mapping beyond ASCII: the two runes whose lower
case is an ASCII letter, U+0130 (`i`) and U+212A (`k`); every other rune is
kept. -/
def lowerCaseDouble (c : Char) : Char :=
  if c.toNat = 0x130 then 'i' else if c.toNat = 0x212A then 'k' else c

/-- The encoders on the empty map (`{}` and the empty string); this double
encodes no other map as JSON. -/
def emptyBodyCodec : BodyCodec :=
  { jsonMarshal := fun entries =>
      match entries with
      | [] => .ok [123, 125]
      | _ :: _ => .error (GoError.errorsNew "json: unsupported value")
    formEncode := fun _ => []
    toLowerCase := lowerCaseDouble }

/-- A test server in the manner of `httptest`: every request is answered with
`status` and an empty body; the external state counts the requests served.
The clock stands at 1000 and `range` visits header entries in the order `order`. -/
def fakeEnv (order : List (String × String) → List (String × String)) (status : Int) :
    HTTPEnv Nat :=
  { Now := fun x => (1000, x)
    Do := fun x _ => (DoResult.response status [] (.ok []), x + 1)
    rangeOrder := order
    newRequestErr := fun _ _ => none
    parseSetCookie := fun _ => []
    codec := emptyBodyCodec }

/-- A token refresh at the world `w` fails: the stored token is expired at the
clock reading and the OAuth source returns an error; or, without an OAuth
source, the provider's `Authenticate` fails for a token without credential, or
its `Refresh` fails and the `Authenticate` that follows it fails as well. -/
def RefreshFails {σ : Type} (env : HTTPEnv σ) (c : HTTPClient σ) (w : ClientWorld σ) : Prop :=
  c.token.IsExpired c.cfg.RefreshBuffer (env.Now w.ext).1 = true ∧
  match c.cfg.OAuthSource, c.cfg.AuthProvider with
  | some source, _ => ∃ e, (source (env.Now w.ext).2).1 = .error e
  | none, some provider =>
    if c.token.AccessToken = "" ∧ c.token.Cookies.length = 0 then
      ∃ e, (provider.Authenticate (env.Now w.ext).2).1 = .error e
    else
      (∃ e, (provider.Refresh (env.Now w.ext).2 c.token).1 = .error e)
      ∧ ∃ e, (provider.Authenticate (provider.Refresh (env.Now w.ext).2 c.token).2).1 = .error e
  | none, none => False

/-- The number of calls to the auth provider (`Authenticate` or `Refresh`) in a log. -/
def providerCalls (log : List ClientEvent) : Nat :=
  (log.filter fun e =>
    match e with
    | ClientEvent.authenticate => true
    | ClientEvent.refresh _ => true
    | _ => false).length

/-- An OAuth source in the manner of the test suite's `staticTokenSource`: it
returns `out` and counts its calls in the external state. -/
def staticTokenSource (out : Except GoError OAuthToken) : Nat → Except GoError OAuthToken × Nat :=
  fun x => (out, x + 1)

/-- An auth provider double: `Authenticate` returns `auth`, `Refresh` returns
`refresh`, and each call is counted in the external state. -/
def fakeAuthProvider (auth refresh : Except GoError TokenInfo) : AuthProvider Nat :=
  { Authenticate := fun x => (auth, x + 1), Refresh := fun x _ => (refresh, x + 1) }

/-- An HTTP client whose stored token expired at 500 and whose OAuth source is down. -/
def failingOAuthClient : HTTPClient Nat :=
  { cfg := { OAuthSource := some (staticTokenSource (.error (GoError.errorsNew "oauth down"))) }
    token := { AccessToken := "old", TokenType := "Bearer", Expiry := 500 } }

/-- A plain GET of `http://h` through the client registered as `"c"`. -/
def getH : RequestConfig :=
  { ClientRef := "c"
    ReqConfig := some (ReqConfig.http { Method := "GET", URL := "http://h", BodyType := "application/json" }) }

/-- A GET of `http://h` whose config carries its own `authorization` header
(in lower case). -/
def getWithAuthorization : RequestConfig :=
  { ClientRef := "c"
    ReqConfig := some (ReqConfig.http
      { Method := "GET", URL := "http://h", BodyType := "application/json"
        Headers := some [("authorization", "Basic evil")] }) }

/-- An HTTP client without middleware or credential source that holds the
access token `tok`, valid indefinitely. -/
def tokenClient : HTTPClient Nat := { cfg := {}, token := { AccessToken := "tok" } }

/-- A middleware that returns the error `e`, as in the S3 client test
"middleware aborts before Finalize/SDK call". -/
def failingMiddleware {σ ρ : Type} (e : GoError) : MiddlewareOf σ ρ :=
  fun x r => ((r, some e), x)

/-- An HTTP client with three middlewares, the second of which fails with `boom`. -/
def abortingClient : HTTPClient Nat :=
  { cfg := { Middlewares :=
      [StaticHeaderMiddleware (some [("X-A", "1")]),
       failingMiddleware (GoError.errorsNew "boom"),
       StaticHeaderMiddleware (some [("X-B", "2")])] } }

/-- The SDK double `fakeS3` of src/client/s3client/s3_client_test.go with no
stubbed output: every call succeeds with an empty result and is counted in the
external state. -/
def fakeS3 : S3Env Nat :=
  { GetObject := fun x _ => (.ok (.ok [], none), x + 1)
    PutObject := fun x _ => (none, x + 1)
    DeleteObject := fun x _ => (none, x + 1)
    ListObjectsV2 := fun x _ => (.ok [], x + 1)
    rangeOrder := id }

/-- The S3 client of the test "middleware aborts before Finalize/SDK call": its
only middleware returns `boom`. -/
def abortingS3Client : S3Client Nat :=
  { cfg := { Middlewares := [failingMiddleware (GoError.errorsNew "boom")] } }

/-- The request of that test: a `get` of `s3://b/k`. -/
def getBK : RequestConfig :=
  { ClientRef := "s3"
    ReqConfig := some (ReqConfig.s3 { Operation := "get", Bucket := "b", Key := "k" }) }

/-- A service whose only client is `c`, registered as `"c"`, and whose JSON
decoding always succeeds. -/
def svcOf {σ : Type} (c : NetClient σ) : NetSvc σ :=
  { clients := fun ref => if ref = "c" then some c else none, unmarshal := fun _ _ => none }

/-! ## Further reference notions of the retry loop -/

/-- The world in which the attempt numbered `a` evaluates `RequestOnce`: after
the `Wait` that precedes every attempt but the first. -/
def attemptWorld {σ : Type} (d : RetryDelay) (cfg : RequestConfig) (a : Int) (w : World σ) :
    World σ :=
  if a > 0 then w.emit (Event.wait d cfg.TaskName a) else w

/-- Some error of the wrap chain has a `Temporary` method that returns false
(the reading "an error in its wrap chain reports `Temporary() == false`"),
whatever stands before it in the chain. -/
def GoError.chainReportsNonTransient : GoError → Bool
  | .leaf _ t => t == some false
  | .wrap _ t inner => t == some false || inner.chainReportsNonTransient

/-- A server in the manner of `httptest` that answers every request with
`status`, the headers `hdr` and the body `body`; the external state counts the
requests served and the clock stands at 1000. -/
def fakeServer (status : Int) (hdr : Header) (body : Bytes) : HTTPEnv Nat :=
  { Now := fun x => (1000, x)
    Do := fun x _ => (DoResult.response status hdr (.ok body), x + 1)
    rangeOrder := id
    newRequestErr := fun _ _ => none
    parseSetCookie := fun _ => []
    codec := emptyBodyCodec }


/-- A registered fake client that fails every call with the error `e`. -/
def failingSvc (e : GoError) : NetSvc Nat :=
  svcOf (fakeNetClient "" fun _ => ({}, some e))

/-- A config for the client `"c"` of `svcOf` with a constant delay policy. -/
def retryCfg (maxRetries : Int) : RequestConfig :=
  { ClientRef := "c", ReqConfig := some (ReqConfig.other ""), MaxRetries := maxRetries,
    Delay := some (RetryDelay.ConstantDelay 1), TaskName := "t" }


/-! ## Transfer notifications and the listener hub (src/dto/models.go, src/svc.go, src/helpers.go) -/

/-- Modelled from the spec: the type `dto.TransferStatus`, whose declaration is
not among the sources; the spec lists its four values, of which `COMPLETE`,
`ERROR` and `STOPPED` are terminal. -/
inductive TransferStatus where
  | IN_PROGRESS
  | COMPLETE
  | ERROR
  | STOPPED
deriving DecidableEq, Repr

/-- The struct `dto.TransferNotification`.  `Percentage` is a `float64` in the
source and here the rational number that the `float64` denotes. -/
structure TransferNotification where
  Source : String := ""
  Destination : String := ""
  Message : String := ""
  Status : TransferStatus
  Percentage : ℚ := 0
  TotalSize : Int := 0
  Downloaded : Int := 0
deriving DecidableEq

/-- A buffered channel of notifications: the pending values in the order sent,
the capacity given to `make`, and whether `close` was called. -/
structure Chan where
  buf : List TransferNotification := []
  cap : Nat := 0
  closed : Bool := false
deriving DecidableEq

/-- A message for the relay: `relays.RlyNetDownload` or `relays.RlyNetLog`.  A
`Status` that the struct literal leaves out is `none`. -/
inductive RelayMsg where
  | RlyNetDownload (Source Destination : String) (Status : Option TransferStatus)
      (Percentage : ℚ) (Msg : String)
  | RlyNetLog (Msg : String)
deriving DecidableEq

/-- A call of a method of the relay interface. -/
inductive RelayCall where
  | Info (m : RelayMsg)
  | Warn (m : RelayMsg)
  | Debug (m : RelayMsg)
deriving DecidableEq

/-- The notification side of `NetSvc`: the registry `listenersByURL` (channels
are named by their index in `chans`, the store of all channels made so far), the
map `transferState`, the sends handed to goroutines because a buffer was full
(`spawned`), and the calls received by the relay (`none` for a nil relay).
`published` records the arguments of `publishTransferUpdate` in call order. -/
structure Hub where
  listenersByURL : List (String × List Nat) := []
  chans : List Chan := []
  transferState : List (String × TransferNotification) := []
  spawned : List (Nat × TransferNotification) := []
  relay : Option (List RelayCall) := some []
  published : List TransferNotification := []
deriving DecidableEq

/-- The statement `delete(m, k)`. -/
def entriesDelete {α : Type} : List (String × α) → String → List (String × α)
  | [], _ => []
  | (k', v') :: rest, k => if k' = k then rest else (k', v') :: entriesDelete rest k

/-- The value of `s.listenersByURL[url]`: the nil slice for a missing key. -/
def Hub.listeners (h : Hub) (url : String) : List Nat :=
  (entriesGet h.listenersByURL url).getD []

/-- The method `NetSvc.TransferListener` (src/svc.go): the new channel, and the
hub after the call.  The returned closure is `Hub.unsub` at `sourceURL` and the
new channel. -/
def Hub.TransferListener (h : Hub) (sourceURL : String) : Nat × Hub :=
  let ch := h.chans.length
  (ch, { h with
    chans := h.chans ++ [{ buf := [], cap := 10, closed := false }]
    listenersByURL := entriesSet h.listenersByURL sourceURL (h.listeners sourceURL ++ [ch]) })

/-- The builtin `close(c)`: `none` is the panic on a channel that is closed
already (or nil). -/
def Hub.close (h : Hub) (c : Nat) : Option Hub :=
  match h.chans[c]? with
  | none => none
  | some ch =>
    if ch.closed then none
    else some { h with chans := h.chans.set c { ch with closed := true } }

/-- The closure `unsub` that `TransferListener` returns for `sourceURL` and the
channel `ch`. -/
def Hub.unsub (h : Hub) (sourceURL : String) (ch : Nat) : Option Hub :=
  let chans := h.listeners sourceURL
  let out := chans.filter (fun c => c ≠ ch)
  let h1 : Hub :=
    if out.length = 0 then
      { h with listenersByURL := entriesDelete h.listenersByURL sourceURL }
    else { h with listenersByURL := entriesSet h.listenersByURL sourceURL out }
  h1.close ch

/-- The method `NetSvc.TransferListenerClose`. -/
def Hub.TransferListenerClose (h : Hub) (sourceURL : String) : Option Hub :=
  match entriesGet h.listenersByURL sourceURL with
  | none => some h
  | some chans =>
    (chans.foldlM (fun (acc : Hub) c => acc.close c) h).map fun h1 =>
      { h1 with listenersByURL := entriesDelete h1.listenersByURL sourceURL }

/-- Whether a status is one of `COMPLETE`, `ERROR`, `STOPPED`. -/
def TransferStatus.isTerminal (s : TransferStatus) : Bool :=
  s == .COMPLETE || s == .ERROR || s == .STOPPED

/-- One iteration of the loop over the listeners in `publishTransferUpdate`: the
`select` with a send and a `default`.  A send on a closed channel panics
(`none`); a send on a channel with room appends to its buffer; with a full
buffer a terminal notification is handed to a new goroutine and a progress
notification is dropped. -/
def Hub.deliver (isTerminal : Bool) (state : TransferNotification) (h : Hub) (ch : Nat) :
    Option Hub :=
  match h.chans[ch]? with
  | none => none
  | some c =>
    if c.closed then none
    else if c.buf.length < c.cap then
      some { h with chans := h.chans.set ch { c with buf := c.buf ++ [state] } }
    else if isTerminal then some { h with spawned := h.spawned ++ [(ch, state)] }
    else some h

/-- The method `NetSvc.publishTransferUpdate` (src/helpers.go); `none` is a
panic of the publisher. -/
def Hub.publishTransferUpdate (h : Hub) (state : TransferNotification) : Option Hub :=
  let h1 : Hub := { h with
    transferState := entriesSet h.transferState state.Destination state
    published := h.published ++ [state] }
  let listeners := h1.listeners state.Source
  let isTerminal := state.Status.isTerminal
  (listeners.foldlM (Hub.deliver isTerminal state) h1).map fun h2 =>
    match h2.relay with
    | none => h2
    | some calls =>
      { h2 with relay := some (calls ++ [RelayCall.Info
          (RelayMsg.RlyNetDownload state.Source state.Destination (some state.Status)
            state.Percentage state.Message)]) }

/-- A registered channel is in order: it exists, is open, has capacity 10 and at
most 10 pending notifications. -/
def Hub.chanOK (h : Hub) (ch : Nat) : Bool :=
  match h.chans[ch]? with
  | none => false
  | some c => !c.closed && c.cap == 10 && decide (c.buf.length ≤ 10)

/-- The invariant of the hub that `TransferListener`, `unsub` and
`publishTransferUpdate` keep: the registry has one entry per URL, no entry is
empty or lists a channel twice, a channel is registered under one URL only, and
every registered channel is in order. -/
def Hub.WF (h : Hub) : Prop :=
  (h.listenersByURL.map Prod.fst).Nodup
  ∧ (∀ e ∈ h.listenersByURL, e.2.Nodup ∧ e.2 ≠ [])
  ∧ (∀ e1 ∈ h.listenersByURL, ∀ e2 ∈ h.listenersByURL, ∀ ch ∈ e1.2, ch ∈ e2.2 → e1.1 = e2.1)
  ∧ ∀ e ∈ h.listenersByURL, ∀ ch ∈ e.2, h.chanOK ch = true

instance (h : Hub) : Decidable h.WF := by
  unfold Hub.WF
  infer_instance


/-- The effect of a non-blocking send on a channel: the value joins the buffer
when there is room, and the channel is left as it is otherwise. -/
def Chan.offer (c : Chan) (n : TransferNotification) : Chan :=
  if c.buf.length < c.cap then { c with buf := c.buf ++ [n] } else c


/-- A progress notification for the URL `"u"`. -/
def progressNote (pct : ℚ) : TransferNotification :=
  { Source := "u", Destination := "/tmp/f", Status := TransferStatus.IN_PROGRESS,
    Percentage := pct }

/-- A hub with two listeners of `"u"`, channel 0 with a full buffer and channel 1
with one pending notification, and one listener of `"v"`, channel 2. -/
def exampleHub : Hub :=
  { listenersByURL := [("u", [0, 1]), ("v", [2])]
    chans := [{ buf := List.replicate 10 (progressNote 1), cap := 10 },
              { buf := [progressNote 1], cap := 10 },
              { buf := [], cap := 10 }] }


/-! ## Downloads (src/download.go, src/helpers.go, src/utils) -/

/-- The function `errors.Is` on the wrap chain; the sentinel errors are compared
by value. -/
def errorsIs : GoError → GoError → Bool
  | .leaf m t, target => GoError.leaf m t == target
  | .wrap m t inner, target => GoError.wrap m t inner == target || errorsIs inner target

/-- The sentinel `context.Canceled`. -/
def contextCanceled : GoError := GoError.leaf "context canceled" none

/-- The sentinel `context.DeadlineExceeded`, whose `Temporary` method returns true. -/
def contextDeadlineExceeded : GoError := GoError.leaf "context deadline exceeded" (some true)

/-- The sentinel `io.EOF`. -/
def EOF : GoError := GoError.leaf "EOF" none

/-- The struct `dto.DownloadFileConfig`. -/
structure DownloadFileConfig where
  Blocking : Bool := false
  Checksum : String := ""
  URL : String := ""
  DestinationFolder : String := ""
  OutputFileName : String := ""
  SkipAllowedPaths : Bool := false
deriving DecidableEq, Repr

/-- Modelled from the spec: the two fields of `config.NetSvcConfig` that the
download reads; the package `config` is not among the sources. -/
structure NetSvcConfig where
  PreferCurlDownloads : Bool := false
  DownloadCallbackInterval : Duration := 0
deriving DecidableEq, Repr

/-- What the download reads of an `http.Response`. -/
structure HTTPResp where
  StatusCode : Int
  Status : String
  ContentLength : Int
deriving DecidableEq, Repr

/-- The case of the `select` in the loop of `downloadFileWithCurl` that fires:
the ticker, `ctx.Done()`, or the result of `curlCmd.Wait()` on `done`. -/
inductive CurlEvent where
  | tick
  | ctxDone
  | done (err : Option GoError)
deriving DecidableEq

/-- The libraries and the outside world of a download, on the external state
`σ`: pure library functions (`url.Parse` followed by `EscapedPath`,
`url.QueryUnescape`, `filepath.Base`, `filepath.Dir`, `filepath.Join`,
`strconv.ParseFloat` with the rational that the float denotes), the error of
`http.NewRequestWithContext`, and the effects.  `ctxErr` is `ctx.Err()`, and
`ctx.Done()` is ready exactly when it is not nil; `bodyRead x k` is a `Read`
of the response body into a buffer of `k` bytes and `fileWrite x n` a `Write`
of `n` bytes to the output file, both as byte counts; `select` tells which
case of the curl loop fires next; `stderrBuf` is the content of the buffer that
collects the standard error of curl. -/
structure DownloadEnv (σ : Type) where
  urlEscapedPath : String → Except GoError String
  QueryUnescape : String → Except GoError String
  Base : String → String
  Dir : String → String
  Join : String → String → String
  ParseFloat : String → Except GoError ℚ
  newRequestErr : String → Option GoError
  MkdirAll : σ → String → Option GoError × σ
  Do : σ → String → Except GoError HTTPResp × σ
  Create : σ → String → Option GoError × σ
  ctxErr : σ → Option GoError
  bodyRead : σ → Nat → (Nat × Option GoError) × σ
  fileWrite : σ → Nat → (Int × Option GoError) × σ
  Now : σ → Time × σ
  Sha256SumFile : σ → String → Except GoError String × σ
  Start : σ → String → String → Option GoError × σ
  select : σ → CurlEvent × σ
  stderrBuf : σ → String
  setStderrBuf : σ → String → σ
  Kill : σ → σ

/-- The service during a download: its hub and the external state. -/
structure Svc (σ : Type) where
  hub : Hub
  ext : σ

/-- A call of a method of `s.relay`; `none` is the panic on a nil relay. -/
def Hub.relayCall (h : Hub) (c : RelayCall) : Option Hub :=
  match h.relay with
  | none => none
  | some calls => some { h with relay := some (calls ++ [c]) }

/-- The call `s.publishTransferUpdate(n)` on the service. -/
def Svc.publish {σ : Type} (s : Svc σ) (n : TransferNotification) : Option (Svc σ) :=
  (s.hub.publishTransferUpdate n).map fun h => { s with hub := h }

/-- The function `utils.FilenameFromUrl` (src/utils/filename_from_url.go): the
error of `url.QueryUnescape` is dropped and the empty string is used. -/
def FilenameFromUrl {σ : Type} (env : DownloadEnv σ) (inputUrl : String) :
    Except GoError String :=
  match env.urlEscapedPath inputUrl with
  | .error err => .error err
  | .ok escaped =>
    let x := match env.QueryUnescape escaped with
      | .ok x => x
      | .error _ => ""
    .ok (env.Base x)

/-- The function `utils.Sha256SumVerify` (src/utils/sha256.go). -/
def Sha256SumVerify {σ : Type} (env : DownloadEnv σ) (x : σ) (path checksum : String) :
    Option GoError × σ :=
  match env.Sha256SumFile x path with
  | (.error hashErr, x1) => (some hashErr, x1)
  | (.ok targetHash, x1) =>
    if checksum ≠ targetHash then (some (GoError.errorsNew "invalid checksum"), x1)
    else (none, x1)

/-- The function `strings.TrimSuffix`. -/
def TrimSuffix (s suffix : String) : String :=
  if suffix.toList.isSuffixOf s.toList then
    String.mk (s.toList.take (s.toList.length - suffix.toList.length))
  else s

/-- The function `utils.ParsePercentage` (src/utils/parse_percentage.go). -/
def ParsePercentage {σ : Type} (env : DownloadEnv σ) (input : String) : Except GoError ℚ :=
  let input := TrimSpace input
  let input := TrimSuffix input "%"
  match env.ParseFloat input with
  | .error err => .error (GoError.errorsNew ("invalid number: " ++ err.Error))
  | .ok value => .ok value

/-- Modelled from the spec: `utils.Flush`, of which only the test is among the
sources: the content of the buffer, whether it is not empty, and the buffer
reset to empty. -/
def Flush (buf : String) : (String × Bool) × String := ((buf, decide (buf ≠ "")), "")


/-- The struct `progressReader` (src/helpers.go) without its context, reader and
callback, which the functions below take as arguments. -/
structure progressReader where
  total : Int
  readSoFar : Int := 0
  lastReport : Time
  lastBytes : Int := 0
  interval : Duration
  startTime : Time
deriving DecidableEq, Repr

/-! ## Arithmetic of `float64` -/

/-- The number of binary digits of `n`, for `n < 2 ^ fuel`. -/
def bitLen : Nat → Nat → Nat
  | 0, _ => 0
  | fuel + 1, n => if n = 0 then 0 else bitLen fuel (n / 2) + 1

/-- The value of type `float64` nearest to the rational `x`, as the rational it
denotes: the rounding to nearest, ties to the even significand, of IEEE 754
binary64, which Go applies to the result of every conversion to `float64` and of
every arithmetic operation on it.  With `2 ^ e` the largest power of two not
above the magnitude of `x` (and `e` at least -1022, below which the values are
subnormal), the result is the multiple of `2 ^ (e - 52)` nearest to `x`, the
even multiple when `x` is half way between two.  A magnitude of `2 ^ 1024` or
more, which is an infinity in the source, does not arise from the values of
type `int64` that the progress reader computes with. -/
def roundFloat64 (x : ℚ) : ℚ :=
  if x.num = 0 then 0
  else
    let n : Nat := x.num.natAbs
    let d : Nat := x.den
    let e0 : Int := (bitLen n n : Int) - (bitLen d d : Int)
    let e1 : Int := if n * 2 ^ (-e0).toNat < d * 2 ^ e0.toNat then e0 - 1 else e0
    let e : Int := max e1 (-1022)
    let num1 : Nat := n * 2 ^ (52 - e).toNat
    let den1 : Nat := d * 2 ^ (e - 52).toNat
    let q : Nat := num1 / den1
    let r : Nat := num1 % den1
    let q1 : Nat := if 2 * r > den1 ∨ (2 * r = den1 ∧ q % 2 = 1) then q + 1 else q
    let m : ℚ := (q1 : ℚ) * 2 ^ (e - 52).toNat / 2 ^ (52 - e).toNat
    if x.num < 0 then -m else m

/-- The conversion `float64(i)` of an integer. -/
def float64OfInt (i : Int) : ℚ := roundFloat64 (i : ℚ)

/-- The quotient `x / y` of two values of type `float64`, for `y` other than 0. -/
def float64Div (x y : ℚ) : ℚ := roundFloat64 (x / y)

/-- The product `x * y` of two values of type `float64`. -/
def float64Mul (x y : ℚ) : ℚ := roundFloat64 (x * y)

/-- The percentage that `progressReader.Read` reports: for a positive total
`float64(readSoFar) / float64(total) * 100`, every step rounded as `float64`
rounds, replaced by 100 when it is above 100; 0 otherwise. -/
def progressPct (readSoFar total : Int) : ℚ :=
  if total > 0 then
    let pct : ℚ := float64Mul (float64Div (float64OfInt readSoFar) (float64OfInt total)) 100
    if pct > 100 then 100 else pct
  else 0

/-- The method `progressReader.Read` on a buffer of `k` bytes: the returned
pair, the reader and the service; `none` is a panic of the callback.  The speed
and the remaining time, which the callback of the download ignores, are left
out. -/
def progressReader.Read {σ : Type} (env : DownloadEnv σ)
    (onProgress : Int → Int → ℚ → Svc σ → Option (Svc σ))
    (pr : progressReader) (s : Svc σ) (k : Nat) :
    Option ((Nat × Option GoError) × progressReader × Svc σ) :=
  match env.ctxErr s.ext with
  | some ctxErr => some ((0, some ctxErr), pr, s)
  | none =>
    let r := env.bodyRead s.ext k
    let n := r.1.1
    let err := r.1.2
    let s : Svc σ := { s with ext := r.2 }
    if n > 0 then
      let pr := { pr with readSoFar := wrapInt64 (pr.readSoFar + n) }
      let t := env.Now s.ext
      let now := t.1
      let s : Svc σ := { s with ext := t.2 }
      if now - pr.lastReport ≥ pr.interval then
        match onProgress pr.readSoFar pr.total (progressPct pr.readSoFar pr.total) s with
        | none => none
        | some s => some ((n, err), { pr with lastReport := now, lastBytes := pr.readSoFar }, s)
      else some ((n, err), pr, s)
    else some ((n, err), pr, s)

/-- The error `io.ErrShortWrite`. -/
def ErrShortWrite : GoError := GoError.errorsNew "short write"

/-- The error `errInvalidWrite` of package `io`. -/
def errInvalidWrite : GoError := GoError.errorsNew "invalid write result"

/-- The loop of `io.CopyBuffer(out, pr, buf)` with a buffer of `k` bytes: the
returned error, the reader and the service.  The loop is bounded by `fuel`
reads; `none` means that the fuel ran out or that the callback panicked. -/
def copyBuffer {σ : Type} (env : DownloadEnv σ)
    (onProgress : Int → Int → ℚ → Svc σ → Option (Svc σ)) (k : Nat) :
    Nat → progressReader → Svc σ → Option (Option GoError × progressReader × Svc σ)
  | 0, _, _ => none
  | fuel + 1, pr, s =>
    match pr.Read env onProgress s k with
    | none => none
    | some ((nr, er), pr, s) =>
      let written : Option GoError × Svc σ :=
        if nr > 0 then
          let w := env.fileWrite s.ext nr
          let nw := w.1.1
          let ew := w.1.2
          let ew := if nw < 0 ∨ (nr : Int) < nw then (if ew = none then some errInvalidWrite else ew)
            else ew
          let nw := if nw < 0 ∨ (nr : Int) < nw then 0 else nw
          match ew with
          | some e => (some e, { s with ext := w.2 })
          | none =>
            if (nr : Int) ≠ nw then (some ErrShortWrite, { s with ext := w.2 })
            else (none, { s with ext := w.2 })
        else (none, s)
      match written.1 with
      | some e => some (some e, pr, written.2)
      | none =>
        match er with
        | some e => if e = EOF then some (none, pr, written.2) else some (some e, pr, written.2)
        | none => copyBuffer env onProgress k fuel pr written.2

/-- Publish the notification `n` and return the error `err`. -/
def Svc.publishAndReturn {σ : Type} (s : Svc σ) (n : TransferNotification)
    (err : Option GoError) : Option (Option GoError × Svc σ) :=
  (s.publish n).map fun s1 => (err, s1)

/-- The interval between two progress reports: the configured one, or two
seconds (in nanoseconds) when that is not positive. -/
def reportInterval (cfg : NetSvcConfig) : Duration :=
  if cfg.DownloadCallbackInterval ≤ 0 then 2 * 1000000000 else cfg.DownloadCallbackInterval


/-- The closure `report` of `downloadFileWithHTTP`. -/
def report {σ : Type} (url destination : String) (downloaded total : Int) (percent : ℚ)
    (s : Svc σ) : Option (Svc σ) :=
  s.publish { Source := url, Destination := destination, Status := TransferStatus.IN_PROGRESS,
              Downloaded := downloaded, TotalSize := total, Percentage := percent }

/-- The end of both backends after a transfer without error: the checksum, when
one is set, and the `COMPLETE` notification `complete`. -/
def verifyAndComplete {σ : Type} (env : DownloadEnv σ) (s : Svc σ) (cfg : DownloadFileConfig)
    (destination : String) (complete : TransferNotification) : Option (Option GoError × Svc σ) :=
  let check : Option GoError × σ :=
    if cfg.Checksum ≠ "" then Sha256SumVerify env s.ext destination cfg.Checksum
    else (none, s.ext)
  let s : Svc σ := { s with ext := check.2 }
  match check.1 with
  | some checkErr =>
    s.publishAndReturn
      { Source := cfg.URL, Destination := destination, Status := TransferStatus.ERROR,
        Percentage := 100, Message := "failed to verify checksum" }
      (some (GoError.errorf "checksum verification failed: " checkErr))
  | none => s.publishAndReturn complete none

/-- The method `NetSvc.downloadFileWithHTTP` (src/download.go): the returned
error and the service; `none` is a panic, or a copy loop that outlasts `fuel`
reads.  The deferred `Close` calls are left out, and `%q` is rendered with
plain quotation marks. -/
def downloadFileWithHTTP {σ : Type} (env : DownloadEnv σ) (svcCfg : NetSvcConfig) (fuel : Nat)
    (s : Svc σ) (cfg : DownloadFileConfig) (destination : String) :
    Option (Option GoError × Svc σ) :=
  match s.hub.relayCall (RelayCall.Debug (RelayMsg.RlyNetDownload cfg.URL destination
      (some TransferStatus.IN_PROGRESS) 0 "Downloading via net/http")) with
  | none => none
  | some hub =>
    let s : Svc σ := { s with hub := hub }
    let errNote (status : TransferStatus) (msg : String) : TransferNotification :=
      { Source := cfg.URL, Destination := destination, Status := status, Message := msg }
    let mk := env.MkdirAll s.ext (env.Dir destination)
    let s : Svc σ := { s with ext := mk.2 }
    match mk.1 with
    | some err =>
      s.publishAndReturn (errNote TransferStatus.ERROR err.Error)
        (some (GoError.errorf ("could not create destination folder \"" ++ destination ++ "\": ")
          err))
    | none =>
      match env.newRequestErr cfg.URL with
      | some err =>
        s.publishAndReturn (errNote TransferStatus.ERROR err.Error)
          (some (GoError.errorf "failed to build request: " err))
      | none =>
        let d := env.Do s.ext cfg.URL
        let s : Svc σ := { s with ext := d.2 }
        match d.1 with
        | .error err =>
          if errorsIs err contextCanceled || errorsIs err contextDeadlineExceeded then
            s.publishAndReturn (errNote TransferStatus.STOPPED err.Error) (some err)
          else
            s.publishAndReturn (errNote TransferStatus.ERROR err.Error)
              (some (GoError.errorf "failed to start download: " err))
        | .ok resp =>
          if resp.StatusCode ≥ 400 then
            s.publishAndReturn (errNote TransferStatus.ERROR ("bad HTTP status: " ++ resp.Status))
              (some (GoError.errorsNew ("bad HTTP status: " ++ resp.Status)))
          else
            let cr := env.Create s.ext destination
            let s : Svc σ := { s with ext := cr.2 }
            match cr.1 with
            | some err =>
              s.publishAndReturn (errNote TransferStatus.ERROR err.Error)
                (some (GoError.errorf ("could not create output file \"" ++ destination ++ "\": ")
                  err))
            | none =>
              let total := resp.ContentLength
              let warned : Option Hub :=
                if total ≤ 0 then
                  s.hub.relayCall (RelayCall.Warn
                    (RelayMsg.RlyNetDownload cfg.URL "" none 0 "unknown file size"))
                else some s.hub
              match warned with
              | none => none
              | some hub =>
                let s : Svc σ := { s with hub := hub }
                let t1 := env.Now s.ext
                let t2 := env.Now t1.2
                let s : Svc σ := { s with ext := t2.2 }
                let pr : progressReader :=
                  { total := total, interval := reportInterval svcCfg, lastReport := t1.1,
                    startTime := t2.1 }
                match copyBuffer env (report cfg.URL destination) (64 * 1024) fuel pr s with
                | none => none
                | some (some err, _, s) =>
                  if errorsIs err contextCanceled then
                    s.publishAndReturn
                      { Source := cfg.URL, Destination := destination,
                        Status := TransferStatus.STOPPED }
                      (env.ctxErr s.ext)
                  else
                    s.publishAndReturn (errNote TransferStatus.ERROR err.Error)
                      (some (GoError.errorf ("file transfer failed for " ++ cfg.URL ++ ": ") err))
                | some (none, _, s) =>
                  verifyAndComplete env s cfg destination
                    { Source := cfg.URL, Destination := destination,
                      Status := TransferStatus.COMPLETE, Downloaded := total, TotalSize := total,
                      Percentage := 100, Message := "download complete" }


/-- The `for`/`select` loop of `downloadFileWithCurl`, bounded by `fuel` events.
The length of the flushed text and its last six places are taken in characters,
which are bytes for the ASCII output of curl. -/
def curlLoop {σ : Type} (env : DownloadEnv σ) (cfg : DownloadFileConfig) (destination : String) :
    Nat → Svc σ → Option (Option GoError × Svc σ)
  | 0, _ => none
  | fuel + 1, s =>
    let ev := env.select s.ext
    let s : Svc σ := { s with ext := ev.2 }
    match ev.1 with
    | .tick =>
      let fl := Flush (env.stderrBuf s.ext)
      let msg := fl.1.1
      let s : Svc σ := { s with ext := env.setStderrBuf s.ext fl.2 }
      if fl.1.2 ∧ msg.toList.length ≥ 6 then
        match ParsePercentage env (String.mk (msg.toList.drop (msg.toList.length - 6))) with
        | .ok parsed =>
          let parsed : ℚ := if parsed > 100 then 100 else parsed
          match s.publish { Source := cfg.URL, Destination := destination,
                            Status := TransferStatus.IN_PROGRESS, Percentage := parsed } with
          | none => none
          | some s => curlLoop env cfg destination fuel s
        | .error _ => curlLoop env cfg destination fuel s
      else curlLoop env cfg destination fuel s
    | .ctxDone =>
      let s : Svc σ := { s with ext := env.Kill s.ext }
      s.publishAndReturn
        { Source := cfg.URL, Destination := destination, Status := TransferStatus.STOPPED }
        (env.ctxErr s.ext)
    | .done (some err) =>
      s.publishAndReturn
        { Source := cfg.URL, Destination := destination, Status := TransferStatus.ERROR,
          Message := err.Error }
        (some (GoError.errorf "curl download failed: " err))
    | .done none =>
      verifyAndComplete env s cfg destination
        { Source := cfg.URL, Destination := destination, Status := TransferStatus.COMPLETE,
          Percentage := 100, Message := "download complete" }

/-- The method `NetSvc.downloadFileWithCurl` (src/download.go). -/
def downloadFileWithCurl {σ : Type} (env : DownloadEnv σ) (fuel : Nat)
    (s : Svc σ) (cfg : DownloadFileConfig) (destination : String) :
    Option (Option GoError × Svc σ) :=
  match s.hub.relayCall (RelayCall.Debug (RelayMsg.RlyNetDownload cfg.URL destination
      (some TransferStatus.IN_PROGRESS) 0 "Downloading via curl")) with
  | none => none
  | some hub =>
    let s : Svc σ := { s with hub := hub }
    let mk := env.MkdirAll s.ext (env.Dir destination)
    let s : Svc σ := { s with ext := mk.2 }
    match mk.1 with
    | some err =>
      some (some (GoError.errorf
        ("could not create destination folder \"" ++ destination ++ "\": ") err), s)
    | none =>
      let st := env.Start s.ext destination cfg.URL
      let s : Svc σ := { s with ext := st.2 }
      match st.1 with
      | some err => some (some (GoError.errorf "failed to start curl: " err), s)
      | none => curlLoop env cfg destination fuel s

/-- The method `NetSvc.DownloadFile` (src/download.go): the returned error, the
caller's config, whose `OutputFileName` the method fills in, and the service. -/
def DownloadFile {σ : Type} (env : DownloadEnv σ) (svcCfg : NetSvcConfig) (fuel : Nat)
    (s : Svc σ) (cfg : DownloadFileConfig) :
    Option (Option GoError × DownloadFileConfig × Svc σ) :=
  let named : Except GoError DownloadFileConfig :=
    if cfg.OutputFileName = "" then
      match FilenameFromUrl env cfg.URL with
      | .error err => .error err
      | .ok filename => .ok { cfg with OutputFileName := filename }
    else .ok cfg
  match named with
  | .error err => some (some err, cfg, s)
  | .ok cfg =>
    let destination := env.Join cfg.DestinationFolder cfg.OutputFileName
    match s.hub.relayCall (RelayCall.Info (RelayMsg.RlyNetDownload cfg.URL destination
        (some TransferStatus.IN_PROGRESS) 0 ("starting download: " ++ cfg.URL))) with
    | none => none
    | some hub =>
      let s : Svc σ := { s with hub := hub }
      let r :=
        if svcCfg.PreferCurlDownloads then downloadFileWithCurl env fuel s cfg destination
        else downloadFileWithHTTP env svcCfg fuel s cfg destination
      r.map fun out => (out.1, cfg, out.2)


/-- The outside world of the download doubles: the reads of the body and the
events of the curl loop served so far, a clock that every read advances by one,
the standard error of curl, and the number of bytes written to the output file. -/
structure FakeWorld where
  reads : Nat := 0
  events : Nat := 0
  clock : Nat := 0
  stderr : String := ""
  written : Nat := 0
deriving DecidableEq, Repr

/-- A scenario for the download doubles: whether the URL parses, the errors of
the file system, the answer of the server, the context error as a function of
the clock, the outcome of each read of the body, the start of curl and the
events of its loop, and the checksum of the written file. -/
structure Scenario where
  parseErr : Option GoError := none
  mkdirErr : Option GoError := none
  doResult : Except GoError HTTPResp := .ok ⟨200, "200 OK", 8⟩
  createErr : Option GoError := none
  ctxErr : Nat → Option GoError := fun _ => none
  body : Nat → Nat × Option GoError := fun i => if i < 2 then (4, none) else (0, some EOF)
  startErr : Option GoError := none
  events : Nat → CurlEvent := fun _ => CurlEvent.done none
  progress : Nat → String := fun _ => ""
  sum : String := "abc"

/-- The download double of a scenario: the last path segment stands for the file
name, joining is concatenation with `/`, and every call of `Now` reads the
clock in seconds. -/
def fakeDownloadEnv (sc : Scenario) : DownloadEnv FakeWorld :=
  { urlEscapedPath := fun u =>
      match sc.parseErr with
      | some e => .error e
      | none => .ok u
    QueryUnescape := fun p => .ok p
    Base := fun p => String.mk (((p.toList.reverse.takeWhile (fun c => c ≠ '/'))).reverse)
    Dir := fun p => String.mk (((p.toList.reverse.dropWhile (fun c => c ≠ '/')).drop 1).reverse)
    Join := fun a b => a ++ "/" ++ b
    ParseFloat := fun _ => .ok 50
    newRequestErr := fun _ => none
    MkdirAll := fun x _ => (sc.mkdirErr, x)
    Do := fun x _ => (sc.doResult, x)
    Create := fun x _ => (sc.createErr, x)
    ctxErr := fun x => sc.ctxErr x.clock
    bodyRead := fun x _ => (sc.body x.reads, { x with reads := x.reads + 1, clock := x.clock + 1 })
    fileWrite := fun x n => ((n, none), { x with written := x.written + n })
    Now := fun x => ((x.clock : Int) * 1000000000, x)
    Sha256SumFile := fun x _ => (.ok sc.sum, x)
    Start := fun x _ _ => (sc.startErr, x)
    select := fun x => (sc.events x.events,
      { x with events := x.events + 1, stderr := x.stderr ++ sc.progress x.events })
    stderrBuf := fun x => x.stderr
    setStderrBuf := fun x b => { x with stderr := b }
    Kill := fun x => x }

/-- The statuses of the notifications published on a hub, in order. -/
def publishedStatuses (h : Hub) : List TransferStatus := h.published.map fun n => n.Status

/-- The outcome of `DownloadFile` from the empty hub under a scenario, as the
returned error and the statuses published; the loops get 100 rounds. -/
def runDownload (sc : Scenario) (svcCfg : NetSvcConfig) (cfg : DownloadFileConfig) :
    Option (Option GoError × List TransferStatus) :=
  (DownloadFile (fakeDownloadEnv sc) svcCfg 100 ⟨{}, {}⟩ cfg).map fun r =>
    (r.1, publishedStatuses r.2.2.hub)


/-! ## Request options with shared maps (src/client/s3client) -/

/-- The store of the `map[string]string` objects that values of type `any` refer
to: a map value is a reference, and two references to one address see the same
entries. -/
abbrev MapStore := List (List (String × String))

/-- A value of type `any` in `ExtraOpts` with its `map[string]string` held by
reference: the address in the store, or `none` for the nil map. -/
inductive ExtraRef where
  | nil
  | str (s : String)
  | stringMapAt (addr : Option Nat)
  | anyMap (m : GoMap Value)
  | other (rendering : String)
deriving DecidableEq, Repr

/-- The value that a reference holds in a store. -/
def ExtraRef.load (st : MapStore) : ExtraRef → ExtraOpt
  | .nil => ExtraOpt.nil
  | .str s => ExtraOpt.str s
  | .stringMapAt none => ExtraOpt.stringMap none
  | .stringMapAt (some a) => ExtraOpt.stringMap (some (st.getD a []))
  | .anyMap m => ExtraOpt.anyMap m
  | .other r => ExtraOpt.other r

/-- The struct `s3client.S3RequestConfig` with the map values of `ExtraOpts`
held by reference. -/
structure HeapS3RequestConfig where
  Operation : String := ""
  Bucket : String := ""
  Key : String := ""
  Body : Bytes := []
  Prefix : String := ""
  ContentType : String := ""
  ExtraOpts : GoMap ExtraRef := none
  Headers : GoMap String := none
deriving DecidableEq, Repr

/-- The struct `s3client.S3Request` before `Finalize`, with the map values of
`ExtraOpts` held by reference. -/
structure HeapS3Request where
  Operation : String := ""
  Bucket : String := ""
  Key : String := ""
  Body : Bytes := []
  Prefix : String := ""
  ContentType : String := ""
  ExtraOpts : GoMap ExtraRef := none
  Headers : GoMap String := none
deriving DecidableEq, Repr

/-- The content of a config in a store: every reference replaced by the entries
it holds. -/
def HeapS3RequestConfig.load (st : MapStore) (c : HeapS3RequestConfig) : S3RequestConfig :=
  { Operation := c.Operation
    Bucket := c.Bucket
    Key := c.Key
    Body := c.Body
    Prefix := c.Prefix
    ContentType := c.ContentType
    ExtraOpts := c.ExtraOpts.map fun es => es.map fun kv => (kv.1, kv.2.load st)
    Headers := c.Headers }

/-- The method `S3RequestConfig.NewRequest` on references: the two top-level
maps are allocated anew and filled entry by entry with `r.ExtraOpts[k] = v`,
which copies a map value as the reference it is. -/
def HeapS3RequestConfig.NewRequest (c : HeapS3RequestConfig) : HeapS3Request :=
  { Operation := c.Operation
    Bucket := c.Bucket
    Key := c.Key
    Body := c.Body
    Prefix := c.Prefix
    ContentType := c.ContentType
    ExtraOpts := some (c.ExtraOpts.entries.foldl (fun m kv => entriesSet m kv.1 kv.2) [])
    Headers := some (c.Headers.entries.foldl (fun m kv => entriesSet m kv.1 kv.2) []) }

/-- The middleware `StaticS3MetaMiddleware(meta)` (src/client/s3client/s3_middleware.go)
on a store and a request; `meta` is given in the order in which `range` visits
it.  An existing `map[string]string` under `"metadata"` that is not nil is
written in place; otherwise a new map is allocated. -/
def StaticS3MetaMiddleware (meta : List (String × String)) (st : MapStore) (r : HeapS3Request) :
    MapStore × HeapS3Request :=
  if r.Operation ≠ "put" then (st, r)
  else
    let opts : List (String × ExtraRef) := r.ExtraOpts.getD []
    let existing : Option Nat :=
      match entriesGet opts "metadata" with
      | some (.stringMapAt (some a)) => some a
      | _ => none
    let alloc : MapStore × Nat :=
      match existing with
      | some a => (st, a)
      | none => (st ++ [[]], st.length)
    let md := meta.foldl (fun m kv => entriesSet m kv.1 kv.2) (alloc.1.getD alloc.2 [])
    (alloc.1.set alloc.2 md,
      { r with ExtraOpts := some (entriesSet opts "metadata" (.stringMapAt (some alloc.2))) })

/-- The put config of the test "copies headers and extra opts (no aliasing)",
whose metadata map stands at address 0 of `sharedMetaStore`. -/
def sharedMetaCfg : HeapS3RequestConfig :=
  { Operation := "put", Bucket := "b", Key := "k", Body := [120]
    Headers := some [("h1", "v1")]
    ExtraOpts := some [("metadata", ExtraRef.stringMapAt (some 0))] }

/-- The store in which the metadata map of `sharedMetaCfg` holds `a = 1`. -/
def sharedMetaStore : MapStore := [[("a", "1")]]


/-! ## Reference definitions for the credentials of the HTTP client -/

/-- The text of the `Cookie` header in the words of the spec: `name=value`
followed by `"; "` for each cookie, in store order. -/
def cookieHeader (cookies : List Cookie) : String :=
  String.join (cookies.map fun ck => ck.Name ++ "=" ++ (ck.Value ++ "; "))

/-- The header entries after `attachAuth` in the words of the spec: with an
access token the `Authorization` entry becomes the canonical token type, one
space and the token; otherwise, with cookies in the store, the `Cookie` entry
becomes the cookie text; otherwise the entries are as they were. -/
def attachAuthSpec (toLowerCase : Char → Char) (token : TokenInfo)
    (headers : List (String × String)) : List (String × String) :=
  if token.AccessToken ≠ "" then
    entriesSet headers "Authorization"
      (normalizeAuthType toLowerCase token.TokenType ++ (" " ++ token.AccessToken))
  else if token.Cookies ≠ [] then entriesSet headers "Cookie" (cookieHeader token.Cookies)
  else headers


/-- A stored token with the access token `tok`, the type `bearer` in lower case,
and one cookie. -/
def bearerWithCookie : TokenInfo :=
  { AccessToken := "tok", TokenType := "bearer", Cookies := [⟨"sid", "1"⟩] }

/-- A stored token without access token: a session of two cookies. -/
def cookieSession : TokenInfo := { Cookies := [⟨"sid", "1"⟩, ⟨"lang", "en"⟩] }


/-- An HTTP client with an auth provider alone, whose `Authenticate` returns
`auth` and whose `Refresh` returns `refresh`, and with the stored token `token`. -/
def providerClient (auth refresh : Except GoError TokenInfo) (token : TokenInfo) :
    HTTPClient Nat :=
  { cfg := { AuthProvider := some (fakeAuthProvider auth refresh) }, token := token }


/-- A provider client whose `Refresh` is refused and whose `Authenticate` returns
the token `fresh` with two cookies; the stored token `old` expired at 500. -/
def reloginClient : HTTPClient Nat :=
  providerClient
    (.ok { AccessToken := "fresh", TokenType := "basic", Expiry := 5000,
           Cookies := [⟨"sid", "2"⟩] })
    (.error (GoError.errorsNew "refresh refused"))
    { AccessToken := "old", TokenType := "Bearer", Expiry := 500, Cookies := [⟨"lang", "en"⟩] }


/-! ## Reference notions for the cookie store -/

/-- The elements of a list of names that are not in `seen`, each once, in the
order of their first appearance. -/
def newNames (seen : List String) : List String → List String
  | [] => []
  | n :: rest => if n ∈ seen then newNames seen rest else n :: newNames (n :: seen) rest

/-- The last cookie of a sequence that has the name `name`. -/
def lastWith (name : String) (cs : List Cookie) : Option Cookie :=
  (cs.filter fun c => c.Name = name).getLast?

/-- The cookies that `captureCookiesFromResponse` captures from a response, in
order: those of every `Set-Cookie` line, line after line. -/
def capturedCookies {σ : Type} (env : HTTPEnv σ) (resp : Response) : List Cookie :=
  (((entriesGet resp.Headers "Set-Cookie").getD []).map env.parseSetCookie).flatten


/-- An environment whose `Set-Cookie` lines have the form `name=value` and yield
one cookie each. -/
def cookieEnv : HTTPEnv Nat :=
  { fakeEnv id 200 with
    parseSetCookie := fun line =>
      [⟨String.mk (line.toList.takeWhile fun ch => ch ≠ '='),
        String.mk ((line.toList.dropWhile fun ch => ch ≠ '=').drop 1)⟩] }

/-- A response that sets `sid` twice, `theme` once and `lang` once. -/
def cookieResponse : Response :=
  { StatusCode := 200
    Headers := [("Set-Cookie", ["sid=2", "theme=dark", "sid=3", "lang=fr"])] }


/-! ## Library functions behind `FilenameFromUrl` (`net/url`, `path/filepath`) -/

/-- The predicate `ishex` of `net/url`. -/
def ishex (c : Char) : Bool :=
  ('0' ≤ c ∧ c ≤ '9') ∨ ('a' ≤ c ∧ c ≤ 'f') ∨ ('A' ≤ c ∧ c ≤ 'F')

/-- The function `unhex` of `net/url`. -/
def unhex (c : Char) : Nat :=
  if '0' ≤ c ∧ c ≤ '9' then c.toNat - '0'.toNat
  else if 'a' ≤ c ∧ c ≤ 'f' then c.toNat - 'a'.toNat + 10
  else if 'A' ≤ c ∧ c ≤ 'F' then c.toNat - 'A'.toNat + 10
  else 0

/-- The function `unescape` of `net/url` in the mode of a query component, on the
characters of the string: `%XX` becomes the byte `XX`, `+` becomes a space, and
every other character is kept; a `%` that two hexadecimal digits do not follow
is an error.  The decoded byte stands as the character of that code, which is
the byte for ASCII. -/
def unescapeQuery : List Char → Except GoError (List Char)
  | [] => .ok []
  | c :: rest =>
    if c = '%' then
      match rest with
      | a :: b :: rest2 =>
        if ishex a && ishex b then
          match unescapeQuery rest2 with
          | .ok t => .ok (Char.ofNat (unhex a * 16 + unhex b) :: t)
          | .error e => .error e
        else .error (GoError.errorsNew ("invalid URL escape \"" ++ String.mk [c, a, b] ++ "\""))
      | short =>
        .error (GoError.errorsNew ("invalid URL escape \"" ++ String.mk (c :: short) ++ "\""))
    else
      match unescapeQuery rest with
      | .ok t => .ok ((if c = '+' then ' ' else c) :: t)
      | .error e => .error e

/-- The function `url.QueryUnescape`. -/
def QueryUnescape (s : String) : Except GoError String :=
  match unescapeQuery s.toList with
  | .ok t => .ok (String.mk t)
  | .error e => .error e

/-- The function `filepath.Base` with the separator `/` and no volume names. -/
def Base (path : String) : String :=
  if path = "" then "."
  else
    let stripped := (path.toList.reverse.dropWhile fun c => c = '/').reverse
    let last := (stripped.reverse.takeWhile fun c => c ≠ '/').reverse
    if last = [] then "/" else String.mk last

/-- Skip a URL through its `://`. -/
def dropScheme : List Char → List Char
  | [] => []
  | c :: rest =>
    match c, rest with
    | ':', '/' :: '/' :: rest2 => rest2
    | _, _ => dropScheme rest

/-- A double of `url.Parse` followed by `EscapedPath` for URLs of the form
`scheme://host/path` whose path needs no re-encoding: the path up to a `?` or
`#`; a host that opens a bracket without closing it does not parse. -/
def pathOfURL (u : String) : Except GoError String :=
  let rest := dropScheme u.toList
  let host := rest.takeWhile fun c => c ≠ '/'
  let path := (rest.dropWhile fun c => c ≠ '/').takeWhile fun c => c ≠ '?' ∧ c ≠ '#'
  if '[' ∈ host ∧ ']' ∉ host then
    .error (GoError.errorsNew ("parse \"" ++ u ++ "\": missing ']' in host"))
  else .ok (String.mk path)


/-- The download double with the library functions of `FilenameFromUrl` in place
of their stand-ins. -/
def urlEnv : DownloadEnv FakeWorld :=
  { fakeDownloadEnv {} with
    urlEscapedPath := pathOfURL
    QueryUnescape := QueryUnescape
    Base := Base }


/-! ## Runs of the progress reader -/

/-- What one `Read` of the progress reader did: the byte count it returned, the
reading of the clock that it takes once bytes were returned, and the
notifications it published. -/
structure ReadRecord where
  n : Nat
  now : Time
  emitted : List TransferNotification
deriving DecidableEq

/-- A run of `m` reads through the progress reader of `downloadFileWithHTTP` for
the URL `url` and the destination `destination`, each on a buffer of `k` bytes:
the record of every read in order, the reader and the service; `none` is a
panic of the publisher. -/
def readRun {σ : Type} (env : DownloadEnv σ) (url destination : String) (k : Nat) :
    Nat → progressReader → Svc σ → Option (List ReadRecord × progressReader × Svc σ)
  | 0, pr, s => some ([], pr, s)
  | m + 1, pr, s =>
    match pr.Read env (report url destination) s k with
    | none => none
    | some (out, pr1, s1) =>
      match readRun env url destination k m pr1 s1 with
      | none => none
      | some (recs, pr2, s2) =>
        some ({ n := out.1
                now := (env.Now (env.bodyRead s.ext k).2).1
                emitted := s1.hub.published.drop s.hub.published.length } :: recs, pr2, s2)

/-- The time of the last read among `recs` that published a notification, or
`t0` when none did. -/
def lastEmission (t0 : Time) : List ReadRecord → Time
  | [] => t0
  | r :: rest => lastEmission (if r.emitted ≠ [] then r.now else t0) rest

/-- The percentage of the specification: the exact `min(100, 100 * Downloaded /
total)` for a positive total and 0 otherwise. -/
def exactPercentage (downloaded total : Int) : ℚ :=
  if total > 0 then min 100 (100 * (downloaded : ℚ) / (total : ℚ)) else 0

/-- The percentage in `float64`: for a positive total the smaller of 100 and the
quotient of `Downloaded` by `total`, both converted to `float64`, times 100,
with the quotient and the product each rounded to `float64`; 0 otherwise. -/
def roundedPercentage (downloaded total : Int) : ℚ :=
  if total > 0 then
    min 100 (roundFloat64 (roundFloat64 (roundFloat64 downloaded / roundFloat64 total) * 100))
  else 0

/-- The progress notification for `Downloaded` bytes of `total`, with the
percentage in `float64`. -/
def progressNotification (url destination : String) (downloaded total : Int) :
    TransferNotification :=
  { Source := url, Destination := destination, Status := TransferStatus.IN_PROGRESS
    Downloaded := downloaded, TotalSize := total
    Percentage := roundedPercentage downloaded total }


/-- The progress reader as `downloadFileWithHTTP` builds it at time 0 for a body
of 8 bytes and the default interval of two seconds. -/
def freshReader : progressReader :=
  { total := 8, interval := reportInterval {}, lastReport := 0, startTime := 0 }

/-- A server that declares 25 bytes and sends 7, then 18. -/
def sevenOfTwentyFive : Scenario :=
  { doResult := .ok ⟨200, "200 OK", 25⟩
    body := fun i => if i = 0 then (7, none) else if i = 1 then (18, none) else (0, some EOF) }

/-- The progress reader as `downloadFileWithHTTP` builds it at time 0 for a body
of 25 bytes and an interval of one second. -/
def readerOfTwentyFive : progressReader :=
  { total := 25, interval := 1000000000, lastReport := 0, startTime := 0 }


/-- The byte count that one `Read` of the progress reader returns in the
external state `x`: what the body returns, or 0 when the context is done. -/
def readCount {σ : Type} (env : DownloadEnv σ) (k : Nat) (x : σ) : Nat :=
  match env.ctxErr x with
  | some _ => 0
  | none => (env.bodyRead x k).1.1

/-- The external state after one `Read` of the progress reader in the state `x`:
the body is read unless the context is done, and the clock once bytes were
returned. -/
def extAfterRead {σ : Type} (env : DownloadEnv σ) (k : Nat) (x : σ) : σ :=
  match env.ctxErr x with
  | some _ => x
  | none =>
    if (env.bodyRead x k).1.1 > 0 then (env.Now (env.bodyRead x k).2).2
    else (env.bodyRead x k).2

/-- The byte counts that the body returns to `m` successive reads of the
progress reader, from the external state `x`. -/
def bodyCounts {σ : Type} (env : DownloadEnv σ) (k : Nat) : Nat → σ → List Nat
  | 0, _ => []
  | m + 1, x => readCount env k x :: bodyCounts env k m (extAfterRead env k x)

end Gonetic

/-! ## Lemmas on the retry loop -/

namespace Gonetic

variable {σ : Type}

theorem RequestOnce_normTask (s : NetSvc σ) (cfg : RequestConfig) (w : World σ) :
    RequestOnce s cfg w = RequestOnce s (normTask cfg) w := by
  unfold normTask
  by_cases h1 : cfg.ClientRef = ""
  · simp [h1]
  · cases h2 : cfg.ReqConfig with
    | none => simp [h1, h2]
    | some rc =>
      by_cases h3 : cfg.TaskName = ""
      · simp [h1, h2, h3, RequestOnce]
      · simp [h1, h2, h3]

theorem RequestOnce_cfg (s : NetSvc σ) (cfg : RequestConfig) (w : World σ) :
    (RequestOnce s cfg w).cfg = normTask cfg := by
  unfold normTask RequestOnce
  by_cases h1 : cfg.ClientRef = ""
  · simp [h1]
  · cases h2 : cfg.ReqConfig with
    | none => simp [h1, h2]
    | some rc =>
      simp only [h1, h2, if_false]
      repeat' split
      all_goals rfl

theorem retryLoop_zero_normTask (s : NetSvc σ) (fuel : Nat) (lastErr : Option GoError)
    (cfg : RequestConfig) (w : World σ) (h : 0 ≤ cfg.MaxRetries) :
    retryLoop s fuel 0 lastErr cfg w = retryLoop s fuel 0 lastErr (normTask cfg) w := by
  have hm : (normTask cfg).MaxRetries = cfg.MaxRetries := by
    unfold normTask; repeat' split
    all_goals rfl
  cases fuel with
  | zero => rfl
  | succ fuel =>
    simp only [retryLoop, hm, h, if_true, lt_irrefl, gt_iff_lt, if_false]
    rw [← RequestOnce_normTask]

/-- Every attempt asks for a retry: when each evaluation of `RequestOnce` at
`cfg` leaves the config alone, adds the events `ev`, moves the external state by
`step` and either fails with a transient error or answers with a status of 500
or more, the loop started at attempt `a` runs the attempts `a, ..., MaxRetries`
and returns what the last of them produced. -/
theorem retryLoop_exhaust (s : NetSvc σ) (cfg : RequestConfig) (d : RetryDelay)
    (ev : List Event) (step : σ → σ) (respOf : σ → Response) (errOf : σ → Option GoError)
    (hd : cfg.Delay = some d)
    (honce : ∀ w, RequestOnce s cfg w
      = ⟨respOf w.ext, errOf w.ext, cfg, ⟨step w.ext, w.log ++ ev⟩⟩)
    (hretry : ∀ x, (∃ e, errOf x = some e ∧ IsTemporaryErr (some e) = true)
      ∨ (errOf x = none ∧ (respOf x).StatusCode ≥ 500))
    (k : Nat) : ∀ (fuel : Nat) (a : Int) (lastErr : Option GoError) (w : World σ),
      0 ≤ a → a + k = cfg.MaxRetries → k < fuel →
      retryLoop s fuel a lastErr cfg w
        = some ⟨respOf (step^[k] w.ext),
            finalErr cfg (respOf (step^[k] w.ext)) (errOf (step^[k] w.ext)), cfg,
            ⟨step^[k + 1] w.ext, w.log ++ exhaustTrace d cfg.TaskName ev k a⟩⟩ := by
  induction k with
  | zero =>
    intro fuel a lastErr w ha hk hf
    obtain ⟨fuel, rfl⟩ : ∃ f, fuel = f + 1 := ⟨fuel - 1, by omega⟩
    have hk' : cfg.MaxRetries = a := by simpa using hk.symm
    by_cases hpos : a > 0
    · simp only [retryLoop, hk', le_refl, if_true, hpos, hd, honce, lt_irrefl, World.emit,
        Bool.and_false, decide_False, Bool.false_eq_true, if_false]
      rcases hretry w.ext with ⟨e, he, _⟩ | ⟨he, hcode⟩
      · simp [he, finalErr, exhaustTrace, attemptTrace, hpos]
      · simp [he, finalErr, exhaustTrace, attemptTrace, hpos, hcode, hk']
    · simp only [retryLoop, hk', le_refl, if_true, hpos, honce, lt_irrefl,
        Bool.and_false, decide_False, Bool.false_eq_true, if_false]
      rcases hretry w.ext with ⟨e, he, _⟩ | ⟨he, hcode⟩
      · simp [he, finalErr, exhaustTrace, attemptTrace, hpos]
      · simp [he, finalErr, exhaustTrace, attemptTrace, hpos, hcode, hk']
  | succ k ih =>
    intro fuel a lastErr w ha hk hf
    obtain ⟨fuel, rfl⟩ : ∃ f, fuel = f + 1 := ⟨fuel - 1, by omega⟩
    have hle : a ≤ cfg.MaxRetries := by rw [← hk]; push_cast; omega
    have hlt : a < cfg.MaxRetries := by rw [← hk]; push_cast; omega
    have hk1 : a + 1 + (k : Int) = cfg.MaxRetries := by rw [← hk]; push_cast; ring
    have hf1 : k < fuel := by omega
    by_cases hpos : a > 0
    · simp only [retryLoop, hle, if_true, hpos, hd, honce, hlt, World.emit,
        Bool.and_true, decide_True]
      rcases hretry w.ext with ⟨e, he, ht⟩ | ⟨he, hcode⟩
      · simp only [he, ht, if_true]
        rw [ih fuel (a + 1) _ _ (by omega) hk1 hf1]
        simp [exhaustTrace, attemptTrace, hpos, Function.iterate_succ_apply]
      · simp only [he, hcode, if_true]
        rw [ih fuel (a + 1) _ _ (by omega) hk1 hf1]
        simp [exhaustTrace, attemptTrace, hpos, Function.iterate_succ_apply]
    · simp only [retryLoop, hle, if_true, hpos, honce, hlt, if_false,
        Bool.and_true, decide_True]
      rcases hretry w.ext with ⟨e, he, ht⟩ | ⟨he, hcode⟩
      · simp only [he, ht, if_true]
        rw [ih fuel (a + 1) _ _ (by omega) hk1 hf1]
        simp [exhaustTrace, attemptTrace, hpos, Function.iterate_succ_apply]
      · simp only [he, hcode, if_true]
        rw [ih fuel (a + 1) _ _ (by omega) hk1 hf1]
        simp [exhaustTrace, attemptTrace, hpos, Function.iterate_succ_apply]

theorem normTask_idem (cfg : RequestConfig) : normTask (normTask cfg) = normTask cfg := by
  unfold normTask
  by_cases h1 : cfg.ClientRef = ""
  · simp [h1]
  · cases h2 : cfg.ReqConfig with
    | none => simp [h1, h2]
    | some rc =>
      by_cases h3 : cfg.TaskName = ""
      · simp [h1, h2, h3]
      · simp [h1, h2, h3]

theorem normTask_fields (cfg : RequestConfig) :
    (normTask cfg).ClientRef = cfg.ClientRef ∧ (normTask cfg).ReqConfig = cfg.ReqConfig
    ∧ (normTask cfg).MaxRetries = cfg.MaxRetries ∧ (normTask cfg).Delay = cfg.Delay
    ∧ (normTask cfg).ResponseObject = cfg.ResponseObject
    ∧ (normTask cfg).Timeout = cfg.Timeout := by
  unfold normTask
  repeat' split
  all_goals simp

theorem prepared_fields (cfg : RequestConfig) :
    (prepared cfg).ClientRef = cfg.ClientRef ∧ (prepared cfg).ReqConfig = cfg.ReqConfig
    ∧ (prepared cfg).MaxRetries = max cfg.MaxRetries 0
    ∧ (prepared cfg).Delay = some (cfg.Delay.getD (RetryDelay.ConstantDelay 1))
    ∧ (prepared cfg).ResponseObject = cfg.ResponseObject
    ∧ (prepared cfg).TaskName = cfg.TaskName := by
  unfold prepared
  by_cases h1 : cfg.MaxRetries < 0
  · cases h2 : cfg.Delay with
    | none => simp [h1, h2]; omega
    | some d => simp [h1, h2]; omega
  · cases h2 : cfg.Delay with
    | none => simp [h1, h2]; omega
    | some d => simp [h1, h2]; omega

/-- A request that passes the checks of `RequestOnce` reaches the client exactly once. -/
theorem RequestOnce_dispatch (s : NetSvc σ) (cfg : RequestConfig) (c : NetClient σ)
    (rc : ReqConfig) (href : cfg.ClientRef ≠ "") (hrc : cfg.ReqConfig = some rc)
    (hcl : s.clients cfg.ClientRef = some c) (htyp : c.typ = rc.Ref) (w : World σ) :
    RequestOnce s cfg w
      = ⟨(afterClient s cfg (c.ProcessRequest w.ext (normTask cfg)).1).1,
         (afterClient s cfg (c.ProcessRequest w.ext (normTask cfg)).1).2,
         normTask cfg,
         ⟨(c.ProcessRequest w.ext (normTask cfg)).2,
          w.log ++ [Event.processRequest cfg.ClientRef]⟩⟩ := by
  have hn : normTask cfg
      = if cfg.TaskName = "" then { cfg with TaskName := "http_request" } else cfg := by
    simp [normTask, href, hrc]
  rw [hn]
  by_cases h3 : cfg.TaskName = ""
  · simp only [RequestOnce, href, hrc, h3, if_true, if_false, hcl, htyp, ne_eq,
      not_true_eq_false, World.emit, afterClient, decodeErr]
    repeat' split
    all_goals simp_all
  · simp only [RequestOnce, href, hrc, h3, if_false, hcl, htyp, ne_eq,
      not_true_eq_false, World.emit, afterClient, decodeErr]
    repeat' split
    all_goals simp_all

/-- The loop returns: with a delay policy set and more fuel than attempts left,
`retryLoop` produces a result. -/
theorem retryLoop_isSome (s : NetSvc σ) :
    ∀ (fuel : Nat) (a : Int) (lastErr : Option GoError) (cfg : RequestConfig) (w : World σ),
      cfg.Delay ≠ none → (cfg.MaxRetries + 1 - a).toNat < fuel →
      (retryLoop s fuel a lastErr cfg w).isSome = true := by
  intro fuel
  induction fuel with
  | zero => intro a lastErr cfg w _ h; omega
  | succ fuel ih =>
    intro a lastErr cfg w hd hf
    obtain ⟨d, hd'⟩ := Option.ne_none_iff_exists'.mp hd
    obtain ⟨-, -, n3, n4, -, -⟩ := normTask_fields cfg
    have hc := RequestOnce_cfg s cfg
    unfold retryLoop
    by_cases hle : a ≤ cfg.MaxRetries
    · have hrec : ∀ (le' : Option GoError) (w' w'' : World σ),
          (retryLoop s fuel (a + 1) le' (RequestOnce s cfg w').cfg w'').isSome = true := by
        intro le' w' w''
        apply ih
        · rw [hc, n4]; exact hd
        · rw [hc, n3]; omega
      simp only [hle, if_true, hd']
      split
      · rename_i hw
        split at hw <;> simp at hw
      · rename_i w1 hw
        split
        · split
          · exact hrec _ _ _
          · rfl
        · split
          · split
            · exact hrec _ _ _
            · rfl
          · rfl
    · simp [hle]

/-- `RequestWithRetry` returns on every input. -/
theorem RequestWithRetry_isSome (s : NetSvc σ) (cfg : Option RequestConfig) (w : World σ) :
    (RequestWithRetry s cfg w).isSome = true := by
  cases cfg with
  | none => rfl
  | some cfg =>
    obtain ⟨-, -, p3, p4, -, -⟩ := prepared_fields cfg
    have h := retryLoop_isSome s ((prepared cfg).MaxRetries.toNat + 2) 0 none (prepared cfg) w
      (by rw [p4]; simp) (by omega)
    have hstart : RequestWithRetry s (some cfg) w
        = (retryLoop s ((prepared cfg).MaxRetries.toNat + 2) 0 none (prepared cfg) w).map
            fun r => ⟨r.resp, r.err, some r.cfg, r.world⟩ := rfl
    rw [hstart, Option.isSome_map']
    exact h

theorem callCount_append (l₁ l₂ : List Event) :
    callCount (l₁ ++ l₂) = callCount l₁ + callCount l₂ := by
  simp [callCount]

theorem waitAttempts_append (l₁ l₂ : List Event) :
    waitAttempts (l₁ ++ l₂) = waitAttempts l₁ ++ waitAttempts l₂ := by
  induction l₁ with
  | nil => rfl
  | cons e l ih => cases e <;> simp [waitAttempts, ih]

theorem callCount_exhaustTrace (d : RetryDelay) (task : String) (ev : List Event) (k : Nat) :
    ∀ a : Int, callCount (exhaustTrace d task ev k a) = (k + 1) * callCount ev := by
  induction k with
  | zero =>
    intro a
    by_cases h : a > 0 <;> simp [exhaustTrace, attemptTrace, callCount_append, h, callCount]
  | succ k ih =>
    intro a
    rw [exhaustTrace, callCount_append, ih]
    by_cases h : a > 0 <;> simp [attemptTrace, callCount_append, h, callCount] <;> ring

theorem waitAttempts_exhaustTrace (d : RetryDelay) (task : String) (ev : List Event)
    (hev : waitAttempts ev = []) (k : Nat) :
    ∀ a : Int, 0 ≤ a → waitAttempts (exhaustTrace d task ev k a)
      = (if a > 0 then [a] else []) ++ (List.range k).map (fun i : Nat => a + 1 + (i : Int)) := by
  induction k with
  | zero =>
    intro a _
    by_cases h : a > 0 <;> simp [exhaustTrace, attemptTrace, waitAttempts_append, h, hev, waitAttempts]
  | succ k ih =>
    intro a ha
    have h1 : a + 1 > 0 := by omega
    rw [exhaustTrace, waitAttempts_append, ih (a + 1) (by omega), List.range_succ_eq_map]
    have hfun : (fun i : Nat => a + 1 + ((i + 1 : Nat) : Int)) = fun i : Nat => a + 1 + 1 + (i : Int) := by
      funext i; push_cast; ring
    by_cases h : a > 0 <;>
      simp [attemptTrace, waitAttempts_append, h, h1, hev, waitAttempts, Function.comp_def, hfun] <;>
      intro i _ <;> ring

theorem IsTemporaryErr_errorf (pfx : String) (e : GoError) :
    IsTemporaryErr (some (GoError.errorf pfx e)) = IsTemporaryErr (some e) := by
  simp [IsTemporaryErr, GoError.errorf, GoError.asTemporary]

theorem IsTemporaryErr_of_unmarked (e : GoError) (h : e.asTemporary ≠ some false) :
    IsTemporaryErr (some e) = true := by
  unfold IsTemporaryErr
  simp only [Option.some_bind]
  cases hb : e.asTemporary with
  | none => rfl
  | some b => cases b <;> simp_all

theorem head_exhaustTrace_zero (d : RetryDelay) (task : String) (e : Event) (ev : List Event)
    (k : Nat) : (exhaustTrace d task (e :: ev) k 0).head? = some e := by
  cases k <;> simp [exhaustTrace, attemptTrace]

/-- The retry controller on a request that reaches its client and whose every
answer asks for a retry: all `N + 1` attempts are made. -/
theorem RequestWithRetry_exhaust (s : NetSvc σ) (c : NetClient σ) (cfg : RequestConfig)
    (rc : ReqConfig) (w : World σ) (N : Nat) (hN : max cfg.MaxRetries 0 = N)
    (href : cfg.ClientRef ≠ "") (hrc : cfg.ReqConfig = some rc)
    (hcl : s.clients cfg.ClientRef = some c) (htyp : c.typ = rc.Ref)
    (hretry : ∀ x, (∃ e, (afterClient s (normTask (prepared cfg))
          (c.ProcessRequest x (normTask (prepared cfg))).1).2 = some e
          ∧ IsTemporaryErr (some e) = true)
      ∨ ((afterClient s (normTask (prepared cfg))
          (c.ProcessRequest x (normTask (prepared cfg))).1).2 = none
        ∧ (afterClient s (normTask (prepared cfg))
          (c.ProcessRequest x (normTask (prepared cfg))).1).1.StatusCode ≥ 500)) :
    RequestWithRetry s (some cfg) w
      = some ⟨(afterClient s (normTask (prepared cfg)) (c.ProcessRequest
            ((fun x => (c.ProcessRequest x (normTask (prepared cfg))).2)^[N] w.ext)
            (normTask (prepared cfg))).1).1,
          finalErr (normTask (prepared cfg))
            (afterClient s (normTask (prepared cfg)) (c.ProcessRequest
              ((fun x => (c.ProcessRequest x (normTask (prepared cfg))).2)^[N] w.ext)
              (normTask (prepared cfg))).1).1
            (afterClient s (normTask (prepared cfg)) (c.ProcessRequest
              ((fun x => (c.ProcessRequest x (normTask (prepared cfg))).2)^[N] w.ext)
              (normTask (prepared cfg))).1).2,
          some (normTask (prepared cfg)),
          ⟨(fun x => (c.ProcessRequest x (normTask (prepared cfg))).2)^[N + 1] w.ext,
           w.log ++ exhaustTrace (cfg.Delay.getD (RetryDelay.ConstantDelay 1))
             (normTask (prepared cfg)).TaskName [Event.processRequest cfg.ClientRef] N 0⟩⟩ := by
  obtain ⟨p1, p2, p3, p4, -, -⟩ := prepared_fields cfg
  obtain ⟨n1, n2, n3, n4, -, -⟩ := normTask_fields (prepared cfg)
  have hM : (normTask (prepared cfg)).MaxRetries = N := by rw [n3, p3, hN]
  have hM0 : 0 ≤ (prepared cfg).MaxRetries := by rw [p3]; exact le_max_right _ _
  have hstart : RequestWithRetry s (some cfg) w
      = (retryLoop s ((prepared cfg).MaxRetries.toNat + 2) 0 none (prepared cfg) w).map
          fun r => ⟨r.resp, r.err, some r.cfg, r.world⟩ := rfl
  rw [hstart, retryLoop_zero_normTask s _ _ _ _ hM0]
  have honce : ∀ w' : World σ, RequestOnce s (normTask (prepared cfg)) w'
      = ⟨(afterClient s (normTask (prepared cfg))
            (c.ProcessRequest w'.ext (normTask (prepared cfg))).1).1,
         (afterClient s (normTask (prepared cfg))
            (c.ProcessRequest w'.ext (normTask (prepared cfg))).1).2,
         normTask (prepared cfg),
         ⟨(c.ProcessRequest w'.ext (normTask (prepared cfg))).2,
          w'.log ++ [Event.processRequest cfg.ClientRef]⟩⟩ := by
    intro w'
    have h := RequestOnce_dispatch s (normTask (prepared cfg)) c rc
      (by rw [n1, p1]; exact href) (by rw [n2, p2]; exact hrc)
      (by rw [n1, p1]; exact hcl) htyp w'
    rw [normTask_idem, n1, p1] at h
    exact h
  have hloop := retryLoop_exhaust s (normTask (prepared cfg))
    (cfg.Delay.getD (RetryDelay.ConstantDelay 1)) [Event.processRequest cfg.ClientRef]
    (fun x => (c.ProcessRequest x (normTask (prepared cfg))).2)
    (fun x => (afterClient s (normTask (prepared cfg))
      (c.ProcessRequest x (normTask (prepared cfg))).1).1)
    (fun x => (afterClient s (normTask (prepared cfg))
      (c.ProcessRequest x (normTask (prepared cfg))).1).2)
    (by rw [n4, p4]) honce hretry N ((prepared cfg).MaxRetries.toNat + 2) 0 none w
    (le_refl 0) (by rw [hM]; simp) (by rw [p3, hN]; simp)
  rw [hloop]
  rfl

/-- On a configuration error `RequestOnce` returns an empty response and an
error without any `Temporary` method, and touches neither log nor state. -/
theorem RequestOnce_configError (s : NetSvc σ) (cfg : RequestConfig)
    (h : ConfigError s cfg) (w : World σ) :
    RequestOnce s cfg w = ⟨{}, some (configErr s cfg), normTask cfg, w⟩ := by
  by_cases h1 : cfg.ClientRef = ""
  · simp [RequestOnce, normTask, configErr, h1]
  · cases h2 : cfg.ReqConfig with
    | none => simp [RequestOnce, normTask, configErr, h1, h2]
    | some rc =>
      cases h3 : s.clients cfg.ClientRef with
      | none =>
        by_cases ht : cfg.TaskName = ""
        · simp [RequestOnce, normTask, configErr, h1, h2, h3, ht]
        · simp [RequestOnce, normTask, configErr, h1, h2, h3, ht]
      | some c =>
        have hne : c.typ ≠ rc.Ref := by
          rcases h with h | h | h | ⟨c', rc', hc, hrc, hne⟩
          · exact absurd h h1
          · rw [h2] at h; cases h
          · rw [h3] at h; cases h
          · rw [h3] at hc; rw [h2] at hrc; cases hc; cases hrc; exact hne
        by_cases ht : cfg.TaskName = ""
        · simp [RequestOnce, normTask, configErr, h1, h2, h3, ht, hne]
        · simp [RequestOnce, normTask, configErr, h1, h2, h3, ht, hne]

theorem configErr_asTemporary (s : NetSvc σ) (cfg : RequestConfig) :
    (configErr s cfg).asTemporary = none := by
  unfold configErr
  repeat' split
  all_goals rfl

theorem configErr_congr (s : NetSvc σ) (cfg cfg' : RequestConfig)
    (h1 : cfg'.ClientRef = cfg.ClientRef) (h2 : cfg'.ReqConfig = cfg.ReqConfig) :
    configErr s cfg' = configErr s cfg := by
  unfold configErr
  rw [h1, h2]

theorem ConfigError_congr (s : NetSvc σ) (cfg cfg' : RequestConfig)
    (h1 : cfg'.ClientRef = cfg.ClientRef) (h2 : cfg'.ReqConfig = cfg.ReqConfig)
    (h : ConfigError s cfg) : ConfigError s cfg' := by
  unfold ConfigError at *
  rw [h1, h2]
  exact h

end Gonetic

/-! ## Lemmas on the HTTP client -/

namespace Gonetic

variable {σ : Type}

theorem providerCalls_append (l₁ l₂ : List ClientEvent) :
    providerCalls (l₁ ++ l₂) = providerCalls l₁ + providerCalls l₂ := by
  simp [providerCalls]

theorem roundTrips_append (l₁ l₂ : List ClientEvent) :
    roundTrips (l₁ ++ l₂) = roundTrips l₁ + roundTrips l₂ := by
  simp [roundTrips]

/-- The middleware loop logs one event per middleware it called, in order. -/
theorem runMiddlewares_log {ρ : Type} (mws : List (MiddlewareOf σ ρ)) :
    ∀ (i : Nat) (req : ρ) (w : ClientWorld σ),
      ∃ m, m ≤ mws.length
        ∧ (runMiddlewares mws i req w).2.2.log
            = w.log ++ (List.range m).map (fun j => ClientEvent.middleware (i + j))
        ∧ ((runMiddlewares mws i req w).1 = none → m = mws.length) := by
  induction mws with
  | nil => intro i req w; exact ⟨0, le_refl _, by simp [runMiddlewares], fun _ => rfl⟩
  | cons mw rest ih =>
    intro i req w
    cases h : (mw w.ext req).1.2 with
    | some err =>
      refine ⟨1, by simp, ?_, ?_⟩
      · simp [runMiddlewares, h, List.range_succ]
      · simp [runMiddlewares, h]
    | none =>
      obtain ⟨m, hm, hlog, hall⟩ := ih (i + 1) (mw w.ext req).1.1
        ⟨(mw w.ext req).2, w.log ++ [ClientEvent.middleware i]⟩
      refine ⟨m + 1, by simp; omega, ?_, ?_⟩
      · simp only [runMiddlewares, h]
        rw [hlog, List.range_succ_eq_map]
        simp [Function.comp_def, Nat.add_assoc, Nat.add_comm 1]
      · intro hnone
        simp only [runMiddlewares, h] at hnone
        simp [hall hnone]

theorem providerCalls_middlewares (m : Nat) (f : Nat → Nat) :
    providerCalls ((List.range m).map (fun j => ClientEvent.middleware (f j))) = 0 := by
  induction m with
  | zero => rfl
  | succ m ih =>
    rw [List.range_succ, List.map_append, providerCalls_append, ih]
    rfl

theorem roundTrips_middlewares (m : Nat) (f : Nat → Nat) :
    roundTrips ((List.range m).map (fun j => ClientEvent.middleware (f j))) = 0 := by
  induction m with
  | zero => rfl
  | succ m ih =>
    rw [List.range_succ, List.map_append, roundTrips_append, ih]
    rfl

/-- With an OAuth source configured, `refreshToken` calls the source when the
token is expired at the clock reading, and nothing otherwise. -/
theorem refreshToken_oauth_log (env : HTTPEnv σ) (c : HTTPClient σ) (w : ClientWorld σ)
    (source : σ → Except GoError OAuthToken × σ) (hs : c.cfg.OAuthSource = some source) :
    (c.refreshToken env w).2.2.log
      = w.log ++ (if c.token.IsExpired c.cfg.RefreshBuffer (env.Now w.ext).1
          then [ClientEvent.oauthToken] else []) := by
  unfold HTTPClient.refreshToken
  by_cases hx : c.token.IsExpired c.cfg.RefreshBuffer (env.Now w.ext).1 = true
  · simp only [hx, hs, Bool.not_true, Bool.false_eq_true, if_false, if_true]
    split <;> rfl
  · simp [hx]

theorem ensureToken_oauth_log (env : HTTPEnv σ) (c : HTTPClient σ) (w : ClientWorld σ)
    (source : σ → Except GoError OAuthToken × σ) (hs : c.cfg.OAuthSource = some source) :
    (c.ensureToken env w).2.2.log = w.log
      ∨ (c.ensureToken env w).2.2.log = w.log ++ [ClientEvent.oauthToken] := by
  unfold HTTPClient.ensureToken
  by_cases hx : c.token.IsExpired c.cfg.RefreshBuffer (env.Now w.ext).1 = true
  · simp only [hx, Bool.not_true, Bool.false_eq_true, if_false]
    rw [refreshToken_oauth_log env c _ source hs]
    split
    · exact Or.inr rfl
    · exact Or.inl (by simp)
  · simp [hx]

/-- The log of `ProcessRequest`: the events of the middleware loop, then, when
no middleware failed, those of `ensureToken`, then at most one round-trip. -/
theorem ProcessRequest_log (env : HTTPEnv σ) (c : HTTPClient σ) (inCfg : RequestConfig)
    (cfg : HTTPRequestConfig) (w : ClientWorld σ) (hcfg : inCfg.ReqConfig = some (ReqConfig.http cfg)) :
    ((runMiddlewares c.cfg.Middlewares 0 cfg.NewRequest w).1 ≠ none
      ∧ (c.ProcessRequest env inCfg w).2.2.log
          = (runMiddlewares c.cfg.Middlewares 0 cfg.NewRequest w).2.2.log)
    ∨ ((runMiddlewares c.cfg.Middlewares 0 cfg.NewRequest w).1 = none
      ∧ ((c.ProcessRequest env inCfg w).2.2.log
          = (c.ensureToken env (runMiddlewares c.cfg.Middlewares 0 cfg.NewRequest w).2.2).2.2.log
        ∨ ∃ req, (c.ProcessRequest env inCfg w).2.2.log
          = (c.ensureToken env (runMiddlewares c.cfg.Middlewares 0 cfg.NewRequest w).2.2).2.2.log
            ++ [ClientEvent.roundTrip req])) := by
  unfold HTTPClient.ProcessRequest
  simp only [hcfg]
  rcases hm : runMiddlewares c.cfg.Middlewares 0 cfg.NewRequest w with ⟨merr, req1, w1⟩
  cases merr with
  | some err => exact Or.inl ⟨by simp, rfl⟩
  | none =>
    refine Or.inr ⟨rfl, ?_⟩
    simp only
    rcases he : c.ensureToken env w1 with ⟨terr, c1, w2⟩
    cases terr with
    | some err => exact Or.inl rfl
    | none =>
      simp only
      rcases hf : (attachAuth env.codec.toLowerCase c1.token req1).FinalizeBody env.codec with
        ⟨req2, ferr⟩
      cases ferr with
      | some err => exact Or.inl rfl
      | none =>
        simp only
        cases hn : env.newRequestErr req2.Method req2.URL with
        | some err => exact Or.inl rfl
        | none =>
          simp only
          split
          · exact Or.inr ⟨_, rfl⟩
          · exact Or.inr ⟨_, rfl⟩
          · split <;> exact Or.inr ⟨_, rfl⟩

/-- The three facts about one `refreshToken`: an error leaves the client as it
was, no round-trip is logged, and a failing refresh does return an error. -/
theorem refreshToken_cases (env : HTTPEnv σ) (c : HTTPClient σ) (w : ClientWorld σ) :
    ((c.refreshToken env w).1 ≠ none → (c.refreshToken env w).2.1 = c)
    ∧ roundTrips (c.refreshToken env w).2.2.log = roundTrips w.log
    ∧ (RefreshFails env c w → (c.refreshToken env w).1 ≠ none) := by
  unfold HTTPClient.refreshToken RefreshFails
  by_cases hx : c.token.IsExpired c.cfg.RefreshBuffer (env.Now w.ext).1 = true
  · simp only [hx, Bool.not_true, Bool.false_eq_true, if_false, true_and]
    cases hs : c.cfg.OAuthSource with
    | some source =>
      simp only
      cases ho : (source (env.Now w.ext).2).1 with
      | error err => simp [roundTrips]
      | ok tok => simp [roundTrips]
    | none =>
      cases hp : c.cfg.AuthProvider with
      | none => simp
      | some provider =>
        simp only
        by_cases hcred : c.token.AccessToken = "" ∧ c.token.Cookies.length = 0
        · simp only [hcred, and_self, if_true]
          cases ha : (provider.Authenticate (env.Now w.ext).2).1 with
          | error err => simp [roundTrips]
          | ok tok => simp [roundTrips]
        · simp only [hcred, if_false]
          cases hr : (provider.Refresh (env.Now w.ext).2 c.token).1 with
          | ok tok => simp [roundTrips]
          | error err =>
            simp only
            cases ha : (provider.Authenticate
                (provider.Refresh (env.Now w.ext).2 c.token).2).1 with
            | error err => simp [roundTrips]
            | ok tok => simp [roundTrips]
  · simp [hx]

/-- The same three facts about `ensureToken`, whose refresh reads the clock again. -/
theorem ensureToken_cases (env : HTTPEnv σ) (c : HTTPClient σ) (w : ClientWorld σ) :
    ((c.ensureToken env w).1 ≠ none → (c.ensureToken env w).2.1 = c)
    ∧ roundTrips (c.ensureToken env w).2.2.log = roundTrips w.log
    ∧ (c.token.IsExpired c.cfg.RefreshBuffer (env.Now w.ext).1 = true
        → RefreshFails env c ⟨(env.Now w.ext).2, w.log⟩ → (c.ensureToken env w).1 ≠ none) := by
  unfold HTTPClient.ensureToken
  by_cases hx : c.token.IsExpired c.cfg.RefreshBuffer (env.Now w.ext).1 = true
  · simp only [hx, Bool.not_true, Bool.false_eq_true, if_false, true_implies]
    obtain ⟨h1, h2, h3⟩ := refreshToken_cases env c ⟨(env.Now w.ext).2, w.log⟩
    exact ⟨h1, h2, h3⟩
  · simp [hx]

theorem refreshToken_log_extends (env : HTTPEnv σ) (c : HTTPClient σ) (w : ClientWorld σ) :
    ∃ evs, (c.refreshToken env w).2.2.log = w.log ++ evs := by
  unfold HTTPClient.refreshToken
  by_cases hx : c.token.IsExpired c.cfg.RefreshBuffer (env.Now w.ext).1 = true
  · simp only [hx, Bool.not_true, Bool.false_eq_true, if_false]
    cases hs : c.cfg.OAuthSource with
    | some source =>
      simp only
      cases ho : (source (env.Now w.ext).2).1 with
      | error err => exact ⟨_, rfl⟩
      | ok tok => exact ⟨_, rfl⟩
    | none =>
      cases hp : c.cfg.AuthProvider with
      | none => exact ⟨[], by simp⟩
      | some provider =>
        simp only
        by_cases hcred : c.token.AccessToken = "" ∧ c.token.Cookies.length = 0
        · simp only [hcred, and_self, if_true]
          cases ha : (provider.Authenticate (env.Now w.ext).2).1 with
          | error err => exact ⟨_, rfl⟩
          | ok tok => exact ⟨_, rfl⟩
        · simp only [hcred, if_false]
          cases hr : (provider.Refresh (env.Now w.ext).2 c.token).1 with
          | ok tok => exact ⟨_, rfl⟩
          | error err =>
            simp only
            cases ha : (provider.Authenticate
                (provider.Refresh (env.Now w.ext).2 c.token).2).1 with
            | error err => exact ⟨[ClientEvent.refresh c.token, ClientEvent.authenticate], by simp⟩
            | ok tok => exact ⟨[ClientEvent.refresh c.token, ClientEvent.authenticate], by simp⟩
  · exact ⟨[], by simp [hx]⟩

theorem ensureToken_log_extends (env : HTTPEnv σ) (c : HTTPClient σ) (w : ClientWorld σ) :
    ∃ evs, (c.ensureToken env w).2.2.log = w.log ++ evs := by
  unfold HTTPClient.ensureToken
  by_cases hx : c.token.IsExpired c.cfg.RefreshBuffer (env.Now w.ext).1 = true
  · simp only [hx, Bool.not_true, Bool.false_eq_true, if_false]
    exact refreshToken_log_extends env c ⟨(env.Now w.ext).2, w.log⟩
  · exact ⟨[], by simp [hx]⟩

/-- The middleware loop over a concatenation: the second part runs only when
the first part raised no error, from the request and the world it left. -/
theorem runMiddlewares_append {ρ : Type} (l₁ l₂ : List (MiddlewareOf σ ρ)) :
    ∀ (i : Nat) (req : ρ) (w : ClientWorld σ),
      runMiddlewares (l₁ ++ l₂) i req w
        = match runMiddlewares l₁ i req w with
          | (some e, r, w') => (some e, r, w')
          | (none, r, w') => runMiddlewares l₂ (i + l₁.length) r w' := by
  induction l₁ with
  | nil => intro i req w; simp [runMiddlewares]
  | cons mw rest ih =>
    intro i req w
    cases h : (mw w.ext req).1.2 with
    | some err => simp [runMiddlewares, h]
    | none =>
      simp only [List.cons_append, runMiddlewares, h, List.length_cons]
      have := ih (i + 1) (mw w.ext req).1.1
        ⟨(mw w.ext req).2, w.log ++ [ClientEvent.middleware i]⟩
      rw [show i + 1 + rest.length = i + (rest.length + 1) by omega] at this
      exact this

theorem runMiddlewares_ok_log {ρ : Type} (mws : List (MiddlewareOf σ ρ)) (i : Nat) (req r : ρ)
    (w w' : ClientWorld σ) (h : runMiddlewares mws i req w = (none, r, w')) :
    w'.log = w.log ++ (List.range mws.length).map (fun j => ClientEvent.middleware (i + j)) := by
  obtain ⟨m, -, hlog, hall⟩ := runMiddlewares_log mws i req w
  rw [h] at hlog hall
  rw [← hall rfl]
  exact hlog

theorem sdkCalls_append (l₁ l₂ : List ClientEvent) :
    sdkCalls (l₁ ++ l₂) = sdkCalls l₁ + sdkCalls l₂ := by
  simp [sdkCalls]

theorem sdkCalls_middlewares (m : Nat) (f : Nat → Nat) :
    sdkCalls ((List.range m).map (fun j => ClientEvent.middleware (f j))) = 0 := by
  induction m with
  | zero => rfl
  | succ m ih =>
    rw [List.range_succ, List.map_append, sdkCalls_append, ih]
    rfl

/-- The middleware loop when the first `k` middlewares return nil and the one at
position `k` returns `e`: it stops there, having logged the calls `0, ..., k`. -/
theorem runMiddlewares_abort {ρ : Type} (mws : List (MiddlewareOf σ ρ)) (req reqk : ρ)
    (w wk : ClientWorld σ) (k : Nat) (e : GoError) (hk : k < mws.length)
    (hpre : runMiddlewares (mws.take k) 0 req w = (none, reqk, wk))
    (herr : ((mws.get ⟨k, hk⟩) wk.ext reqk).1.2 = some e) :
    runMiddlewares mws 0 req w
      = (some e, ((mws.get ⟨k, hk⟩) wk.ext reqk).1.1,
          ⟨((mws.get ⟨k, hk⟩) wk.ext reqk).2,
            w.log ++ (List.range (k + 1)).map ClientEvent.middleware⟩) := by
  have hlenk : (mws.take k).length = k := by
    rw [List.length_take]; omega
  have hwk : wk.log = w.log ++ (List.range k).map ClientEvent.middleware := by
    have h := runMiddlewares_ok_log _ _ _ _ _ _ hpre
    rw [hlenk] at h
    simpa using h
  have hsplit : mws = mws.take k ++ (mws.get ⟨k, hk⟩ :: mws.drop (k + 1)) := by
    rw [List.get_eq_getElem, ← List.drop_eq_getElem_cons hk, List.take_append_drop]
  have hlog : wk.log ++ [ClientEvent.middleware k]
      = w.log ++ (List.range (k + 1)).map ClientEvent.middleware := by
    rw [hwk, List.range_succ, List.map_append, List.append_assoc]
    rfl
  conv_lhs => rw [hsplit]
  rw [runMiddlewares_append, hpre]
  simp only [runMiddlewares, herr, hlenk, Nat.zero_add, hlog]

/-- The log of the S3 `ProcessRequest` once its middlewares have passed: the
log they left, then at most one SDK call. -/
theorem S3ProcessRequest_log (env : S3Env σ) (c : S3Client σ) (inCfg : RequestConfig)
    (cfg : S3RequestConfig) (w w1 : ClientWorld σ) (r1 : S3Request)
    (hcfg : inCfg.ReqConfig = some (ReqConfig.s3 cfg))
    (hall : runMiddlewares c.cfg.Middlewares 0 cfg.NewRequest w = (none, r1, w1)) :
    ∃ rest, (c.ProcessRequest env inCfg w).2.log = w1.log ++ rest := by
  unfold S3Client.ProcessRequest
  simp only [hcfg, hall]
  rcases hf : r1.Finalize with ⟨r2, ferr⟩
  cases ferr with
  | some err => exact ⟨[], by simp⟩
  | none =>
    have hget : (S3Client.doGet env r2 w1).2.log
        = w1.log ++ [ClientEvent.sdk (S3Call.GetObject r2.GetInput)] := by
      unfold S3Client.doGet
      dsimp only
      split <;> rfl
    have hput : (S3Client.doPut env r2 w1).2.log
        = w1.log ++ [ClientEvent.sdk (S3Call.PutObject r2.PutInput)] := by
      unfold S3Client.doPut
      dsimp only
      split <;> rfl
    have hdel : (S3Client.doDelete env r2 w1).2.log
        = w1.log ++ [ClientEvent.sdk (S3Call.DeleteObject r2.DeleteInput)] := by
      unfold S3Client.doDelete
      dsimp only
      split <;> rfl
    have hlist : (S3Client.doList env r2 w1).2.log
        = w1.log ++ [ClientEvent.sdk (S3Call.ListObjectsV2 r2.ListInput)] := by
      unfold S3Client.doList
      dsimp only
      split <;> rfl
    simp only
    split
    · exact ⟨_, hget⟩
    · split
      · exact ⟨_, hput⟩
      · split
        · exact ⟨_, hdel⟩
        · split
          · exact ⟨_, hlist⟩
          · exact ⟨[], by simp⟩

theorem RequestOnce_log_extends (s : NetSvc σ) (cfg : RequestConfig) (w : World σ) :
    ∃ evs, (RequestOnce s cfg w).world.log = w.log ++ evs := by
  by_cases h1 : cfg.ClientRef = ""
  · exact ⟨[], by rw [RequestOnce_configError s cfg (Or.inl h1)]; simp⟩
  · cases h2 : cfg.ReqConfig with
    | none => exact ⟨[], by rw [RequestOnce_configError s cfg (Or.inr (Or.inl h2))]; simp⟩
    | some rc =>
      cases h3 : s.clients cfg.ClientRef with
      | none =>
        exact ⟨[], by rw [RequestOnce_configError s cfg (Or.inr (Or.inr (Or.inl h3)))]; simp⟩
      | some c =>
        by_cases ht : c.typ = rc.Ref
        · exact ⟨_, by rw [RequestOnce_dispatch s cfg c rc h1 h2 h3 ht]⟩
        · exact ⟨[], by
            rw [RequestOnce_configError s cfg (Or.inr (Or.inr (Or.inr ⟨c, rc, h3, h2, ht⟩)))]
            simp⟩

theorem retryLoop_log_extends (s : NetSvc σ) :
    ∀ (fuel : Nat) (a : Int) (lastErr : Option GoError) (cfg : RequestConfig) (w : World σ)
      (r : CallResult σ), retryLoop s fuel a lastErr cfg w = some r →
      ∃ evs, r.world.log = w.log ++ evs := by
  intro fuel
  induction fuel with
  | zero => intro a lastErr cfg w r h; simp [retryLoop] at h
  | succ fuel ih =>
    intro a lastErr cfg w r h
    unfold retryLoop at h
    by_cases hle : a ≤ cfg.MaxRetries
    · simp only [hle, if_true] at h
      have hstep : ∀ w1 : World σ, (∃ e1, w1.log = w.log ++ e1) →
          (match (RequestOnce s cfg w1).err with
            | some err =>
              if (IsTemporaryErr (some err) && decide (a < (RequestOnce s cfg w1).cfg.MaxRetries)) = true
              then retryLoop s fuel (a + 1) (some err) (RequestOnce s cfg w1).cfg
                (RequestOnce s cfg w1).world
              else some (RequestOnce s cfg w1)
            | none =>
              if (RequestOnce s cfg w1).resp.StatusCode ≥ 500 then
                if a < (RequestOnce s cfg w1).cfg.MaxRetries then
                  retryLoop s fuel (a + 1) (some (serverError (RequestOnce s cfg w1).resp.StatusCode))
                    (RequestOnce s cfg w1).cfg (RequestOnce s cfg w1).world
                else
                  some { RequestOnce s cfg w1 with
                    err := some (failedAfter (wrapInt64 ((RequestOnce s cfg w1).cfg.MaxRetries + 1))
                      (some (serverError (RequestOnce s cfg w1).resp.StatusCode))) }
              else some (RequestOnce s cfg w1)) = some r →
          ∃ evs, r.world.log = w.log ++ evs := by
        intro w1 ⟨e1, he1⟩ hr
        obtain ⟨e2, he2⟩ := RequestOnce_log_extends s cfg w1
        have hbase : (RequestOnce s cfg w1).world.log = w.log ++ (e1 ++ e2) := by
          rw [he2, he1, List.append_assoc]
        have hrec : ∀ le' cfg', retryLoop s fuel (a + 1) le' cfg' (RequestOnce s cfg w1).world
            = some r → ∃ evs, r.world.log = w.log ++ evs := by
          intro le' cfg' hh
          obtain ⟨e3, he3⟩ := ih _ _ _ _ _ hh
          exact ⟨e1 ++ e2 ++ e3, by rw [he3, hbase]; simp⟩
        split at hr
        · split at hr
          · exact hrec _ _ hr
          · cases hr; exact ⟨_, hbase⟩
        · split at hr
          · split at hr
            · exact hrec _ _ hr
            · cases hr; exact ⟨_, hbase⟩
          · cases hr; exact ⟨_, hbase⟩
      by_cases hpos : a > 0
      · cases hd : cfg.Delay with
        | none => simp [hpos, hd] at h
        | some d =>
          simp only [hpos, hd, if_true] at h
          exact hstep _ ⟨_, rfl⟩ h
      · simp only [hpos, if_false] at h
        exact hstep w ⟨[], by simp⟩ h
    · simp only [hle, if_false] at h
      cases h
      exact ⟨[], by simp⟩

/-- One iteration of the loop as a function of the attempt's result. -/
theorem retryLoop_step (s : NetSvc σ) (fuel : Nat) (a : Int) (lastErr : Option GoError)
    (cfg : RequestConfig) (w : World σ) (d : RetryDelay)
    (hd : cfg.Delay = some d) (ha : a ≤ cfg.MaxRetries) :
    retryLoop s (fuel + 1) a lastErr cfg w
      = match (RequestOnce s cfg (attemptWorld d cfg a w)).err with
        | some err =>
          if IsTemporaryErr (some err) && decide (a < cfg.MaxRetries) then
            retryLoop s fuel (a + 1) (some err) (normTask cfg)
              (RequestOnce s cfg (attemptWorld d cfg a w)).world
          else some (RequestOnce s cfg (attemptWorld d cfg a w))
        | none =>
          if (RequestOnce s cfg (attemptWorld d cfg a w)).resp.StatusCode ≥ 500 then
            if a < cfg.MaxRetries then
              retryLoop s fuel (a + 1)
                (some (serverError (RequestOnce s cfg (attemptWorld d cfg a w)).resp.StatusCode))
                (normTask cfg) (RequestOnce s cfg (attemptWorld d cfg a w)).world
            else
              some { RequestOnce s cfg (attemptWorld d cfg a w) with
                err := some (failedAfter (wrapInt64 (cfg.MaxRetries + 1))
                  (some (serverError
                    (RequestOnce s cfg (attemptWorld d cfg a w)).resp.StatusCode))) }
          else some (RequestOnce s cfg (attemptWorld d cfg a w)) := by
  obtain ⟨-, -, n3, -, -, -⟩ := normTask_fields cfg
  have hc := RequestOnce_cfg s cfg
  conv_lhs => unfold retryLoop
  by_cases hpos : a > 0
  · simp only [ha, hpos, hd, if_true, attemptWorld, hc, n3]
  · simp only [ha, hpos, if_true, if_false, attemptWorld, hc, n3]

/-- The log of a result of the loop extends the log of the attempt the loop
starts with. -/
theorem retryLoop_log_through_attempt (s : NetSvc σ) (fuel : Nat) (a : Int)
    (lastErr : Option GoError) (cfg : RequestConfig) (w : World σ) (d : RetryDelay)
    (hd : cfg.Delay = some d) (ha : a ≤ cfg.MaxRetries) (r : CallResult σ)
    (h : retryLoop s (fuel + 1) a lastErr cfg w = some r) :
    ∃ evs, r.world.log = (RequestOnce s cfg (attemptWorld d cfg a w)).world.log ++ evs := by
  rw [retryLoop_step s fuel a lastErr cfg w d hd ha] at h
  split at h
  · split at h
    · exact retryLoop_log_extends s _ _ _ _ _ _ h
    · cases h; exact ⟨[], by simp⟩
  · split at h
    · split at h
      · exact retryLoop_log_extends s _ _ _ _ _ _ h
      · cases h; exact ⟨[], by simp⟩
    · cases h; exact ⟨[], by simp⟩

theorem IsTemporaryErr_iff (e : GoError) :
    IsTemporaryErr (some e) = true ↔ e.asTemporary ≠ some false := by
  unfold IsTemporaryErr
  cases h : e.asTemporary with
  | none => simp [h]
  | some b => cases b <;> simp [h]

/-- The config a result of the loop carries: the loop's config with the task
name that `RequestOnce` defaults. -/
theorem retryLoop_cfg (s : NetSvc σ) :
    ∀ (fuel : Nat) (a : Int) (lastErr : Option GoError) (cfg : RequestConfig) (w : World σ)
      (r : CallResult σ), retryLoop s fuel a lastErr cfg w = some r →
      (a ≤ cfg.MaxRetries ∨ normTask cfg = cfg) → r.cfg = normTask cfg := by
  intro fuel
  induction fuel with
  | zero => intro a lastErr cfg w r h; simp [retryLoop] at h
  | succ fuel ih =>
    intro a lastErr cfg w r h hcase
    have hc := RequestOnce_cfg s cfg
    unfold retryLoop at h
    by_cases hle : a ≤ cfg.MaxRetries
    · simp only [hle, if_true] at h
      have hstep : ∀ w1 : World σ,
          (match (RequestOnce s cfg w1).err with
            | some err =>
              if (IsTemporaryErr (some err) && decide (a < (RequestOnce s cfg w1).cfg.MaxRetries)) = true
              then retryLoop s fuel (a + 1) (some err) (RequestOnce s cfg w1).cfg
                (RequestOnce s cfg w1).world
              else some (RequestOnce s cfg w1)
            | none =>
              if (RequestOnce s cfg w1).resp.StatusCode ≥ 500 then
                if a < (RequestOnce s cfg w1).cfg.MaxRetries then
                  retryLoop s fuel (a + 1) (some (serverError (RequestOnce s cfg w1).resp.StatusCode))
                    (RequestOnce s cfg w1).cfg (RequestOnce s cfg w1).world
                else
                  some { RequestOnce s cfg w1 with
                    err := some (failedAfter (wrapInt64 ((RequestOnce s cfg w1).cfg.MaxRetries + 1))
                      (some (serverError (RequestOnce s cfg w1).resp.StatusCode))) }
              else some (RequestOnce s cfg w1)) = some r →
          r.cfg = normTask cfg := by
        intro w1 hr
        have hrec : ∀ le', retryLoop s fuel (a + 1) le' (RequestOnce s cfg w1).cfg
            (RequestOnce s cfg w1).world = some r → r.cfg = normTask cfg := by
          intro le' hh
          rw [hc] at hh
          have := ih _ _ _ _ _ hh (Or.inr (normTask_idem cfg))
          rw [this, normTask_idem]
        split at hr
        · split at hr
          · exact hrec _ hr
          · cases hr; exact hc w1
        · split at hr
          · split at hr
            · exact hrec _ hr
            · cases hr; exact hc w1
          · cases hr; exact hc w1
      by_cases hpos : a > 0
      · cases hd : cfg.Delay with
        | none => simp [hpos, hd] at h
        | some d =>
          simp only [hpos, hd, if_true] at h
          exact hstep _ h
      · simp only [hpos, if_false] at h
        exact hstep w h
    · simp only [hle, if_false] at h
      cases h
      rcases hcase with h1 | h1
      · exact absurd h1 hle
      · exact h1.symm


/-! ## Lemmas on maps and the listener hub -/

theorem entriesGet_entriesSet_self {α : Type} (l : List (String × α)) (k : String) (v : α) :
    entriesGet (entriesSet l k v) k = some v := by
  induction l with
  | nil => simp [entriesSet, entriesGet]
  | cons e rest ih =>
    obtain ⟨k', v'⟩ := e
    by_cases h : k' = k
    · simp [entriesSet, entriesGet, h]
    · simp [entriesSet, entriesGet, h, ih]

theorem entriesGet_entriesSet_ne {α : Type} (l : List (String × α)) (k k' : String) (v : α)
    (hne : k' ≠ k) : entriesGet (entriesSet l k v) k' = entriesGet l k' := by
  induction l with
  | nil => simp [entriesSet, entriesGet, Ne.symm hne]
  | cons e rest ih =>
    obtain ⟨k0, v0⟩ := e
    by_cases h : k0 = k
    · subst h
      simp [entriesSet, entriesGet, Ne.symm hne]
    · by_cases h2 : k0 = k'
      · subst h2
        simp [entriesSet, entriesGet, h]
      · simp [entriesSet, entriesGet, h, h2, ih]

theorem entriesGet_eq_none_iff {α : Type} (l : List (String × α)) (k : String) :
    entriesGet l k = none ↔ k ∉ l.map Prod.fst := by
  induction l with
  | nil => simp [entriesGet]
  | cons e rest ih =>
    obtain ⟨k0, v0⟩ := e
    by_cases h : k0 = k
    · simp [entriesGet, h]
    · simp [entriesGet, h, ih, Ne.symm h]

theorem entriesGet_entriesDelete_ne {α : Type} (l : List (String × α)) (k k' : String)
    (hne : k' ≠ k) : entriesGet (entriesDelete l k) k' = entriesGet l k' := by
  induction l with
  | nil => simp [entriesDelete, entriesGet]
  | cons e rest ih =>
    obtain ⟨k0, v0⟩ := e
    by_cases h : k0 = k
    · subst h
      simp [entriesDelete, entriesGet, Ne.symm hne]
    · by_cases h2 : k0 = k'
      · subst h2
        simp [entriesDelete, entriesGet, h]
      · simp [entriesDelete, entriesGet, h, h2, ih]

theorem entriesGet_entriesDelete_self {α : Type} (l : List (String × α)) (k : String)
    (hnd : (l.map Prod.fst).Nodup) : entriesGet (entriesDelete l k) k = none := by
  induction l with
  | nil => simp [entriesDelete, entriesGet]
  | cons e rest ih =>
    obtain ⟨k0, v0⟩ := e
    simp only [List.map_cons, List.nodup_cons] at hnd
    by_cases h : k0 = k
    · subst h
      simp only [entriesDelete, if_true]
      exact (entriesGet_eq_none_iff rest k0).mpr hnd.1
    · simp [entriesDelete, entriesGet, h, ih hnd.2]

theorem entriesDelete_entriesSet_absent {α : Type} (l : List (String × α)) (k : String) (v : α)
    (habs : entriesGet l k = none) : entriesDelete (entriesSet l k v) k = l := by
  induction l with
  | nil => simp [entriesSet, entriesDelete]
  | cons e rest ih =>
    obtain ⟨k0, v0⟩ := e
    by_cases h : k0 = k
    · simp [entriesGet, h] at habs
    · simp only [entriesGet, h, if_false] at habs
      simp [entriesSet, entriesDelete, h, ih habs]


theorem deliver_spec (t : Bool) (n : TransferNotification) (h : Hub) (ch : Nat) (c : Chan)
    (hc : h.chans[ch]? = some c) (hopen : c.closed = false) :
    ∃ h1, Hub.deliver t n h ch = some h1
      ∧ h1.listenersByURL = h.listenersByURL ∧ h1.transferState = h.transferState
      ∧ h1.relay = h.relay ∧ h1.published = h.published
      ∧ (t = false → h1.spawned = h.spawned)
      ∧ ∀ i, h1.chans[i]? = if i = ch then some (c.offer n) else h.chans[i]? := by
  have hlt : ch < h.chans.length := by
    rcases Nat.lt_or_ge ch h.chans.length with h1 | h1
    · exact h1
    · rw [List.getElem?_eq_none h1] at hc; cases hc
  unfold Hub.deliver
  simp only [hc, hopen, Bool.false_eq_true, if_false]
  by_cases hroom : c.buf.length < c.cap
  · simp only [hroom, if_true]
    refine ⟨_, rfl, rfl, rfl, rfl, rfl, fun _ => rfl, ?_⟩
    intro i
    by_cases hi : i = ch
    · subst hi
      simp [Chan.offer, hroom, hlt, hopen]
    · simp [hi, List.getElem?_set_ne (Ne.symm hi)]
  · have hsame : ∀ i, h.chans[i]? = if i = ch then some (c.offer n) else h.chans[i]? := by
      intro i
      by_cases hi : i = ch
      · subst hi
        simp [Chan.offer, hroom, hc]
      · simp [hi]
    simp only [hroom, if_false]
    cases t with
    | true =>
      simp only [if_true]
      exact ⟨_, rfl, rfl, rfl, rfl, rfl, fun ht => Bool.noConfusion ht, hsame⟩
    | false =>
      simp only [Bool.false_eq_true, if_false]
      exact ⟨_, rfl, rfl, rfl, rfl, rfl, fun _ => rfl, hsame⟩

theorem foldlM_deliver (t : Bool) (n : TransferNotification) :
    ∀ (l : List Nat) (h : Hub), l.Nodup →
      (∀ ch ∈ l, ∃ c, h.chans[ch]? = some c ∧ c.closed = false) →
      ∃ h1, l.foldlM (Hub.deliver t n) h = some h1
        ∧ h1.listenersByURL = h.listenersByURL ∧ h1.transferState = h.transferState
        ∧ h1.relay = h.relay ∧ h1.published = h.published
        ∧ (t = false → h1.spawned = h.spawned)
        ∧ ∀ i, h1.chans[i]?
            = if i ∈ l then (h.chans[i]?).map (fun c => c.offer n) else h.chans[i]? := by
  intro l
  induction l with
  | nil =>
    intro h _ _
    exact ⟨h, rfl, rfl, rfl, rfl, rfl, fun _ => rfl, fun i => by simp⟩
  | cons a rest ih =>
    intro h hnd hok
    simp only [List.nodup_cons] at hnd
    obtain ⟨c, hc, hopen⟩ := hok a (List.mem_cons_self a rest)
    obtain ⟨h1, hd, e1, e2, e3, e4, e5, e6⟩ := deliver_spec t n h a c hc hopen
    have hok1 : ∀ ch ∈ rest, ∃ c, h1.chans[ch]? = some c ∧ c.closed = false := by
      intro ch hch
      have hne : ch ≠ a := fun he => hnd.1 (he ▸ hch)
      rw [e6 ch]
      simp only [hne, if_false]
      exact hok ch (List.mem_cons_of_mem a hch)
    obtain ⟨h2, hf, f1, f2, f3, f4, f5, f6⟩ := ih h1 hnd.2 hok1
    refine ⟨h2, ?_, f1.trans e1, f2.trans e2, f3.trans e3, f4.trans e4,
      fun ht => (f5 ht).trans (e5 ht), ?_⟩
    · simp only [List.foldlM_cons, hd]
      exact hf
    · intro i
      rw [f6 i, e6 i]
      by_cases hi : i = a
      · subst hi
        simp [hnd.1, hc]
      · simp [hi]


theorem mem_of_entriesGet {α : Type} (l : List (String × α)) (k : String) (v : α)
    (h : entriesGet l k = some v) : (k, v) ∈ l := by
  induction l with
  | nil => simp [entriesGet] at h
  | cons e rest ih =>
    obtain ⟨k0, v0⟩ := e
    by_cases hk : k0 = k
    · simp only [entriesGet, hk, if_true, Option.some.injEq] at h
      simp [hk, h]
    · simp only [entriesGet, hk, if_false] at h
      exact List.mem_cons_of_mem _ (ih h)

theorem entriesGet_of_mem {α : Type} (l : List (String × α)) (k : String) (v : α)
    (hnd : (l.map Prod.fst).Nodup) (h : (k, v) ∈ l) : entriesGet l k = some v := by
  induction l with
  | nil => simp at h
  | cons e rest ih =>
    obtain ⟨k0, v0⟩ := e
    simp only [List.map_cons, List.nodup_cons] at hnd
    rcases List.mem_cons.mp h with h1 | h1
    · cases h1
      simp [entriesGet]
    · have hne : k0 ≠ k := by
        intro he
        subst he
        exact hnd.1 (List.mem_map_of_mem Prod.fst h1)
      simp only [entriesGet, hne, if_false]
      exact ih hnd.2 h1

theorem mem_entriesSet {α : Type} (l : List (String × α)) (k : String) (v : α)
    (hnd : (l.map Prod.fst).Nodup) (e : String × α) (h : e ∈ entriesSet l k v) :
    e = (k, v) ∨ (e ∈ l ∧ e.1 ≠ k) := by
  induction l with
  | nil =>
    simp only [entriesSet, List.mem_singleton] at h
    exact Or.inl h
  | cons e0 rest ih =>
    obtain ⟨k0, v0⟩ := e0
    simp only [List.map_cons, List.nodup_cons] at hnd
    by_cases hk : k0 = k
    · simp only [entriesSet, hk, if_true, List.mem_cons] at h
      rcases h with h | h
      · exact Or.inl h
      · refine Or.inr ⟨List.mem_cons_of_mem _ h, ?_⟩
        intro he
        apply hnd.1
        rw [hk, ← he]
        exact List.mem_map_of_mem Prod.fst h
    · simp only [entriesSet, hk, if_false, List.mem_cons] at h
      rcases h with h | h
      · exact Or.inr ⟨by simp [h], by rw [h]; exact hk⟩
      · rcases ih hnd.2 h with h1 | h1
        · exact Or.inl h1
        · exact Or.inr ⟨List.mem_cons_of_mem _ h1.1, h1.2⟩

theorem keys_entriesSet {α : Type} (l : List (String × α)) (k : String) (v : α) (x : String)
    (h : x ∈ (entriesSet l k v).map Prod.fst) : x = k ∨ x ∈ l.map Prod.fst := by
  induction l with
  | nil =>
    simp only [entriesSet, List.map_cons, List.map_nil, List.mem_singleton] at h
    exact Or.inl h
  | cons e0 rest ih =>
    obtain ⟨k0, v0⟩ := e0
    by_cases hk : k0 = k
    · simp only [entriesSet, hk, if_true, List.map_cons, List.mem_cons] at h
      rcases h with h | h
      · exact Or.inl h
      · exact Or.inr (by simp [h])
    · simp only [entriesSet, hk, if_false, List.map_cons, List.mem_cons] at h
      rcases h with h | h
      · exact Or.inr (by simp [h])
      · rcases ih h with h1 | h1
        · exact Or.inl h1
        · exact Or.inr (by simp [h1])

theorem keys_entriesSet_nodup {α : Type} (l : List (String × α)) (k : String) (v : α)
    (hnd : (l.map Prod.fst).Nodup) : ((entriesSet l k v).map Prod.fst).Nodup := by
  induction l with
  | nil => simp [entriesSet]
  | cons e0 rest ih =>
    obtain ⟨k0, v0⟩ := e0
    simp only [List.map_cons, List.nodup_cons] at hnd
    by_cases hk : k0 = k
    · simp only [entriesSet, hk, if_true, List.map_cons, List.nodup_cons]
      exact ⟨hk ▸ hnd.1, hnd.2⟩
    · simp only [entriesSet, hk, if_false, List.map_cons, List.nodup_cons]
      refine ⟨?_, ih hnd.2⟩
      intro hmem
      rcases keys_entriesSet rest k v k0 hmem with h1 | h1
      · exact hk h1
      · exact hnd.1 h1

theorem entriesDelete_sublist {α : Type} (l : List (String × α)) (k : String) :
    (entriesDelete l k).Sublist l := by
  induction l with
  | nil => simp [entriesDelete]
  | cons e0 rest ih =>
    obtain ⟨k0, v0⟩ := e0
    by_cases hk : k0 = k
    · simp only [entriesDelete, hk, if_true]
      exact List.sublist_cons_self _ _
    · simp only [entriesDelete, hk, if_false]
      exact ih.cons₂ _

theorem mem_entriesDelete {α : Type} (l : List (String × α)) (k : String)
    (hnd : (l.map Prod.fst).Nodup) (e : String × α) (h : e ∈ entriesDelete l k) :
    e ∈ l ∧ e.1 ≠ k := by
  refine ⟨(entriesDelete_sublist l k).subset h, ?_⟩
  intro he
  have hget := entriesGet_entriesDelete_self l k hnd
  rw [entriesGet_eq_none_iff] at hget
  have hmem : e.1 ∈ (entriesDelete l k).map Prod.fst := List.mem_map_of_mem Prod.fst h
  rw [he] at hmem
  exact hget hmem


theorem listeners_mem (h : Hub) (url : String) (ch : Nat) (hch : ch ∈ h.listeners url) :
    (url, h.listeners url) ∈ h.listenersByURL := by
  unfold Hub.listeners at hch ⊢
  cases hg : entriesGet h.listenersByURL url with
  | none => rw [hg] at hch; simp at hch
  | some l => exact mem_of_entriesGet _ _ _ hg

theorem chanOK_iff (h : Hub) (ch : Nat) :
    h.chanOK ch = true
      ↔ ∃ c, h.chans[ch]? = some c ∧ c.closed = false ∧ c.cap = 10 ∧ c.buf.length ≤ 10 := by
  unfold Hub.chanOK
  cases hc : h.chans[ch]? with
  | none => simp
  | some c => simp [and_assoc]

theorem offer_ok (c : Chan) (n : TransferNotification)
    (h : c.closed = false ∧ c.cap = 10 ∧ c.buf.length ≤ 10) :
    (c.offer n).closed = false ∧ (c.offer n).cap = 10 ∧ (c.offer n).buf.length ≤ 10 := by
  obtain ⟨h1, h2, h3⟩ := h
  unfold Chan.offer
  by_cases hroom : c.buf.length < c.cap
  · simp only [hroom, if_true, List.length_append, List.length_singleton]
    exact ⟨h1, h2, by omega⟩
  · simp only [hroom, if_false]
    exact ⟨h1, h2, h3⟩

/-- What `publishTransferUpdate` does on a hub that satisfies the invariant: it
returns, records the notification, offers it to every listener of the source
URL and to no other channel, and keeps the invariant. -/
theorem publishTransferUpdate_spec (h : Hub) (n : TransferNotification) (hwf : h.WF) :
    ∃ h1, h.publishTransferUpdate n = some h1
      ∧ h1.listenersByURL = h.listenersByURL
      ∧ h1.published = h.published ++ [n]
      ∧ h1.transferState = entriesSet h.transferState n.Destination n
      ∧ (n.Status.isTerminal = false → h1.spawned = h.spawned)
      ∧ (∀ i, h1.chans[i]?
          = if i ∈ h.listeners n.Source then (h.chans[i]?).map (fun c => c.offer n)
            else h.chans[i]?)
      ∧ h1.WF := by
  obtain ⟨w1, w2, w3, w4⟩ := hwf
  have hmem : ∀ ch ∈ h.listeners n.Source, (n.Source, h.listeners n.Source) ∈ h.listenersByURL :=
    fun ch hch => listeners_mem h n.Source ch hch
  have hnd : (h.listeners n.Source).Nodup := by
    cases hl : h.listeners n.Source with
    | nil => exact List.nodup_nil
    | cons a rest =>
      have := hmem a (by rw [hl]; exact List.mem_cons_self _ _)
      rw [← hl]
      exact (w2 _ this).1
  have hok : ∀ ch ∈ h.listeners n.Source, ∃ c, h.chans[ch]? = some c ∧ c.closed = false := by
    intro ch hch
    obtain ⟨c, hc, ho, -, -⟩ := (chanOK_iff h ch).mp (w4 _ (hmem ch hch) ch hch)
    exact ⟨c, hc, ho⟩
  obtain ⟨h2, hf, f1, f2, f3, f4, f5, f6⟩ := foldlM_deliver n.Status.isTerminal n
    (h.listeners n.Source)
    { h with transferState := entriesSet h.transferState n.Destination n
             published := h.published ++ [n] } hnd hok
  have hlis : ({ h with transferState := entriesSet h.transferState n.Destination n
                        published := h.published ++ [n] } : Hub).listeners n.Source
      = h.listeners n.Source := rfl
  have hwf2 : ∀ h3 : Hub, h3.listenersByURL = h2.listenersByURL → h3.chans = h2.chans → h3.WF := by
    intro h3 e1 e2
    refine ⟨by rw [e1, f1]; exact w1, by rw [e1, f1]; exact w2, by rw [e1, f1]; exact w3, ?_⟩
    rw [e1, f1]
    intro e he ch hch
    rw [chanOK_iff, e2, f6 ch]
    obtain ⟨c, hc, hrest⟩ := (chanOK_iff h ch).mp (w4 e he ch hch)
    show ∃ c, (if ch ∈ h.listeners n.Source then (h.chans[ch]?).map (fun c => c.offer n)
      else h.chans[ch]?) = some c ∧ _
    by_cases hin : ch ∈ h.listeners n.Source
    · simp only [hin, if_true, hc, Option.map_some']
      exact ⟨_, rfl, offer_ok c n hrest⟩
    · simp only [hin, if_false, hc]
      exact ⟨_, rfl, hrest⟩
  unfold Hub.publishTransferUpdate
  simp only [hlis, hf, Option.map_some']
  cases hr : h2.relay with
  | none => exact ⟨h2, rfl, f1, f4, f2, f5, f6, hwf2 h2 rfl rfl⟩
  | some calls => exact ⟨_, rfl, f1, f4, f2, f5, f6, hwf2 _ rfl rfl⟩


theorem chanOK_lt (h : Hub) (ch : Nat) (hok : h.chanOK ch = true) : ch < h.chans.length := by
  obtain ⟨c, hc, -⟩ := (chanOK_iff h ch).mp hok
  rcases Nat.lt_or_ge ch h.chans.length with h1 | h1
  · exact h1
  · rw [List.getElem?_eq_none h1] at hc; cases hc

theorem listeners_nodup (h : Hub) (hwf : h.WF) (url : String) : (h.listeners url).Nodup := by
  cases hl : h.listeners url with
  | nil => exact List.nodup_nil
  | cons a rest =>
    have := listeners_mem h url a (by rw [hl]; exact List.mem_cons_self _ _)
    rw [← hl]
    exact (hwf.2.1 _ this).1

/-- The empty hub satisfies the invariant. -/
theorem WF_empty : ({} : Hub).WF := by decide

/-- `TransferListener` keeps the invariant. -/
theorem TransferListener_WF (h : Hub) (url : String) (hwf : h.WF) :
    (h.TransferListener url).2.WF := by
  have hnd := listeners_nodup h hwf url
  obtain ⟨w1, w2, w3, w4⟩ := hwf
  have hold : ∀ ch ∈ h.listeners url, h.chanOK ch = true :=
    fun ch hch => w4 _ (listeners_mem h url ch hch) ch hch
  have hfresh : ∀ e ∈ h.listenersByURL, h.chans.length ∉ e.2 := by
    intro e he hin
    exact absurd (chanOK_lt h _ (w4 e he _ hin)) (lt_irrefl _)
  have hfresh2 : h.chans.length ∉ h.listeners url := by
    intro hin
    exact absurd (chanOK_lt h _ (hold _ hin)) (lt_irrefl _)
  have hkeep : ∀ ch, h.chanOK ch = true → (h.TransferListener url).2.chanOK ch = true := by
    intro ch hok
    have hlt := chanOK_lt h ch hok
    rw [chanOK_iff] at hok ⊢
    obtain ⟨c, hc, hrest⟩ := hok
    refine ⟨c, ?_, hrest⟩
    show (h.chans ++ [_])[ch]? = some c
    rw [List.getElem?_append_left hlt]
    exact hc
  have hnew : (h.TransferListener url).2.chanOK h.chans.length = true := by
    rw [chanOK_iff]
    refine ⟨{ buf := [], cap := 10, closed := false }, ?_, rfl, rfl, by simp⟩
    show (h.chans ++ [_])[h.chans.length]? = some _
    simp
  have hcases : ∀ e ∈ (h.TransferListener url).2.listenersByURL,
      e = (url, h.listeners url ++ [h.chans.length]) ∨ (e ∈ h.listenersByURL ∧ e.1 ≠ url) :=
    fun e he => mem_entriesSet _ _ _ w1 e he
  have hin_new : ∀ ch ∈ h.listeners url ++ [h.chans.length], ∀ e ∈ h.listenersByURL,
      ch ∈ e.2 → e.1 = url := by
    intro ch hch e he hin
    rcases List.mem_append.mp hch with h1 | h1
    · exact w3 e he _ (listeners_mem h url ch h1) ch hin h1
    · simp only [List.mem_singleton] at h1
      subst h1
      exact absurd hin (hfresh e he)
  refine ⟨keys_entriesSet_nodup _ _ _ w1, ?_, ?_, ?_⟩
  · intro e he
    rcases hcases e he with h1 | h1
    · subst h1
      refine ⟨?_, by simp⟩
      exact List.Nodup.append hnd (List.nodup_singleton _)
        (by
          intro a ha hb
          simp only [List.mem_singleton] at hb
          exact hfresh2 (hb ▸ ha))
    · exact w2 e h1.1
  · intro e1 he1 e2 he2 ch hc1 hc2
    rcases hcases e1 he1 with h1 | h1 <;> rcases hcases e2 he2 with h2 | h2
    · rw [h1, h2]
    · rw [h1] at hc1 ⊢
      exact (hin_new ch hc1 e2 h2.1 hc2).symm
    · rw [h2] at hc2 ⊢
      exact hin_new ch hc2 e1 h1.1 hc1
    · exact w3 e1 h1.1 e2 h2.1 ch hc1 hc2
  · intro e he ch hch
    rcases hcases e he with h1 | h1
    · rw [h1] at hch
      rcases List.mem_append.mp hch with h2 | h2
      · exact hkeep ch (hold ch h2)
      · simp only [List.mem_singleton] at h2
        rw [h2]; exact hnew
    · exact hkeep ch (w4 e h1.1 ch hch)


/-! ## Lemmas on the credentials of the HTTP client -/

theorem foldl_append_string (l : List String) (acc : String) :
    l.foldl (fun r s => r ++ s) acc = acc ++ l.foldl (fun r s => r ++ s) "" := by
  induction l generalizing acc with
  | nil => simp
  | cons a rest ih =>
    simp only [List.foldl_cons]
    rw [ih (acc ++ a), ih ("" ++ a)]
    simp [String.append_assoc]

theorem cookieHeader_cons (ck : Cookie) (rest : List Cookie) :
    cookieHeader (ck :: rest) = ck.Name ++ "=" ++ ck.Value ++ "; " ++ cookieHeader rest := by
  unfold cookieHeader String.join
  simp only [List.map_cons, List.foldl_cons]
  rw [foldl_append_string]
  simp [String.append_assoc]

theorem foldl_cookies (cookies : List Cookie) (acc : String) :
    cookies.foldl (fun merged ck => merged ++ ck.Name ++ "=" ++ ck.Value ++ "; ") acc
      = acc ++ cookieHeader cookies := by
  induction cookies generalizing acc with
  | nil => simp [cookieHeader, String.join]
  | cons ck rest ih =>
    simp only [List.foldl_cons]
    rw [ih, cookieHeader_cons]
    simp [String.append_assoc]


/-! ## Lemmas on the cookie store -/

theorem storeOrReplaceCookie_names (jar : List Cookie) (c : Cookie) :
    (storeOrReplaceCookie jar c).map Cookie.Name
      = if c.Name ∈ jar.map Cookie.Name then jar.map Cookie.Name
        else jar.map Cookie.Name ++ [c.Name] := by
  induction jar with
  | nil => simp [storeOrReplaceCookie]
  | cons e rest ih =>
    by_cases h : e.Name = c.Name
    · simp [storeOrReplaceCookie, h]
    · have h2 : ¬ c.Name = e.Name := fun he => h he.symm
      simp only [storeOrReplaceCookie, h, if_false, List.map_cons, ih, List.mem_cons, h2,
        false_or]
      split <;> simp

theorem storeOrReplaceCookie_mem_self (jar : List Cookie) (c : Cookie) :
    c ∈ storeOrReplaceCookie jar c := by
  induction jar with
  | nil => simp [storeOrReplaceCookie]
  | cons e rest ih =>
    by_cases h : e.Name = c.Name
    · simp [storeOrReplaceCookie, h]
    · simp only [storeOrReplaceCookie, h, if_false]
      exact List.mem_cons_of_mem _ ih

theorem storeOrReplaceCookie_getElem? (jar : List Cookie) (c : Cookie) :
    ∀ (i : Nat) (c0 : Cookie), jar[i]? = some c0 → c0.Name ≠ c.Name →
      (storeOrReplaceCookie jar c)[i]? = some c0 := by
  induction jar with
  | nil => intro i c0 h; simp at h
  | cons e rest ih =>
    intro i c0 h hne
    by_cases he : e.Name = c.Name
    · cases i with
      | zero =>
        simp only [List.getElem?_cons_zero, Option.some.injEq] at h
        subst h
        exact absurd he hne
      | succ j =>
        simp only [storeOrReplaceCookie, he, if_true]
        simpa using h
    · simp only [storeOrReplaceCookie, he, if_false]
      cases i with
      | zero => simpa using h
      | succ j =>
        simp only [List.getElem?_cons_succ] at h ⊢
        exact ih j c0 h hne

theorem storeOrReplaceCookie_mem (jar : List Cookie) (c : Cookie)
    (hnd : (jar.map Cookie.Name).Nodup) :
    ∀ c1 ∈ storeOrReplaceCookie jar c, c1 = c ∨ (c1 ∈ jar ∧ c1.Name ≠ c.Name) := by
  induction jar with
  | nil =>
    intro c1 h
    simp only [storeOrReplaceCookie, List.mem_singleton] at h
    exact Or.inl h
  | cons e rest ih =>
    intro c1 h
    simp only [List.map_cons, List.nodup_cons] at hnd
    by_cases he : e.Name = c.Name
    · simp only [storeOrReplaceCookie, he, if_true, List.mem_cons] at h
      rcases h with h | h
      · exact Or.inl h
      · refine Or.inr ⟨List.mem_cons_of_mem _ h, ?_⟩
        intro hn
        apply hnd.1
        rw [he, ← hn]
        exact List.mem_map_of_mem Cookie.Name h
    · simp only [storeOrReplaceCookie, he, if_false, List.mem_cons] at h
      rcases h with h | h
      · exact Or.inr ⟨by simp [h], by rw [h]; exact he⟩
      · rcases ih hnd.2 c1 h with h1 | h1
        · exact Or.inl h1
        · exact Or.inr ⟨List.mem_cons_of_mem _ h1.1, h1.2⟩

theorem storeOrReplaceCookie_nodup (jar : List Cookie) (c : Cookie)
    (hnd : (jar.map Cookie.Name).Nodup) :
    ((storeOrReplaceCookie jar c).map Cookie.Name).Nodup := by
  rw [storeOrReplaceCookie_names]
  split
  · exact hnd
  · rename_i h
    exact List.Nodup.append hnd (List.nodup_singleton _) (by
      intro a ha hb
      simp only [List.mem_singleton] at hb
      exact h (hb ▸ ha))

theorem newNames_congr (l : List String) :
    ∀ (s1 s2 : List String), (∀ x, x ∈ s1 ↔ x ∈ s2) → newNames s1 l = newNames s2 l := by
  induction l with
  | nil => intro s1 s2 _; rfl
  | cons n rest ih =>
    intro s1 s2 h
    by_cases hn : n ∈ s1
    · have hn2 : n ∈ s2 := (h n).mp hn
      simp only [newNames, hn, hn2, if_true]
      exact ih s1 s2 h
    · have hn2 : n ∉ s2 := fun hx => hn ((h n).mpr hx)
      simp only [newNames, hn, hn2, if_false]
      rw [ih (n :: s1) (n :: s2) (fun x => by simp [h x])]


theorem newNames_complete (l : List String) :
    ∀ (seen : List String) (n : String), n ∈ l → n ∈ seen ∨ n ∈ newNames seen l := by
  induction l with
  | nil => intro seen n h; simp at h
  | cons a rest ih =>
    intro seen n h
    by_cases ha : a ∈ seen
    · simp only [newNames, ha, if_true]
      rcases List.mem_cons.mp h with h1 | h1
      · exact Or.inl (h1 ▸ ha)
      · exact ih seen n h1
    · simp only [newNames, ha, if_false, List.mem_cons]
      rcases List.mem_cons.mp h with h1 | h1
      · exact Or.inr (Or.inl h1)
      · rcases ih (a :: seen) n h1 with h2 | h2
        · rcases List.mem_cons.mp h2 with h3 | h3
          · exact Or.inr (Or.inl h3)
          · exact Or.inl h3
        · exact Or.inr (Or.inr h2)

theorem lastWith_cons_of_mem (name : String) (c : Cookie) (rest : List Cookie)
    (h : name ∈ rest.map Cookie.Name) : lastWith name (c :: rest) = lastWith name rest := by
  obtain ⟨c1, hc1, hn⟩ := List.mem_map.mp h
  have hne : rest.filter (fun c => decide (c.Name = name)) ≠ [] := by
    intro hnil
    have : c1 ∈ rest.filter (fun c => decide (c.Name = name)) := by
      simp [List.mem_filter, hc1, hn]
    rw [hnil] at this
    simp at this
  unfold lastWith
  by_cases hc : c.Name = name
  · simp only [List.filter_cons, hc, decide_True, if_true]
    cases hf : rest.filter (fun c => decide (c.Name = name)) with
    | nil => exact absurd hf hne
    | cons a l => simp [List.getLast?_cons_cons]
  · simp [List.filter_cons, hc]

theorem lastWith_cons_of_not_mem (c : Cookie) (rest : List Cookie)
    (h : c.Name ∉ rest.map Cookie.Name) : lastWith c.Name (c :: rest) = some c := by
  have hnil : rest.filter (fun c1 => decide (c1.Name = c.Name)) = [] := by
    rw [List.filter_eq_nil_iff]
    intro a ha
    simp only [decide_eq_true_eq]
    intro hn
    exact h (hn ▸ List.mem_map_of_mem Cookie.Name ha)
  unfold lastWith
  simp [List.filter_cons, hnil]

/-- Capturing the cookies `cs`, one after the other, into a store with pairwise
distinct names. -/
theorem foldl_storeOrReplaceCookie (cs : List Cookie) :
    ∀ jar : List Cookie, (jar.map Cookie.Name).Nodup →
      ((cs.foldl storeOrReplaceCookie jar).map Cookie.Name).Nodup
      ∧ (cs.foldl storeOrReplaceCookie jar).map Cookie.Name
          = jar.map Cookie.Name ++ newNames (jar.map Cookie.Name) (cs.map Cookie.Name)
      ∧ (∀ c1 ∈ cs.foldl storeOrReplaceCookie jar, c1.Name ∈ cs.map Cookie.Name →
          lastWith c1.Name cs = some c1)
      ∧ (∀ (i : Nat) (c0 : Cookie), jar[i]? = some c0 → c0.Name ∉ cs.map Cookie.Name →
          (cs.foldl storeOrReplaceCookie jar)[i]? = some c0)
      ∧ (∀ c1 ∈ cs.foldl storeOrReplaceCookie jar, c1.Name ∉ cs.map Cookie.Name → c1 ∈ jar) := by
  induction cs with
  | nil =>
    intro jar hnd
    refine ⟨hnd, by simp [newNames], ?_, ?_, ?_⟩
    · intro c1 _ h; simp at h
    · intro i c0 h _; exact h
    · intro c1 h _; exact h
  | cons c rest ih =>
    intro jar hnd
    obtain ⟨q1, q2, q3, q4, q5⟩ := ih (storeOrReplaceCookie jar c)
      (storeOrReplaceCookie_nodup jar c hnd)
    simp only [List.foldl_cons, List.map_cons]
    refine ⟨q1, ?_, ?_, ?_, ?_⟩
    · rw [q2, storeOrReplaceCookie_names]
      by_cases hin : c.Name ∈ jar.map Cookie.Name
      · simp only [hin, if_true, newNames]
      · simp only [hin, if_false, newNames, List.append_assoc, List.singleton_append]
        rw [newNames_congr _ (jar.map Cookie.Name ++ [c.Name]) (c.Name :: jar.map Cookie.Name)
          (fun x => by simp [or_comm])]
    · intro c1 hc1 hname
      by_cases hin : c1.Name ∈ rest.map Cookie.Name
      · rw [lastWith_cons_of_mem _ _ _ hin]
        exact q3 c1 hc1 hin
      · have heq : c1.Name = c.Name := by
          rcases List.mem_cons.mp hname with h | h
          · exact h
          · exact absurd h hin
        have hjar := q5 c1 hc1 hin
        rcases storeOrReplaceCookie_mem jar c hnd c1 hjar with h | h
        · subst h
          exact lastWith_cons_of_not_mem _ _ hin
        · exact absurd heq h.2
    · intro i c0 h0 hname
      simp only [List.mem_cons, not_or] at hname
      exact q4 i c0 (storeOrReplaceCookie_getElem? jar c i c0 h0 hname.1) hname.2
    · intro c1 hc1 hname
      simp only [List.mem_cons, not_or] at hname
      rcases storeOrReplaceCookie_mem jar c hnd c1 (q5 c1 hc1 hname.2) with h | h
      · exact absurd (by rw [h]) hname.1
      · exact h.1

theorem foldl_flatten_cookies (ls : List (List Cookie)) :
    ∀ jar : List Cookie,
      ls.foldl (fun jar l => l.foldl storeOrReplaceCookie jar) jar
        = ls.flatten.foldl storeOrReplaceCookie jar := by
  induction ls with
  | nil => intro jar; rfl
  | cons l rest ih =>
    intro jar
    simp only [List.foldl_cons, List.flatten_cons, List.foldl_append]
    exact ih _


/-! ## Lemmas on the progress reader -/

theorem wrapInt64_of_range (x : Int) (h0 : 0 ≤ x) (h1 : x < 2 ^ 63) : wrapInt64 x = x := by
  unfold wrapInt64
  have h2 : (x + 2 ^ 63) % 2 ^ 64 = x + 2 ^ 63 :=
    Int.emod_eq_of_lt (by omega) (by omega)
  rw [h2]
  omega

theorem progressPct_eq (d t : Int) : progressPct d t = roundedPercentage d t := by
  unfold progressPct roundedPercentage float64Mul float64Div float64OfInt
  by_cases ht : t > 0
  · simp only [ht, if_true]
    by_cases hc : roundFloat64 (roundFloat64 (roundFloat64 d / roundFloat64 t) * 100) > 100
    · simp only [hc, if_true]
      exact (min_eq_left (le_of_lt hc)).symm
    · simp only [hc, if_false]
      exact (min_eq_right (not_lt.mp hc)).symm
  · simp [ht]

theorem report_eq (url destination : String) (d t : Int) (s : Svc σ) :
    report url destination d t (progressPct d t) s
      = s.publish (progressNotification url destination d t) := by
  unfold report progressNotification
  rw [progressPct_eq]


/-- One `Read` of the progress reader on a service whose hub satisfies the
invariant: it returns; the bytes read so far grow by the count returned; and it
publishes one progress notification, with the new byte count, exactly when
bytes were returned and the clock is at least the interval past the last
report, which then becomes the time of the last report. -/
theorem Read_spec (env : DownloadEnv σ) (url destination : String) (k : Nat)
    (pr : progressReader) (s : Svc σ) (hwf : s.hub.WF) :
    ∃ out pr1 s1, pr.Read env (report url destination) s k = some (out, pr1, s1)
      ∧ s1.hub.WF ∧ pr1.total = pr.total ∧ pr1.interval = pr.interval
      ∧ pr1.readSoFar = (if out.1 > 0 then wrapInt64 (pr.readSoFar + out.1) else pr.readSoFar)
      ∧ s1.hub.published = s.hub.published
          ++ (if out.1 > 0 ∧ (env.Now (env.bodyRead s.ext k).2).1 - pr.lastReport ≥ pr.interval
              then [progressNotification url destination pr1.readSoFar pr.total] else [])
      ∧ pr1.lastReport
          = (if out.1 > 0 ∧ (env.Now (env.bodyRead s.ext k).2).1 - pr.lastReport ≥ pr.interval
             then (env.Now (env.bodyRead s.ext k).2).1 else pr.lastReport) := by
  unfold progressReader.Read
  cases hctx : env.ctxErr s.ext with
  | some e =>
    exact ⟨_, _, _, rfl, hwf, rfl, rfl, by simp, by simp, by simp⟩
  | none =>
    simp only
    by_cases hn : (env.bodyRead s.ext k).1.1 > 0
    · simp only [hn, if_true, true_and]
      by_cases hint : (env.Now (env.bodyRead s.ext k).2).1 - pr.lastReport ≥ pr.interval
      · simp only [hint, if_true]
        rw [report_eq]
        obtain ⟨h1, hp, -, e2, -, -, -, hwf1⟩ := publishTransferUpdate_spec s.hub
          (progressNotification url destination
            (wrapInt64 (pr.readSoFar + ((env.bodyRead s.ext k).1.1 : Nat))) pr.total) hwf
        simp only [Svc.publish, hp, Option.map_some']
        exact ⟨_, _, _, rfl, hwf1, rfl, rfl, by simp [hn], by simp [hn, e2],
          by simp [hn, hint]⟩
      · simp only [hint, if_false]
        exact ⟨_, _, _, rfl, hwf, rfl, rfl, by simp [hn], by simp [hint], by simp [hint]⟩
    · have hn0 : (env.bodyRead s.ext k).1.1 = 0 := by omega
      simp only [hn, if_false, false_and]
      exact ⟨_, _, _, rfl, hwf, rfl, rfl, by simp [hn0], by simp [hn0], by simp [hn0]⟩


/-- A run of reads on a service whose hub satisfies the invariant: it returns, it
publishes what its records hold, and each record holds one progress
notification, with the bytes read up to and including its read, exactly when
its read returned bytes at least the interval after the last emission. -/
theorem readRun_spec (env : DownloadEnv σ) (url destination : String) (k : Nat) :
    ∀ (m : Nat) (pr : progressReader) (s : Svc σ), s.hub.WF →
      ∃ recs pr1 s1, readRun env url destination k m pr s = some (recs, pr1, s1)
        ∧ recs.length = m ∧ s1.hub.WF
        ∧ s1.hub.published = s.hub.published ++ (recs.map ReadRecord.emitted).flatten
        ∧ (0 ≤ pr.readSoFar →
            pr.readSoFar + (((recs.map ReadRecord.n).sum : Nat) : Int) < 2 ^ 63 →
            ∀ (i : Nat) (r : ReadRecord), recs[i]? = some r →
              r.emitted
                = if r.n > 0 ∧ r.now - lastEmission pr.lastReport (recs.take i) ≥ pr.interval
                  then [progressNotification url destination
                    (pr.readSoFar + ((((recs.take (i + 1)).map ReadRecord.n).sum : Nat) : Int))
                    pr.total]
                  else []) := by
  intro m
  induction m with
  | zero =>
    intro pr s hwf
    exact ⟨[], pr, s, rfl, rfl, hwf, by simp, fun _ _ i r h => by simp at h⟩
  | succ m ih =>
    intro pr s hwf
    obtain ⟨out, pr1, s1, hread, hwf1, ht, hiv, hrs, hpub, hlast⟩ :=
      Read_spec env url destination k pr s hwf
    obtain ⟨recs, pr2, s2, hrun, hlen, hwf2, hpub2, hmain⟩ := ih pr1 s1 hwf1
    have hem : s1.hub.published.drop s.hub.published.length
        = (if out.1 > 0 ∧ (env.Now (env.bodyRead s.ext k).2).1 - pr.lastReport ≥ pr.interval
            then [progressNotification url destination pr1.readSoFar pr.total] else []) := by
      rw [hpub, List.drop_left]
    refine ⟨{ n := out.1, now := (env.Now (env.bodyRead s.ext k).2).1,
              emitted := s1.hub.published.drop s.hub.published.length } :: recs, pr2, s2,
      by simp only [readRun, hread, hrun], by simp [hlen], hwf2, ?_, ?_⟩
    · rw [hpub2]
      simp only [List.map_cons, List.flatten_cons, hem]
      rw [hpub, List.append_assoc]
    · intro h0 hbound i r hi
      simp only [List.map_cons, List.sum_cons, Nat.cast_add] at hbound
      have hsum0 : (0 : Int) ≤ (((recs.map ReadRecord.n).sum : Nat) : Int) := Int.natCast_nonneg _
      have hn0 : (0 : Int) ≤ ((out.1 : Nat) : Int) := Int.natCast_nonneg _
      have hrs1 : pr1.readSoFar = pr.readSoFar + ((out.1 : Nat) : Int) := by
        rw [hrs]
        by_cases hn : out.1 > 0
        · simp only [hn, if_true]
          exact wrapInt64_of_range _ (by omega) (by omega)
        · have : out.1 = 0 := by omega
          simp [this]
      cases i with
      | zero =>
        simp only [List.getElem?_cons_zero, Option.some.injEq] at hi
        subst hi
        simp only [List.take_zero, lastEmission, zero_add, List.take_succ_cons, List.map_cons,
          List.map_nil, List.sum_cons, List.sum_nil, add_zero]
        rw [hem, hrs1]
      | succ j =>
        simp only [List.getElem?_cons_succ] at hi
        have hj := hmain (by rw [hrs1]; omega) (by rw [hrs1]; omega) j r hi
        rw [hj]
        simp only [List.take_succ_cons, lastEmission, List.map_cons, List.sum_cons, Nat.cast_add,
          hiv, ht]
        have hle : (if (s1.hub.published.drop s.hub.published.length) ≠ []
            then (env.Now (env.bodyRead s.ext k).2).1 else pr.lastReport) = pr1.lastReport := by
          rw [hlast, hem]
          split <;> simp
        rw [hle, hrs1, Int.add_assoc]

/-- The fuel of `bitLen` suffices: for `n < 2 ^ fuel` the result is the number of
binary digits of `n`. -/
theorem bitLen_spec (fuel n : Nat) (h : n < 2 ^ fuel) :
    n < 2 ^ bitLen fuel n ∧ (n ≠ 0 → 2 ^ (bitLen fuel n - 1) ≤ n) := by
  induction fuel generalizing n with
  | zero =>
    have h0 : n = 0 := by simpa using h
    subst h0
    simp [bitLen]
  | succ f ih =>
    unfold bitLen
    by_cases hn : n = 0
    · subst hn
      simp
    · simp only [hn, if_false]
      have hlt : n / 2 < 2 ^ f := by
        rw [Nat.div_lt_iff_lt_mul (by decide)]
        rw [pow_succ] at h
        exact h
      obtain ⟨h1, h2⟩ := ih (n / 2) hlt
      refine ⟨?_, fun _ => ?_⟩
      · rw [pow_succ]
        omega
      · simp only [Nat.add_sub_cancel]
        by_cases hz : n / 2 = 0
        · have : bitLen f (n / 2) = 0 := by
            rw [hz]
            cases f <;> simp [bitLen]
          rw [this]
          simp
          omega
        · have h3 := h2 hz
          have hpos : 0 < bitLen f (n / 2) := by
            rcases Nat.eq_zero_or_pos (bitLen f (n / 2)) with h0 | h0
            · rw [h0] at h1
              simp at h1
              exact absurd h1 hz
            · exact h0
          have : 2 ^ bitLen f (n / 2) = 2 ^ (bitLen f (n / 2) - 1) * 2 := by
            rw [← pow_succ]
            congr 1
            omega
          rw [this]
          omega

/-- The percentage of the progress reader at some inputs: 7 of 25 bytes give the
`float64` printed as 28.000000000000004, 4 of 12 the one printed as
33.33333333333333, and `2 ^ 60 - 1` of `2 ^ 60` give 100; a half is exact, more
than the total gives 100 and an unknown total 0. -/
theorem progressPct_examples :
    progressPct 7 25 = 28 + 1 / 2 ^ 48
    ∧ progressPct 4 12 = 2345624805922133 / 2 ^ 46
    ∧ progressPct (2 ^ 60 - 1) (2 ^ 60) = 100
    ∧ progressPct 4 8 = 50
    ∧ progressPct 9 8 = 100
    ∧ progressPct 4 0 = 0 := by
  decide!

/-- One `Read` of the progress reader returns the count of `readCount` and leaves
the external state of `extAfterRead`. -/
theorem Read_ext (env : DownloadEnv σ) (url destination : String) (k : Nat)
    (pr pr1 : progressReader) (s s1 : Svc σ) (out : Nat × Option GoError)
    (h : pr.Read env (report url destination) s k = some (out, pr1, s1)) :
    out.1 = readCount env k s.ext ∧ s1.ext = extAfterRead env k s.ext := by
  unfold progressReader.Read at h
  unfold readCount extAfterRead
  cases hctx : env.ctxErr s.ext with
  | some e =>
    simp only [hctx] at h
    injection h with h
    injection h with h1 h2
    injection h2 with h2 h3
    subst h1 h3
    exact ⟨rfl, rfl⟩
  | none =>
    simp only [hctx] at h
    by_cases hn : (env.bodyRead s.ext k).1.1 > 0
    · simp only [hn, if_true] at h ⊢
      by_cases hint : (env.Now (env.bodyRead s.ext k).2).1 - pr.lastReport ≥ pr.interval
      · simp only [hint, if_true] at h
        unfold report Svc.publish at h
        cases hp : s.hub.publishTransferUpdate
            { Source := url, Destination := destination, Status := TransferStatus.IN_PROGRESS,
              Downloaded := wrapInt64 (pr.readSoFar + ((env.bodyRead s.ext k).1.1 : Nat)),
              TotalSize := pr.total,
              Percentage := progressPct
                (wrapInt64 (pr.readSoFar + ((env.bodyRead s.ext k).1.1 : Nat))) pr.total } with
        | none => simp [hp] at h
        | some hub1 =>
          simp only [hp, Option.map_some'] at h
          injection h with h
          injection h with h1 h2
          injection h2 with h2 h3
          subst h1 h3
          exact ⟨rfl, rfl⟩
      · simp only [hint, if_false] at h
        injection h with h
        injection h with h1 h2
        injection h2 with h2 h3
        subst h1 h3
        exact ⟨rfl, rfl⟩
    · simp only [hn, if_false] at h ⊢
      injection h with h
      injection h with h1 h2
      injection h2 with h2 h3
      subst h1 h3
      exact ⟨rfl, rfl⟩

/-- The byte counts in the records of a run are what the body returned to its
reads. -/
theorem readRun_counts (env : DownloadEnv σ) (url destination : String) (k : Nat) :
    ∀ (m : Nat) (pr pr1 : progressReader) (s s1 : Svc σ) (recs : List ReadRecord),
      readRun env url destination k m pr s = some (recs, pr1, s1) →
      recs.map ReadRecord.n = bodyCounts env k m s.ext := by
  intro m
  induction m with
  | zero =>
    intro pr pr1 s s1 recs h
    simp only [readRun] at h
    injection h with h
    injection h with h1 h2
    subst h1
    rfl
  | succ m ih =>
    intro pr pr1 s s1 recs h
    simp only [readRun] at h
    cases hr : pr.Read env (report url destination) s k with
    | none => simp [hr] at h
    | some v =>
      obtain ⟨out, pr2, s2⟩ := v
      simp only [hr] at h
      cases hrun : readRun env url destination k m pr2 s2 with
      | none => simp [hrun] at h
      | some w =>
        obtain ⟨recs2, pr3, s3⟩ := w
        simp only [hrun] at h
        injection h with h
        injection h with h1 h2
        subst h1
        obtain ⟨hc, he⟩ := Read_ext env url destination k pr pr2 s s2 out hr
        have := ih pr2 pr3 s2 s3 recs2 hrun
        simp only [List.map_cons, bodyCounts, this, hc, he]

end Gonetic

/-! ## Claims -/

namespace Gonetic

variable {σ : Type}

/-- C1: for `MaxRetries = N ≥ 0` and a registered client whose every answer is an
error that is not marked non-transient, `RequestWithRetry` returns, having invoked
the client exactly `N + 1` times and `Wait` exactly `N` times, once before each
attempt after the first with the attempt numbers `1, ..., N` in order and never
before the first attempt; it returns the (wrapped) error of the last attempt. -/
theorem RequestWithRetry_transient_errors (s : NetSvc σ) (c : NetClient σ)
    (cfg : RequestConfig) (rc : ReqConfig) (w : World σ) (N : Nat)
    (hN : cfg.MaxRetries = N)
    (href : cfg.ClientRef ≠ "") (hrc : cfg.ReqConfig = some rc)
    (hcl : s.clients cfg.ClientRef = some c) (htyp : c.typ = rc.Ref)
    (hfail : ∀ x, ∃ e, (c.ProcessRequest x (normTask (prepared cfg))).1.2 = some e
      ∧ e.asTemporary ≠ some false) :
    ∃ r evs, RequestWithRetry s (some cfg) w = some r
      ∧ r.world.log = w.log ++ evs
      ∧ evs = exhaustTrace (cfg.Delay.getD (RetryDelay.ConstantDelay 1))
          (normTask (prepared cfg)).TaskName [Event.processRequest cfg.ClientRef] N 0
      ∧ callCount evs = N + 1
      ∧ waitAttempts evs = (List.range N).map (fun i : Nat => (i : Int) + 1)
      ∧ evs.head? = some (Event.processRequest cfg.ClientRef)
      ∧ r.err ≠ none
      ∧ r.err = ((c.ProcessRequest
            ((fun x => (c.ProcessRequest x (normTask (prepared cfg))).2)^[N] w.ext)
            (normTask (prepared cfg))).1.2).map (GoError.errorf "perform request: ") := by
  have hans : ∀ x, ∃ e, (c.ProcessRequest x (normTask (prepared cfg))).1.2 = some e
      ∧ afterClient s (normTask (prepared cfg)) (c.ProcessRequest x (normTask (prepared cfg))).1
        = ({}, some (GoError.errorf "perform request: " e))
      ∧ IsTemporaryErr (some (GoError.errorf "perform request: " e)) = true := by
    intro x
    obtain ⟨e, he, ht⟩ := hfail x
    refine ⟨e, he, ?_, ?_⟩
    · simp [afterClient, he]
    · rw [IsTemporaryErr_errorf]; exact IsTemporaryErr_of_unmarked e ht
  have hmain := RequestWithRetry_exhaust s c cfg rc w N (by rw [hN]; simp) href hrc hcl htyp
    (fun x => by
      obtain ⟨e, _, ha, ht⟩ := hans x
      exact Or.inl ⟨_, by rw [ha], ht⟩)
  obtain ⟨e, he, ha, _⟩ := hans
    ((fun x => (c.ProcessRequest x (normTask (prepared cfg))).2)^[N] w.ext)
  refine ⟨_, _, hmain, rfl, rfl, ?_, ?_, ?_, ?_, ?_⟩
  · rw [callCount_exhaustTrace]; simp [callCount]
  · rw [waitAttempts_exhaustTrace _ _ _ (by simp [waitAttempts]) _ _ (le_refl 0)]
    simp only [gt_iff_lt, lt_irrefl, if_false, List.nil_append]
    apply List.map_congr_left
    intro i _
    ring
  · exact head_exhaustTrace_zero _ _ _ _ _
  · simp only [ha, finalErr]; simp
  · simp only [ha, finalErr, he]; simp

/-- C1, at the golden test's fake client failing with `boom` and `MaxRetries = 2`. -/
theorem RequestWithRetry_transient_errors_witness :
    ∃ r evs, RequestWithRetry
        (svcOf (fakeNetClient "" fun _ => ({}, some (GoError.errorsNew "boom"))))
        (some { ClientRef := "c", ReqConfig := some (ReqConfig.other ""), MaxRetries := 2 })
        ⟨0, []⟩ = some r
      ∧ r.world.log = [] ++ evs
      ∧ evs = exhaustTrace ((none : Option RetryDelay).getD (RetryDelay.ConstantDelay 1))
          (normTask (prepared
            { ClientRef := "c", ReqConfig := some (ReqConfig.other ""), MaxRetries := 2 })).TaskName
          [Event.processRequest "c"] 2 0
      ∧ callCount evs = 2 + 1
      ∧ waitAttempts evs = (List.range 2).map (fun i : Nat => (i : Int) + 1)
      ∧ evs.head? = some (Event.processRequest "c")
      ∧ r.err ≠ none
      ∧ r.err = (((fakeNetClient "" fun _ => ({}, some (GoError.errorsNew "boom"))).ProcessRequest
            ((fun x => ((fakeNetClient "" fun _ =>
                ({}, some (GoError.errorsNew "boom"))).ProcessRequest x (normTask (prepared
              { ClientRef := "c", ReqConfig := some (ReqConfig.other ""), MaxRetries := 2 }))).2)^[2] 0)
            (normTask (prepared
              { ClientRef := "c", ReqConfig := some (ReqConfig.other ""),
                MaxRetries := 2 }))).1.2).map (GoError.errorf "perform request: ") :=
  RequestWithRetry_transient_errors
    (svcOf (fakeNetClient "" fun _ => ({}, some (GoError.errorsNew "boom"))))
    (fakeNetClient "" fun _ => ({}, some (GoError.errorsNew "boom")))
    { ClientRef := "c", ReqConfig := some (ReqConfig.other ""), MaxRetries := 2 }
    (ReqConfig.other "") ⟨0, []⟩ 2 rfl (by decide) rfl rfl rfl
    (fun _ => ⟨GoError.errorsNew "boom", rfl, by decide⟩)

/-- C2: for `MaxRetries = N ≥ 0` and a registered client whose every answer is a
response with a status of 500 or more and no error (a failure to decode such a
response, if any, not being marked non-transient), `RequestWithRetry` returns
after exactly `N + 1` attempts, with the last response received, unchanged, and
a non-nil error. -/
theorem RequestWithRetry_server_errors (s : NetSvc σ) (c : NetClient σ)
    (cfg : RequestConfig) (rc : ReqConfig) (w : World σ) (N : Nat)
    (hN : cfg.MaxRetries = N)
    (href : cfg.ClientRef ≠ "") (hrc : cfg.ReqConfig = some rc)
    (hcl : s.clients cfg.ClientRef = some c) (htyp : c.typ = rc.Ref)
    (h5xx : ∀ x, (c.ProcessRequest x (normTask (prepared cfg))).1.2 = none
      ∧ (c.ProcessRequest x (normTask (prepared cfg))).1.1.StatusCode ≥ 500)
    (hdec : ∀ x e, decodeErr s (normTask (prepared cfg))
        (c.ProcessRequest x (normTask (prepared cfg))).1.1 = some e
      → e.asTemporary ≠ some false) :
    ∃ r, RequestWithRetry s (some cfg) w = some r
      ∧ callCount (r.world.log.drop w.log.length) = N + 1
      ∧ r.resp = (c.ProcessRequest
            ((fun x => (c.ProcessRequest x (normTask (prepared cfg))).2)^[N] w.ext)
            (normTask (prepared cfg))).1.1
      ∧ r.resp.StatusCode ≥ 500
      ∧ r.err ≠ none := by
  have hans : ∀ x, afterClient s (normTask (prepared cfg))
        (c.ProcessRequest x (normTask (prepared cfg))).1
      = ((c.ProcessRequest x (normTask (prepared cfg))).1.1,
         decodeErr s (normTask (prepared cfg))
           (c.ProcessRequest x (normTask (prepared cfg))).1.1) := by
    intro x
    simp [afterClient, (h5xx x).1]
  have hmain := RequestWithRetry_exhaust s c cfg rc w N (by rw [hN]; simp) href hrc hcl htyp
    (fun x => by
      rw [hans x]
      cases hd : decodeErr s (normTask (prepared cfg))
          (c.ProcessRequest x (normTask (prepared cfg))).1.1 with
      | none => exact Or.inr ⟨rfl, (h5xx x).2⟩
      | some e => exact Or.inl ⟨e, rfl, IsTemporaryErr_of_unmarked e (hdec x e hd)⟩)
  refine ⟨_, hmain, ?_, ?_, ?_, ?_⟩
  · simp only [List.drop_left]
    rw [callCount_exhaustTrace]; simp [callCount]
  · simp only [hans]
  · simp only [hans]; exact (h5xx _).2
  · simp only [hans, finalErr]
    split <;> simp

/-- C2, at the golden test "stops after max retries": two answers 503, `MaxRetries = 1`. -/
theorem RequestWithRetry_server_errors_witness :
    ∃ r, RequestWithRetry (svcOf (fakeNetClient "" fun _ => ({ StatusCode := 503 }, none)))
        (some { ClientRef := "c", ReqConfig := some (ReqConfig.other ""), MaxRetries := 1 })
        ⟨0, []⟩ = some r
      ∧ callCount (r.world.log.drop ([] : List Event).length) = 1 + 1
      ∧ r.resp = ((fakeNetClient "" fun _ => ({ StatusCode := 503 }, none)).ProcessRequest
            ((fun x => ((fakeNetClient "" fun _ => ({ StatusCode := 503 }, none)).ProcessRequest x
              (normTask (prepared
                { ClientRef := "c", ReqConfig := some (ReqConfig.other ""),
                  MaxRetries := 1 }))).2)^[1] 0)
            (normTask (prepared
              { ClientRef := "c", ReqConfig := some (ReqConfig.other ""), MaxRetries := 1 }))).1.1
      ∧ r.resp.StatusCode ≥ 500
      ∧ r.err ≠ none :=
  RequestWithRetry_server_errors (svcOf (fakeNetClient "" fun _ => ({ StatusCode := 503 }, none)))
    (fakeNetClient "" fun _ => ({ StatusCode := 503 }, none))
    { ClientRef := "c", ReqConfig := some (ReqConfig.other ""), MaxRetries := 1 }
    (ReqConfig.other "") ⟨0, []⟩ 1 rfl (by decide) rfl rfl rfl
    (fun _ => ⟨rfl, by simp [fakeNetClient]⟩)
    (fun _ e h => by simp [decodeErr, normTask, prepared] at h)

/-- C3, refuted as stated: against a server that answers 401, the HTTP client
registered as `"c"` and `MaxRetries = 1`, `RequestWithRetry` invokes the client
twice, waits once (before attempt 1) and makes two network round-trips. -/
theorem RequestWithRetry_unauthorized_is_retried :
    (RequestWithRetry (svcOf (HTTPClient.asNetClient (fakeEnv id 401) {}))
        (some { ClientRef := "c"
                ReqConfig := some (ReqConfig.http
                  { Method := "GET", URL := "http://h", BodyType := "application/json" })
                MaxRetries := 1 })
        ⟨({}, ⟨0, []⟩), []⟩).map
      (fun r => (callCount r.world.log, waitAttempts r.world.log, roundTrips r.world.ext.2.log))
      = some (2, [1], 2) := by
  decide

/-- C3, amended: for `MaxRetries = N` (a negative value counts as 0) and a
registered client that answers every attempt with a 401 response and its
unauthorized error, `RequestWithRetry` treats the error as transient: it returns
after invoking the client `N + 1` times and `Wait` `N` times (attempts
`1, ..., N`), with the wrapped unauthorized error; the client is invoked once
and `Wait` never exactly when `N = 0`. -/
theorem RequestWithRetry_unauthorized (s : NetSvc σ) (c : NetClient σ)
    (cfg : RequestConfig) (rc : ReqConfig) (w : World σ) (N : Nat) (url : String)
    (hN : max cfg.MaxRetries 0 = N)
    (href : cfg.ClientRef ≠ "") (hrc : cfg.ReqConfig = some rc)
    (hcl : s.clients cfg.ClientRef = some c) (htyp : c.typ = rc.Ref)
    (h401 : ∀ x, (c.ProcessRequest x (normTask (prepared cfg))).1.1.StatusCode = 401
      ∧ (c.ProcessRequest x (normTask (prepared cfg))).1.2 = some (unauthorizedErr url)) :
    ∃ r, RequestWithRetry s (some cfg) w = some r
      ∧ callCount (r.world.log.drop w.log.length) = N + 1
      ∧ waitAttempts (r.world.log.drop w.log.length)
          = (List.range N).map (fun i : Nat => (i : Int) + 1)
      ∧ r.err = some (GoError.errorf "perform request: " (unauthorizedErr url)) := by
  have hans : ∀ x, afterClient s (normTask (prepared cfg))
        (c.ProcessRequest x (normTask (prepared cfg))).1
      = ({}, some (GoError.errorf "perform request: " (unauthorizedErr url))) := by
    intro x
    simp [afterClient, (h401 x).2]
  have hmain := RequestWithRetry_exhaust s c cfg rc w N hN href hrc hcl htyp
    (fun x => Or.inl ⟨GoError.errorf "perform request: " (unauthorizedErr url),
      by rw [hans x], rfl⟩)
  refine ⟨_, hmain, ?_, ?_, ?_⟩
  · simp only [List.drop_left]
    rw [callCount_exhaustTrace]; simp [callCount]
  · simp only [List.drop_left]
    rw [waitAttempts_exhaustTrace _ _ _ (by simp [waitAttempts]) _ _ (le_refl 0)]
    simp only [gt_iff_lt, lt_irrefl, if_false, List.nil_append]
    apply List.map_congr_left
    intro i _
    ring
  · simp only [hans, finalErr]

/-- C3 amended, at a client that always answers 401 and `MaxRetries = 3`. -/
theorem RequestWithRetry_unauthorized_witness :
    ∃ r, RequestWithRetry
        (svcOf (fakeNetClient "" fun _ => ({ StatusCode := 401 }, some (unauthorizedErr "http://h"))))
        (some { ClientRef := "c", ReqConfig := some (ReqConfig.other ""), MaxRetries := 3 })
        ⟨0, []⟩ = some r
      ∧ callCount (r.world.log.drop ([] : List Event).length) = 3 + 1
      ∧ waitAttempts (r.world.log.drop ([] : List Event).length)
          = (List.range 3).map (fun i : Nat => (i : Int) + 1)
      ∧ r.err = some (GoError.errorf "perform request: " (unauthorizedErr "http://h")) :=
  RequestWithRetry_unauthorized
    (svcOf (fakeNetClient "" fun _ => ({ StatusCode := 401 }, some (unauthorizedErr "http://h"))))
    (fakeNetClient "" fun _ => ({ StatusCode := 401 }, some (unauthorizedErr "http://h")))
    { ClientRef := "c", ReqConfig := some (ReqConfig.other ""), MaxRetries := 3 }
    (ReqConfig.other "") ⟨0, []⟩ 3 "http://h" rfl (by decide) rfl rfl rfl
    (fun _ => ⟨rfl, rfl⟩)

/-- C4, refuted as stated: at the instant `now = Expiry - buffer` a token with a
credential is not expired, although `now >= Expiry - buffer`. -/
theorem IsExpired_not_at_boundary :
    ¬ (TokenInfo.IsExpired { AccessToken := "abc", Expiry := 1000 } 30 970 = true
        ↔ (970 : Int) ≥ 1000 - 30) := by
  decide

/-- C4, amended: for a token with a non-zero `Expiry`, a buffer whose negation
does not overflow and an instant `now`, `IsExpired(buffer)` is true if and only
if the token has no credential (empty access token and no cookie) or `now` is
strictly after `Expiry - buffer`. -/
theorem IsExpired_iff (t : TokenInfo) (buffer : Int) (now : Int)
    (hexp : t.Expiry ≠ 0) (hbuf : -2 ^ 63 < buffer ∧ buffer < 2 ^ 63) :
    t.IsExpired buffer now = true
      ↔ (t.AccessToken = "" ∧ t.Cookies = []) ∨ now > t.Expiry - buffer := by
  obtain ⟨hb1, hb2⟩ := hbuf
  have hw : wrapInt64 (-buffer) = -buffer := by
    unfold wrapInt64
    rw [Int.emod_eq_of_lt (by omega) (by omega)]
    omega
  unfold TokenInfo.IsExpired
  rw [hw]
  by_cases hc : t.AccessToken = "" ∧ t.Cookies.length = 0
  · have hc' : t.AccessToken = "" ∧ t.Cookies = [] := ⟨hc.1, List.length_eq_zero.mp hc.2⟩
    simp [hc, hc']
  · have hc' : ¬ (t.AccessToken = "" ∧ t.Cookies = []) := fun h =>
      hc ⟨h.1, by rw [h.2]; rfl⟩
    simp only [hc, hc', if_false, hexp, false_or, decide_eq_true_eq]
    have hE : ∀ x : Int, (now > x + -buffer ↔ now > x - buffer) := fun x => by
      constructor <;> intro h <;> omega
    exact hE t.Expiry

/-- C4 amended, at the golden test "expires soon within buffer" scaled to
integers: expiry 1010, buffer 30, now 1000. -/
theorem IsExpired_iff_witness :
    TokenInfo.IsExpired { AccessToken := "abc", Expiry := 1010 } 30 1000 = true
      ↔ (("abc" : String) = "" ∧ ([] : List Cookie) = []) ∨ (1000 : Int) > 1010 - 30 :=
  IsExpired_iff { AccessToken := "abc", Expiry := 1010 } 30 1000 (by decide) (by decide)

/-- C5: with an OAuth source and an auth provider both configured, every token
refresh calls the OAuth source alone, exactly once when the stored token is
expired at the clock reading and not at all otherwise, whether the fetch
succeeds or fails and whatever credential is stored: neither `refreshToken`,
nor `ensureToken`, nor a whole `ProcessRequest` ever calls the provider's
`Authenticate` or `Refresh`. -/
theorem oauth_source_takes_precedence (env : HTTPEnv σ) (c : HTTPClient σ) (w : ClientWorld σ)
    (source : σ → Except GoError OAuthToken × σ) (provider : AuthProvider σ)
    (hs : c.cfg.OAuthSource = some source) (_hp : c.cfg.AuthProvider = some provider) :
    (c.refreshToken env w).2.2.log
        = w.log ++ (if c.token.IsExpired c.cfg.RefreshBuffer (env.Now w.ext).1
            then [ClientEvent.oauthToken] else [])
      ∧ providerCalls (c.refreshToken env w).2.2.log = providerCalls w.log
      ∧ providerCalls (c.ensureToken env w).2.2.log = providerCalls w.log
      ∧ ∀ inCfg : RequestConfig,
          providerCalls (c.ProcessRequest env inCfg w).2.2.log = providerCalls w.log := by
  have hens : ∀ w' : ClientWorld σ,
      providerCalls (c.ensureToken env w').2.2.log = providerCalls w'.log := by
    intro w'
    rcases ensureToken_oauth_log env c w' source hs with h | h
    · rw [h]
    · rw [h, providerCalls_append]; rfl
  refine ⟨refreshToken_oauth_log env c w source hs, ?_, hens w, ?_⟩
  · rw [refreshToken_oauth_log env c w source hs, providerCalls_append]
    split <;> rfl
  · intro inCfg
    cases hrc : inCfg.ReqConfig with
    | none => simp [HTTPClient.ProcessRequest, hrc]
    | some rc =>
      cases rc with
      | other ref => simp [HTTPClient.ProcessRequest, hrc]
      | s3 cfg => simp [HTTPClient.ProcessRequest, hrc]
      | http cfg =>
        obtain ⟨m, -, hlog, -⟩ := runMiddlewares_log c.cfg.Middlewares 0 cfg.NewRequest w
        have hmw : providerCalls (runMiddlewares c.cfg.Middlewares 0 cfg.NewRequest w).2.2.log
            = providerCalls w.log := by
          rw [hlog, providerCalls_append, providerCalls_middlewares]; rfl
        rcases ProcessRequest_log env c inCfg cfg w hrc with ⟨-, h⟩ | ⟨-, h | ⟨req, h⟩⟩
        · rw [h, hmw]
        · rw [h, hens, hmw]
        · rw [h, providerCalls_append, hens, hmw]; rfl

/-- C5, at a client with a static OAuth token source and an auth provider, no
credential stored. -/
theorem oauth_source_takes_precedence_witness :
    (HTTPClient.refreshToken (fakeEnv id 200)
        { cfg := { OAuthSource := some (staticTokenSource (.ok { AccessToken := "oauth-token" }))
                   AuthProvider := some (fakeAuthProvider (.ok { AccessToken := "p" })
                     (.ok { AccessToken := "p" })) } }
        ⟨0, []⟩).2.2.log
        = [] ++ (if TokenInfo.IsExpired {} 0 ((fakeEnv id 200).Now 0).1
            then [ClientEvent.oauthToken] else [])
      ∧ providerCalls (HTTPClient.refreshToken (fakeEnv id 200)
        { cfg := { OAuthSource := some (staticTokenSource (.ok { AccessToken := "oauth-token" }))
                   AuthProvider := some (fakeAuthProvider (.ok { AccessToken := "p" })
                     (.ok { AccessToken := "p" })) } }
        ⟨0, []⟩).2.2.log = providerCalls []
      ∧ providerCalls (HTTPClient.ensureToken (fakeEnv id 200)
        { cfg := { OAuthSource := some (staticTokenSource (.ok { AccessToken := "oauth-token" }))
                   AuthProvider := some (fakeAuthProvider (.ok { AccessToken := "p" })
                     (.ok { AccessToken := "p" })) } }
        ⟨0, []⟩).2.2.log = providerCalls []
      ∧ ∀ inCfg : RequestConfig,
          providerCalls (HTTPClient.ProcessRequest (fakeEnv id 200)
        { cfg := { OAuthSource := some (staticTokenSource (.ok { AccessToken := "oauth-token" }))
                   AuthProvider := some (fakeAuthProvider (.ok { AccessToken := "p" })
                     (.ok { AccessToken := "p" })) } }
        inCfg ⟨0, []⟩).2.2.log = providerCalls [] :=
  oauth_source_takes_precedence (fakeEnv id 200)
    { cfg := { OAuthSource := some (staticTokenSource (.ok { AccessToken := "oauth-token" }))
               AuthProvider := some (fakeAuthProvider (.ok { AccessToken := "p" })
                 (.ok { AccessToken := "p" })) } }
    ⟨0, []⟩ (staticTokenSource (.ok { AccessToken := "oauth-token" }))
    (fakeAuthProvider (.ok { AccessToken := "p" }) (.ok { AccessToken := "p" })) rfl rfl

/-- C6: when a token refresh fails (the OAuth source returns an error, or the
provider's `Authenticate` fails, or its `Refresh` and the `Authenticate` after it
both fail), `refreshToken` returns a non-nil error and leaves the stored token
as it was, in every field; and a `ProcessRequest` whose middlewares passed and
whose token step is that failing refresh returns an "ensure token" error with an
empty response, keeps the stored token and performs no network round-trip. -/
theorem refresh_failure_keeps_token (env : HTTPEnv σ) (c : HTTPClient σ) (wr : ClientWorld σ)
    (hfail : RefreshFails env c wr) :
    (∃ e, (c.refreshToken env wr).1 = some e)
    ∧ (c.refreshToken env wr).2.1.token = c.token
    ∧ (c.refreshToken env wr).2.1.token.AccessToken = c.token.AccessToken
    ∧ (c.refreshToken env wr).2.1.token.TokenType = c.token.TokenType
    ∧ (c.refreshToken env wr).2.1.token.Expiry = c.token.Expiry
    ∧ (c.refreshToken env wr).2.1.token.Cookies = c.token.Cookies
    ∧ ∀ (inCfg : RequestConfig) (cfg : HTTPRequestConfig) (w w1 : ClientWorld σ) (req : HTTPRequest),
        inCfg.ReqConfig = some (ReqConfig.http cfg) →
        runMiddlewares c.cfg.Middlewares 0 cfg.NewRequest w = (none, req, w1) →
        c.token.IsExpired c.cfg.RefreshBuffer (env.Now w1.ext).1 = true →
        wr = ⟨(env.Now w1.ext).2, w1.log⟩ →
        (∃ e, (c.ProcessRequest env inCfg w).1 = ({}, some (GoError.errorf "ensure token: " e)))
        ∧ (c.ProcessRequest env inCfg w).2.1.token = c.token
        ∧ roundTrips (c.ProcessRequest env inCfg w).2.2.log = roundTrips w.log := by
  obtain ⟨hkeep, -, herr⟩ := refreshToken_cases env c wr
  have hne := herr hfail
  have hc := hkeep hne
  refine ⟨Option.ne_none_iff_exists'.mp hne, by rw [hc], by rw [hc], by rw [hc], by rw [hc],
    by rw [hc], ?_⟩
  intro inCfg cfg w w1 req hcfg hm hx hwr
  subst hwr
  obtain ⟨ekeep, ert, eerr⟩ := ensureToken_cases env c w1
  have hene := eerr hx hfail
  have hec := ekeep hene
  obtain ⟨m, -, hlog, -⟩ := runMiddlewares_log c.cfg.Middlewares 0 cfg.NewRequest w
  rw [hm] at hlog
  simp only at hlog
  have hw1 : roundTrips w1.log = roundTrips w.log := by
    rw [hlog, roundTrips_append, roundTrips_middlewares]; rfl
  unfold HTTPClient.ProcessRequest
  simp only [hcfg, hm]
  rcases he : c.ensureToken env w1 with ⟨terr, c1, w2⟩
  rw [he] at hene hec ert
  cases terr with
  | none => exact absurd rfl hene
  | some e =>
    simp only at hec ert ⊢
    exact ⟨⟨e, rfl⟩, by rw [hec], by rw [ert, hw1]⟩

/-- C6, at a client whose token expired and whose OAuth source is down, and a
plain GET through it. -/
theorem refresh_failure_keeps_token_witness :
    (∃ e, (failingOAuthClient.refreshToken (fakeEnv id 200) ⟨0, []⟩).1 = some e)
    ∧ (failingOAuthClient.refreshToken (fakeEnv id 200) ⟨0, []⟩).2.1.token
        = { AccessToken := "old", TokenType := "Bearer", Expiry := 500 }
    ∧ (∃ e, (failingOAuthClient.ProcessRequest (fakeEnv id 200) getH ⟨0, []⟩).1
        = ({}, some (GoError.errorf "ensure token: " e)))
    ∧ (failingOAuthClient.ProcessRequest (fakeEnv id 200) getH ⟨0, []⟩).2.1.token
        = { AccessToken := "old", TokenType := "Bearer", Expiry := 500 }
    ∧ roundTrips (failingOAuthClient.ProcessRequest (fakeEnv id 200) getH ⟨0, []⟩).2.2.log
        = roundTrips [] :=
  have h := refresh_failure_keeps_token (fakeEnv id 200) failingOAuthClient ⟨0, []⟩
    ⟨by decide, GoError.errorsNew "oauth down", rfl⟩
  ⟨h.1, h.2.1,
    h.2.2.2.2.2.2 getH { Method := "GET", URL := "http://h", BodyType := "application/json" }
      ⟨0, []⟩ ⟨0, []⟩
      (HTTPRequestConfig.NewRequest
        { Method := "GET", URL := "http://h", BodyType := "application/json" })
      rfl rfl (by decide) rfl⟩

/-- C7, the code at the failing input: a client holding the access token `tok`
sends a GET whose config has the header `authorization: Basic evil`.  Auth
attachment adds `Authorization: Bearer tok` next to it in the header map, and in
whichever order `range` visits the two entries the request on the wire carries
`Authorization: Basic evil`, not the attached credential. -/
theorem ProcessRequest_config_authorization_wins :
    (attachAuth (fakeEnv id 200).codec.toLowerCase tokenClient.token
        (HTTPRequestConfig.NewRequest
          { Method := "GET", URL := "http://h", BodyType := "application/json"
            Headers := some [("authorization", "Basic evil")] })).Headers
      = some [("authorization", "Basic evil"), ("Authorization", "Bearer tok")]
    ∧ (∀ visited : List (String × String),
        visited.Perm [("authorization", "Basic evil"), ("Authorization", "Bearer tok")] →
        (wireHeaders visited).Get "Authorization" = "Basic evil")
    ∧ (tokenClient.ProcessRequest (fakeEnv id 200) getWithAuthorization ⟨0, []⟩).2.2.log
      = [ClientEvent.roundTrip ⟨"GET", "http://h",
          [("Authorization", ["Basic evil"]), ("Content-Type", ["application/json"])],
          [123, 125]⟩]
    ∧ (tokenClient.ProcessRequest (fakeEnv List.reverse 200) getWithAuthorization ⟨0, []⟩).2.2.log
      = [ClientEvent.roundTrip ⟨"GET", "http://h",
          [("Authorization", ["Basic evil"]), ("Content-Type", ["application/json"])],
          [123, 125]⟩] := by
  refine ⟨by decide, ?_, by decide, by decide⟩
  intro visited hperm
  have hlen := hperm.length_eq
  have hnd : visited.Nodup := hperm.nodup_iff.mpr (by decide)
  rcases visited with _ | ⟨x, _ | ⟨y, _ | ⟨z, t⟩⟩⟩
  · simp at hlen
  · simp at hlen
  · have hx : x ∈ [(("authorization", "Basic evil") : String × String),
        ("Authorization", "Bearer tok")] := hperm.subset (by simp)
    have hy : y ∈ [(("authorization", "Basic evil") : String × String),
        ("Authorization", "Bearer tok")] := hperm.subset (by simp)
    have hxy : x ≠ y := by
      intro h; subst h; simp at hnd
    simp only [List.mem_cons, List.mem_singleton, List.mem_nil_iff, or_false] at hx hy
    rcases hx with rfl | rfl <;> rcases hy with rfl | rfl
    · exact absurd rfl hxy
    · decide
    · decide
    · exact absurd rfl hxy
  · simp at hlen

/-- C8: for every middleware list of the HTTP client, and of the S3 client, and
every request of the client's type: if the first `k` middlewares return nil and
the one at position `k` returns the error `e`, then `ProcessRequest` has called
exactly the middlewares `0, ..., k`, in registration order, and nothing else (no
later middleware, no credential source, no network round-trip, no SDK call); it
returns an empty response and the error "middleware aborted" wrapping `e`, and
the stored token is untouched.  When no middleware errs, all of them are called
in registration order before anything else. -/
theorem ProcessRequest_middleware_abort :
    (∀ (env : HTTPEnv σ) (c : HTTPClient σ) (inCfg : RequestConfig) (cfg : HTTPRequestConfig)
        (w wk : ClientWorld σ) (reqk : HTTPRequest) (k : Nat) (e : GoError)
        (hk : k < c.cfg.Middlewares.length),
        inCfg.ReqConfig = some (ReqConfig.http cfg) →
        runMiddlewares (c.cfg.Middlewares.take k) 0 cfg.NewRequest w = (none, reqk, wk) →
        ((c.cfg.Middlewares.get ⟨k, hk⟩) wk.ext reqk).1.2 = some e →
        (c.ProcessRequest env inCfg w).1 = ({}, some (GoError.errorf "middleware aborted: " e))
        ∧ (c.ProcessRequest env inCfg w).2.2.log
            = w.log ++ (List.range (k + 1)).map ClientEvent.middleware
        ∧ (c.ProcessRequest env inCfg w).2.2.ext
            = ((c.cfg.Middlewares.get ⟨k, hk⟩) wk.ext reqk).2
        ∧ (c.ProcessRequest env inCfg w).2.1 = c
        ∧ roundTrips (c.ProcessRequest env inCfg w).2.2.log = roundTrips w.log
        ∧ providerCalls (c.ProcessRequest env inCfg w).2.2.log = providerCalls w.log)
    ∧ (∀ (env : S3Env σ) (c : S3Client σ) (inCfg : RequestConfig) (cfg : S3RequestConfig)
        (w wk : ClientWorld σ) (reqk : S3Request) (k : Nat) (e : GoError)
        (hk : k < c.cfg.Middlewares.length),
        inCfg.ReqConfig = some (ReqConfig.s3 cfg) →
        runMiddlewares (c.cfg.Middlewares.take k) 0 cfg.NewRequest w = (none, reqk, wk) →
        ((c.cfg.Middlewares.get ⟨k, hk⟩) wk.ext reqk).1.2 = some e →
        (c.ProcessRequest env inCfg w).1 = ({}, some (GoError.errorf "middleware aborted: " e))
        ∧ (c.ProcessRequest env inCfg w).2.log
            = w.log ++ (List.range (k + 1)).map ClientEvent.middleware
        ∧ (c.ProcessRequest env inCfg w).2.ext
            = ((c.cfg.Middlewares.get ⟨k, hk⟩) wk.ext reqk).2
        ∧ sdkCalls (c.ProcessRequest env inCfg w).2.log = sdkCalls w.log)
    ∧ (∀ (env : HTTPEnv σ) (c : HTTPClient σ) (inCfg : RequestConfig) (cfg : HTTPRequestConfig)
        (w w1 : ClientWorld σ) (req1 : HTTPRequest),
        inCfg.ReqConfig = some (ReqConfig.http cfg) →
        runMiddlewares c.cfg.Middlewares 0 cfg.NewRequest w = (none, req1, w1) →
        ∃ rest, (c.ProcessRequest env inCfg w).2.2.log
          = w.log ++ (List.range c.cfg.Middlewares.length).map ClientEvent.middleware ++ rest)
    ∧ (∀ (env : S3Env σ) (c : S3Client σ) (inCfg : RequestConfig) (cfg : S3RequestConfig)
        (w w1 : ClientWorld σ) (req1 : S3Request),
        inCfg.ReqConfig = some (ReqConfig.s3 cfg) →
        runMiddlewares c.cfg.Middlewares 0 cfg.NewRequest w = (none, req1, w1) →
        ∃ rest, (c.ProcessRequest env inCfg w).2.log
          = w.log ++ (List.range c.cfg.Middlewares.length).map ClientEvent.middleware ++ rest) := by
  have hrt : ∀ k : Nat, roundTrips ((List.range k).map ClientEvent.middleware) = 0 :=
    fun k => roundTrips_middlewares k id
  have hpc : ∀ k : Nat, providerCalls ((List.range k).map ClientEvent.middleware) = 0 :=
    fun k => providerCalls_middlewares k id
  have hsdk : ∀ k : Nat, sdkCalls ((List.range k).map ClientEvent.middleware) = 0 :=
    fun k => sdkCalls_middlewares k id
  refine ⟨?_, ?_, ?_, ?_⟩
  · intro env c inCfg cfg w wk reqk k e hk hcfg hpre herr
    have hrun := runMiddlewares_abort c.cfg.Middlewares cfg.NewRequest reqk w wk k e hk hpre herr
    have hout : c.ProcessRequest env inCfg w
        = (({}, some (GoError.errorf "middleware aborted: " e)), c,
            ⟨((c.cfg.Middlewares.get ⟨k, hk⟩) wk.ext reqk).2,
              w.log ++ (List.range (k + 1)).map ClientEvent.middleware⟩) := by
      unfold HTTPClient.ProcessRequest
      simp only [hcfg, hrun]
    rw [hout]
    refine ⟨rfl, rfl, rfl, rfl, ?_, ?_⟩
    · simp only [roundTrips_append, hrt, Nat.add_zero]
    · simp only [providerCalls_append, hpc, Nat.add_zero]
  · intro env c inCfg cfg w wk reqk k e hk hcfg hpre herr
    have hrun := runMiddlewares_abort c.cfg.Middlewares cfg.NewRequest reqk w wk k e hk hpre herr
    have hout : c.ProcessRequest env inCfg w
        = (({}, some (GoError.errorf "middleware aborted: " e)),
            ⟨((c.cfg.Middlewares.get ⟨k, hk⟩) wk.ext reqk).2,
              w.log ++ (List.range (k + 1)).map ClientEvent.middleware⟩) := by
      unfold S3Client.ProcessRequest
      simp only [hcfg, hrun]
    rw [hout]
    refine ⟨rfl, rfl, rfl, ?_⟩
    simp only [sdkCalls_append, hsdk, Nat.add_zero]
  · intro env c inCfg cfg w w1 req1 hcfg hall
    have hw1 := runMiddlewares_ok_log _ _ _ _ _ _ hall
    simp only [Nat.zero_add] at hw1
    obtain ⟨evs, hevs⟩ := ensureToken_log_extends env c w1
    rcases ProcessRequest_log env c inCfg cfg w hcfg with ⟨hne, -⟩ | ⟨-, h | ⟨req, h⟩⟩
    · rw [hall] at hne; exact absurd rfl hne
    · rw [hall] at h
      exact ⟨evs, by rw [h, hevs, hw1]⟩
    · rw [hall] at h
      exact ⟨evs ++ [ClientEvent.roundTrip req], by rw [h, hevs, hw1]; simp⟩
  · intro env c inCfg cfg w w1 req1 hcfg hall
    have hw1 := runMiddlewares_ok_log _ _ _ _ _ _ hall
    simp only [Nat.zero_add] at hw1
    obtain ⟨rest, hrest⟩ := S3ProcessRequest_log env c inCfg cfg w w1 req1 hcfg hall
    exact ⟨rest, by rw [hrest, hw1]⟩

/-- C8, at an HTTP client with three middlewares whose second one fails with
`boom`, and at the S3 client test "middleware aborts before Finalize/SDK call". -/
theorem ProcessRequest_middleware_abort_witness :
    ((abortingClient.ProcessRequest (fakeEnv id 200) getH ⟨0, []⟩).1
        = ({}, some (GoError.errorf "middleware aborted: " (GoError.errorsNew "boom")))
      ∧ (abortingClient.ProcessRequest (fakeEnv id 200) getH ⟨0, []⟩).2.2.log
          = [] ++ (List.range (1 + 1)).map ClientEvent.middleware
      ∧ roundTrips (abortingClient.ProcessRequest (fakeEnv id 200) getH ⟨0, []⟩).2.2.log
          = roundTrips [])
    ∧ ((abortingS3Client.ProcessRequest fakeS3 getBK ⟨0, []⟩).1
        = ({}, some (GoError.errorf "middleware aborted: " (GoError.errorsNew "boom")))
      ∧ (abortingS3Client.ProcessRequest fakeS3 getBK ⟨0, []⟩).2.log
          = [] ++ (List.range (0 + 1)).map ClientEvent.middleware
      ∧ sdkCalls (abortingS3Client.ProcessRequest fakeS3 getBK ⟨0, []⟩).2.log = sdkCalls []) :=
  have h := (ProcessRequest_middleware_abort (σ := Nat)).1 (fakeEnv id 200) abortingClient getH
    { Method := "GET", URL := "http://h", BodyType := "application/json" }
    ⟨0, []⟩ ⟨0, [ClientEvent.middleware 0]⟩
    { Method := "GET", URL := "http://h", BodyType := "application/json"
      Headers := some [("X-A", "1")], Body := some [] }
    1 (GoError.errorsNew "boom") (by decide) rfl rfl rfl
  have h' := (ProcessRequest_middleware_abort (σ := Nat)).2.1 fakeS3 abortingS3Client getBK
    { Operation := "get", Bucket := "b", Key := "k" }
    ⟨0, []⟩ ⟨0, []⟩
    (S3RequestConfig.NewRequest { Operation := "get", Bucket := "b", Key := "k" })
    0 (GoError.errorsNew "boom") (by decide) rfl rfl rfl
  ⟨⟨h.1, h.2.1, h.2.2.2.2.1⟩, ⟨h'.1, h'.2.1, h'.2.2.2⟩⟩

/-- C9, the code on every config with a nil body: `NewRequest` turns the nil
body into an empty map that is not nil, so that `FinalizeBody` encodes it; for
every declared body type, finalization then fails or sets a non-empty content
type.  With the body type `application/json` the body is `{}` and the content
type `application/json`; with `text/plain` finalization fails.  Finalizing a
request whose own `Body` is nil does give no bytes, no content type and no error. -/
theorem NewRequest_FinalizeBody_nil_body (codec : BodyCodec) (c : HTTPRequestConfig) :
    (HTTPRequestConfig.NewRequest { c with Body := none }).Body = some []
    ∧ (HTTPRequestConfig.NewRequest { c with Body := none }).BodyBytes = none
    ∧ (((HTTPRequestConfig.NewRequest { c with Body := none }).FinalizeBody codec).2 ≠ none
      ∨ ((HTTPRequestConfig.NewRequest { c with Body := none }).FinalizeBody codec).1.ContentType
          ≠ "")
    ∧ (HTTPRequestConfig.NewRequest
          { Method := "GET", URL := "http://h", BodyType := "application/json" }).FinalizeBody
        emptyBodyCodec
      = ({ Method := "GET", URL := "http://h", BodyType := "application/json", Body := some [],
           Headers := some [], BodyBytes := some [123, 125], ContentType := "application/json" },
         none)
    ∧ ((HTTPRequestConfig.NewRequest
          { Method := "GET", URL := "http://h", BodyType := "text/plain" }).FinalizeBody
        emptyBodyCodec).2
      = some (GoError.errorf "prepare body: "
          (GoError.errorsNew "unsupported body_type: text/plain"))
    ∧ HTTPRequest.FinalizeBody codec
        { Method := c.Method, URL := c.URL, BodyType := c.BodyType, Headers := c.Headers }
      = ({ Method := c.Method, URL := c.URL, BodyType := c.BodyType, Headers := c.Headers }, none) := by
  refine ⟨rfl, rfl, ?_, by decide, by decide, rfl⟩
  simp only [HTTPRequest.FinalizeBody, HTTPRequestConfig.NewRequest, PrepareBody, GoMap.entries,
    Option.getD_none, List.foldl_nil]
  by_cases hj : ToLower codec.toLowerCase c.BodyType = "application/json"
  · simp only [hj, if_true]
    cases codec.jsonMarshal [] with
    | error err => exact Or.inl (by simp)
    | ok buf => exact Or.inr (by simp)
  · by_cases hf : ToLower codec.toLowerCase c.BodyType = "application/x-www-form-urlencoded"
    · simp only [hj, hf, if_true, if_false]
      exact Or.inr (by simp)
    · simp only [hj, hf, if_false]
      exact Or.inl (by simp)

/-- C10, refuted as stated: with `MaxRetries = 1`, an unknown client reference, a
request config of the wrong type and a nil request config each make
`RequestWithRetry` call `Wait` once (before attempt 1), that is, evaluate the
request a second time; no client is invoked. -/
theorem RequestWithRetry_config_error_is_retried :
    (RequestWithRetry (svcOf (fakeNetClient "" fun _ => ({ StatusCode := 200 }, none)))
        (some { ClientRef := "missing", ReqConfig := some (ReqConfig.other ""), MaxRetries := 1 })
        ⟨0, []⟩).map (fun r => (callCount r.world.log, waitAttempts r.world.log, r.world.ext))
      = some (0, [1], 0)
    ∧ (RequestWithRetry (svcOf (fakeNetClient "" fun _ => ({ StatusCode := 200 }, none)))
        (some { ClientRef := "c", ReqConfig := some (ReqConfig.other "net.client.s3"),
                MaxRetries := 1 })
        ⟨0, []⟩).map (fun r => (callCount r.world.log, waitAttempts r.world.log, r.world.ext))
      = some (0, [1], 0)
    ∧ (RequestWithRetry (svcOf (fakeNetClient "" fun _ => ({ StatusCode := 200 }, none)))
        (some { ClientRef := "c", ReqConfig := none, MaxRetries := 1 })
        ⟨0, []⟩).map (fun r => (callCount r.world.log, waitAttempts r.world.log, r.world.ext))
      = some (0, [1], 0) := by
  decide

/-- C10, amended: on a configuration error (an empty or unknown client reference,
a request config whose type tag differs from the client's type, a nil request
config) a single evaluation, `RequestOnce`, returns an error and an empty
response without touching the outside; `RequestWithRetry` returns that error and
an empty response and never invokes a client, but the error carries no
non-transient marker and is retried like a transient one: for `MaxRetries = N`
(a negative value counts as 0) `Wait` is called `N` times, with the attempts
`1, ..., N`, so that the delay policy is never invoked exactly when `N = 0`. -/
theorem RequestWithRetry_config_error (s : NetSvc σ) (cfg : RequestConfig) (w : World σ)
    (N : Nat) (hN : max cfg.MaxRetries 0 = N) (h : ConfigError s cfg) :
    (configErr s cfg).asTemporary = none
      ∧ (RequestOnce s cfg w).resp = {} ∧ (RequestOnce s cfg w).err = some (configErr s cfg)
      ∧ (RequestOnce s cfg w).world = w
      ∧ ∃ r, RequestWithRetry s (some cfg) w = some r
        ∧ r.resp = {} ∧ r.err = some (configErr s cfg)
        ∧ r.world.ext = w.ext
        ∧ callCount (r.world.log.drop w.log.length) = 0
        ∧ waitAttempts (r.world.log.drop w.log.length)
            = (List.range N).map (fun i : Nat => (i : Int) + 1) := by
  obtain ⟨p1, p2, p3, p4, -, -⟩ := prepared_fields cfg
  obtain ⟨n1, n2, n3, n4, -, -⟩ := normTask_fields (prepared cfg)
  have honce := RequestOnce_configError s cfg h
  have h1 : ConfigError s (normTask (prepared cfg)) :=
    ConfigError_congr s cfg _ (by rw [n1, p1]) (by rw [n2, p2]) h
  have honce1 := RequestOnce_configError s _ h1
  rw [normTask_idem, configErr_congr s cfg _ (by rw [n1, p1]) (by rw [n2, p2])] at honce1
  have hM : (normTask (prepared cfg)).MaxRetries = N := by rw [n3, p3, hN]
  have hM0 : 0 ≤ (prepared cfg).MaxRetries := by rw [p3]; exact le_max_right _ _
  have hstart : RequestWithRetry s (some cfg) w
      = (retryLoop s ((prepared cfg).MaxRetries.toNat + 2) 0 none (prepared cfg) w).map
          fun r => ⟨r.resp, r.err, some r.cfg, r.world⟩ := rfl
  have hloop := retryLoop_exhaust s (normTask (prepared cfg))
    (cfg.Delay.getD (RetryDelay.ConstantDelay 1)) [] id (fun _ => {})
    (fun _ => some (configErr s cfg))
    (by rw [n4, p4])
    (fun w' => by rw [honce1 w']; simp)
    (fun _ => Or.inl ⟨configErr s cfg, rfl,
      IsTemporaryErr_of_unmarked _ (by rw [configErr_asTemporary]; simp)⟩)
    N ((prepared cfg).MaxRetries.toNat + 2) 0 none w
    (le_refl 0) (by rw [hM]; simp) (by rw [p3, hN]; simp)
  have hrw := hstart
  rw [retryLoop_zero_normTask s _ _ _ _ hM0, hloop, Option.map_some'] at hrw
  refine ⟨configErr_asTemporary s cfg, by rw [honce w], by rw [honce w], by rw [honce w],
    ⟨_, hrw, ?_⟩⟩
  · refine ⟨rfl, rfl, by simp, ?_, ?_⟩
    · simp only [List.drop_left]
      rw [callCount_exhaustTrace]; simp [callCount]
    · simp only [List.drop_left]
      rw [waitAttempts_exhaustTrace _ _ _ (by simp [waitAttempts]) _ _ (le_refl 0)]
      simp only [gt_iff_lt, lt_irrefl, if_false, List.nil_append]
      apply List.map_congr_left
      intro i _
      ring

/-- C10 amended, at the golden test "client not found errors" with `MaxRetries = 2`. -/
theorem RequestWithRetry_config_error_witness :
    (configErr (svcOf (fakeNetClient "" fun _ => ({ StatusCode := 200 }, none)))
        { ClientRef := "missing", MaxRetries := 2 }).asTemporary = none
      ∧ (RequestOnce (svcOf (fakeNetClient "" fun _ => ({ StatusCode := 200 }, none)))
          { ClientRef := "missing", MaxRetries := 2 } ⟨0, []⟩).resp = {}
      ∧ (RequestOnce (svcOf (fakeNetClient "" fun _ => ({ StatusCode := 200 }, none)))
          { ClientRef := "missing", MaxRetries := 2 } ⟨0, []⟩).err
        = some (configErr (svcOf (fakeNetClient "" fun _ => ({ StatusCode := 200 }, none)))
            { ClientRef := "missing", MaxRetries := 2 })
      ∧ (RequestOnce (svcOf (fakeNetClient "" fun _ => ({ StatusCode := 200 }, none)))
          { ClientRef := "missing", MaxRetries := 2 } ⟨0, []⟩).world = ⟨0, []⟩
      ∧ ∃ r, RequestWithRetry (svcOf (fakeNetClient "" fun _ => ({ StatusCode := 200 }, none)))
          (some { ClientRef := "missing", MaxRetries := 2 }) ⟨0, []⟩ = some r
        ∧ r.resp = {}
        ∧ r.err = some (configErr (svcOf (fakeNetClient "" fun _ => ({ StatusCode := 200 }, none)))
            { ClientRef := "missing", MaxRetries := 2 })
        ∧ r.world.ext = 0
        ∧ callCount (r.world.log.drop ([] : List Event).length) = 0
        ∧ waitAttempts (r.world.log.drop ([] : List Event).length)
            = (List.range 2).map (fun i : Nat => (i : Int) + 1) :=
  RequestWithRetry_config_error (svcOf (fakeNetClient "" fun _ => ({ StatusCode := 200 }, none)))
    { ClientRef := "missing", MaxRetries := 2 } ⟨0, []⟩ 2 rfl (Or.inr (Or.inl rfl))


/-- C11, refuted as stated: an error whose chain holds an error reporting
`Temporary() == false` behind one reporting `Temporary() == true` is retried:
with `MaxRetries = 1` the client is invoked twice and `Wait` once, although an
error in the wrap chain of each failure reports false. -/
theorem RequestWithRetry_inner_non_transient_is_retried :
    (RequestWithRetry
        (failingSvc (GoError.wrap "outer" (some true) (GoError.leaf "inner" (some false))))
        (some (retryCfg 1)) ⟨0, []⟩).map
      (fun r => (r.err.map GoError.chainReportsNonTransient, r.err.map (fun e => IsTemporaryErr (some e)),
        callCount r.world.log, waitAttempts r.world.log))
      = some (some true, some true, 2, [1]) := by
  decide

/-- C11, amended: in the loop of `RequestWithRetry`, when attempt `a` (with
`0 ≤ a ≤ MaxRetries`) fails with the error `e`, the error counts as transient
exactly when the first error of its wrap chain that has a `Temporary` method
does not report false (an error with no such method in its chain is
transient).  If it is transient and `a < MaxRetries`, the loop returns a result
whose log extends the log of a further attempt made after `Wait(a + 1)`;
otherwise the failed attempt's own result is returned at once, with no `Wait`
and no further attempt.  In particular, when the first attempt fails with an
error whose first `Temporary` in the chain reports false, `RequestWithRetry`
returns the result of that single attempt whatever `MaxRetries` is. -/
theorem RequestWithRetry_failed_attempt (s : NetSvc σ) (fuel : Nat) (a : Int)
    (lastErr : Option GoError) (cfg : RequestConfig) (w : World σ) (d : RetryDelay)
    (e : GoError)
    (hd : cfg.Delay = some d) (h0 : 0 ≤ a) (ha : a ≤ cfg.MaxRetries)
    (hf : (cfg.MaxRetries - a).toNat < fuel)
    (he : (RequestOnce s cfg (attemptWorld d cfg a w)).err = some e) :
    (IsTemporaryErr (some e) = true ↔ e.asTemporary ≠ some false)
    ∧ (e.asTemporary ≠ some false → a < cfg.MaxRetries →
        ∃ r evs, retryLoop s (fuel + 1) a lastErr cfg w = some r
          ∧ r.world.log
            = (RequestOnce s (normTask cfg)
                ((RequestOnce s cfg (attemptWorld d cfg a w)).world.emit
                  (Event.wait d (normTask cfg).TaskName (a + 1)))).world.log ++ evs)
    ∧ (e.asTemporary = some false ∨ cfg.MaxRetries ≤ a →
        retryLoop s (fuel + 1) a lastErr cfg w
          = some (RequestOnce s cfg (attemptWorld d cfg a w)))
    ∧ (∀ (c0 : RequestConfig) (e0 : GoError),
        (RequestOnce s (prepared c0) w).err = some e0 → e0.asTemporary = some false →
        RequestWithRetry s (some c0) w
          = some ⟨(RequestOnce s (prepared c0) w).resp, some e0,
              some (normTask (prepared c0)), (RequestOnce s (prepared c0) w).world⟩) := by
  obtain ⟨-, -, n3, n4, -, -⟩ := normTask_fields cfg
  have hstep := retryLoop_step s fuel a lastErr cfg w d hd ha
  rw [he] at hstep
  refine ⟨IsTemporaryErr_iff e, ?_, ?_, ?_⟩
  · intro ht hlt
    have htemp : IsTemporaryErr (some e) = true := (IsTemporaryErr_iff e).mpr ht
    simp only [htemp, hlt, decide_True, Bool.and_self, if_true] at hstep
    obtain ⟨k, hk⟩ : ∃ k, fuel = k + 1 := ⟨fuel - 1, by omega⟩
    subst hk
    have hsome := retryLoop_isSome s (k + 1) (a + 1) (some e) (normTask cfg)
      (RequestOnce s cfg (attemptWorld d cfg a w)).world (by rw [n4, hd]; simp)
      (by rw [n3]; omega)
    obtain ⟨r, hr⟩ := Option.isSome_iff_exists.mp hsome
    obtain ⟨evs, hevs⟩ := retryLoop_log_through_attempt s k (a + 1) (some e) (normTask cfg)
      (RequestOnce s cfg (attemptWorld d cfg a w)).world d (by rw [n4, hd])
      (by rw [n3]; omega) r hr
    have hpos : a + 1 > 0 := by omega
    simp only [attemptWorld, hpos, if_true] at hevs
    exact ⟨r, evs, by rw [hstep, hr], hevs⟩
  · intro hcase
    have hfalse : (IsTemporaryErr (some e) && decide (a < cfg.MaxRetries)) = false := by
      rcases hcase with h | h
      · have : IsTemporaryErr (some e) = false := by
          simp [IsTemporaryErr, h]
        simp [this]
      · have : ¬ a < cfg.MaxRetries := by omega
        simp [this]
    simp only [hfalse] at hstep
    exact hstep
  · intro c0 e0 he0 hnt
    obtain ⟨-, -, p3, p4, -, -⟩ := prepared_fields c0
    have hstart : RequestWithRetry s (some c0) w
        = (retryLoop s ((prepared c0).MaxRetries.toNat + 1 + 1) 0 none (prepared c0) w).map
            fun r => ⟨r.resp, r.err, some r.cfg, r.world⟩ := rfl
    have h1 := retryLoop_step s ((prepared c0).MaxRetries.toNat + 1) 0 none (prepared c0) w
      (c0.Delay.getD (RetryDelay.ConstantDelay 1)) p4 (by rw [p3]; omega)
    have hw : attemptWorld (c0.Delay.getD (RetryDelay.ConstantDelay 1)) (prepared c0) 0 w = w := by
      simp [attemptWorld]
    rw [hw, he0] at h1
    have hfalse : IsTemporaryErr (some e0) = false := by simp [IsTemporaryErr, hnt]
    simp only [hfalse, Bool.false_and, Bool.false_eq_true, if_false] at h1
    rw [hstart, h1]
    simp only [Option.map_some', Option.some.injEq, RetryResult.mk.injEq]
    exact ⟨trivial, he0, by rw [RequestOnce_cfg], trivial⟩

/-- C11 amended, at a fake client failing with `boom` (no marker), the first
attempt of two (`MaxRetries = 1`). -/
theorem RequestWithRetry_failed_attempt_witness :
    (IsTemporaryErr (some (GoError.errorf "perform request: " (GoError.errorsNew "boom"))) = true
      ↔ (GoError.errorf "perform request: " (GoError.errorsNew "boom")).asTemporary ≠ some false)
    ∧ ((GoError.errorf "perform request: " (GoError.errorsNew "boom")).asTemporary ≠ some false →
        (0 : Int) < (retryCfg 1).MaxRetries →
        ∃ r evs, retryLoop (failingSvc (GoError.errorsNew "boom")) (2 + 1) 0 none (retryCfg 1)
            ⟨0, []⟩ = some r
          ∧ r.world.log
            = (RequestOnce (failingSvc (GoError.errorsNew "boom")) (normTask (retryCfg 1))
                ((RequestOnce (failingSvc (GoError.errorsNew "boom")) (retryCfg 1)
                  (attemptWorld (RetryDelay.ConstantDelay 1) (retryCfg 1) 0 ⟨0, []⟩)).world.emit
                  (Event.wait (RetryDelay.ConstantDelay 1) (normTask (retryCfg 1)).TaskName
                    (0 + 1)))).world.log ++ evs)
    ∧ ((GoError.errorf "perform request: " (GoError.errorsNew "boom")).asTemporary = some false
        ∨ (retryCfg 1).MaxRetries ≤ 0 →
        retryLoop (failingSvc (GoError.errorsNew "boom")) (2 + 1) 0 none (retryCfg 1) ⟨0, []⟩
          = some (RequestOnce (failingSvc (GoError.errorsNew "boom")) (retryCfg 1)
              (attemptWorld (RetryDelay.ConstantDelay 1) (retryCfg 1) 0 ⟨0, []⟩)))
    ∧ (∀ (c0 : RequestConfig) (e0 : GoError),
        (RequestOnce (failingSvc (GoError.errorsNew "boom")) (prepared c0) ⟨0, []⟩).err = some e0 →
        e0.asTemporary = some false →
        RequestWithRetry (failingSvc (GoError.errorsNew "boom")) (some c0) ⟨0, []⟩
          = some ⟨(RequestOnce (failingSvc (GoError.errorsNew "boom")) (prepared c0) ⟨0, []⟩).resp,
              some e0, some (normTask (prepared c0)),
              (RequestOnce (failingSvc (GoError.errorsNew "boom")) (prepared c0) ⟨0, []⟩).world⟩) :=
  RequestWithRetry_failed_attempt (failingSvc (GoError.errorsNew "boom")) 2 0 none (retryCfg 1)
    ⟨0, []⟩ (RetryDelay.ConstantDelay 1)
    (GoError.errorf "perform request: " (GoError.errorsNew "boom"))
    rfl (by decide) (by decide) (by decide) (by decide)


/-- C12, the code at the failing input: against a server that answers 401 with
a `Www-Authenticate` header and the four-byte body `nope`, the HTTP client's
`ProcessRequest` returns that response (status 401, header and body intact)
together with its unauthorized error, but `RequestOnce` on the service holding
this client returns the zero response (status 0, no headers, empty body) with
the wrapped error: the 401 response does not reach the caller. -/
theorem RequestOnce_drops_unauthorized_response :
    (HTTPClient.ProcessRequest
        (fakeServer 401 [("Www-Authenticate", ["Bearer"])] [110, 111, 112, 101]) ⟨{}, {}⟩
        { ClientRef := "c"
          ReqConfig := some (ReqConfig.http
            { Method := "GET", URL := "http://h", BodyType := "application/json" })
          TaskName := "t" }
        ⟨0, []⟩).1
      = (⟨401, [("Www-Authenticate", ["Bearer"])], [110, 111, 112, 101]⟩,
          some (unauthorizedErr "http://h"))
    ∧ (fun r : CallResult (TokenInfo × ClientWorld Nat) =>
        (r.resp, r.err, roundTrips r.world.ext.2.log))
        (RequestOnce
          (svcOf (HTTPClient.asNetClient
            (fakeServer 401 [("Www-Authenticate", ["Bearer"])] [110, 111, 112, 101]) {}))
          { ClientRef := "c"
            ReqConfig := some (ReqConfig.http
              { Method := "GET", URL := "http://h", BodyType := "application/json" })
            TaskName := "t" }
          ⟨({}, ⟨0, []⟩), []⟩)
      = (⟨0, [], []⟩,
          some (GoError.errorf "perform request: " (unauthorizedErr "http://h")), 1) := by
  decide


/-- C19, refuted as stated: a config with `MaxRetries = -1`, a nil `Delay` and an
empty `TaskName` comes back from `RequestWithRetry` with `MaxRetries = 0`, a
delay policy set and the task name `http_request`; `RequestOnce` alone already
writes the task name. -/
theorem RequestWithRetry_writes_config :
    (RequestWithRetry (failingSvc (GoError.errorsNew "boom"))
        (some { ClientRef := "c", ReqConfig := some (ReqConfig.other ""), MaxRetries := -1 })
        ⟨0, []⟩).map
      (fun r => r.cfg.map (fun c => (c.MaxRetries, c.Delay.isSome, c.TaskName)))
      = some (some (0, true, "http_request"))
    ∧ (RequestOnce (failingSvc (GoError.errorsNew "boom"))
        { ClientRef := "c", ReqConfig := some (ReqConfig.other ""), MaxRetries := -1 }
        ⟨0, []⟩).cfg.TaskName = "http_request" := by
  decide

/-- C19, amended: `RequestOnce` and `RequestWithRetry` keep the fields
`ClientRef`, `Timeout`, `ReqConfig` and `ResponseObject` of the caller's config
and write the other three: `RequestOnce` sets an empty `TaskName` to
`http_request` once `ClientRef` and `ReqConfig` are set and changes nothing
else; `RequestWithRetry` returns, and after it `MaxRetries` is the old value
raised to 0 when negative, `Delay` is the old policy or, when that was nil, the
constant delay of period 1, and `TaskName` is as after `RequestOnce`.  (Clients
receive the config too; the clients of the model do not write to it.) -/
theorem RequestConfig_after_call (s : NetSvc σ) (cfg : RequestConfig) (w : World σ) :
    (RequestOnce s cfg w).cfg
      = (if cfg.ClientRef ≠ "" ∧ cfg.ReqConfig ≠ none ∧ cfg.TaskName = ""
          then { cfg with TaskName := "http_request" } else cfg)
    ∧ ∃ r c, RequestWithRetry s (some cfg) w = some r ∧ r.cfg = some c
      ∧ c.ClientRef = cfg.ClientRef ∧ c.Timeout = cfg.Timeout
      ∧ c.ReqConfig = cfg.ReqConfig ∧ c.ResponseObject = cfg.ResponseObject
      ∧ c.MaxRetries = max cfg.MaxRetries 0
      ∧ c.Delay = some (cfg.Delay.getD (RetryDelay.ConstantDelay 1))
      ∧ c.TaskName = (if cfg.ClientRef ≠ "" ∧ cfg.ReqConfig ≠ none ∧ cfg.TaskName = ""
          then "http_request" else cfg.TaskName) := by
  have hnorm : ∀ c0 : RequestConfig, normTask c0
      = (if c0.ClientRef ≠ "" ∧ c0.ReqConfig ≠ none ∧ c0.TaskName = ""
          then { c0 with TaskName := "http_request" } else c0) := by
    intro c0
    unfold normTask
    by_cases h1 : c0.ClientRef = ""
    · simp [h1]
    · cases h2 : c0.ReqConfig with
      | none => simp [h1]
      | some rc =>
        by_cases h3 : c0.TaskName = ""
        · simp [h1, h3]
        · simp [h1, h3]
  refine ⟨by rw [RequestOnce_cfg, hnorm], ?_⟩
  obtain ⟨p1, p2, p3, p4, p5, p6⟩ := prepared_fields cfg
  obtain ⟨n1, n2, n3, n4, n5, n6⟩ := normTask_fields (prepared cfg)
  have hp7 : (prepared cfg).Timeout = cfg.Timeout := by
    unfold prepared
    by_cases h1 : cfg.MaxRetries < 0
    · cases h2 : cfg.Delay with
      | none => simp [h1, h2]
      | some d => simp [h1, h2]
    · cases h2 : cfg.Delay with
      | none => simp [h1, h2]
      | some d => simp [h1, h2]
  have hsome := retryLoop_isSome s ((prepared cfg).MaxRetries.toNat + 2) 0 none (prepared cfg) w
    (by rw [p4]; simp) (by omega)
  obtain ⟨r, hr⟩ := Option.isSome_iff_exists.mp hsome
  have hcfg := retryLoop_cfg s _ _ _ _ _ _ hr (Or.inl (by rw [p3]; omega))
  have hstart : RequestWithRetry s (some cfg) w
      = (retryLoop s ((prepared cfg).MaxRetries.toNat + 2) 0 none (prepared cfg) w).map
          fun r => ⟨r.resp, r.err, some r.cfg, r.world⟩ := rfl
  refine ⟨_, normTask (prepared cfg), by rw [hstart, hr]; rfl, by rw [← hcfg],
    by rw [n1, p1], by rw [n6, hp7], by rw [n2, p2], by rw [n5, p5], by rw [n3, p3],
    by rw [n4, p4], ?_⟩
  rw [hnorm, p1, p2, p6]
  split <;> simp [p6]


/-- C20: a token with an empty `AccessToken` and no cookies is expired for every
buffer, every `Expiry` and every reading of the clock; a token with a zero
`Expiry` is expired exactly in that case, so with a non-empty access token or
at least one cookie and a zero `Expiry` it is not expired, whatever the buffer
and the current time. -/
theorem IsExpired_empty_or_zero_expiry (t : TokenInfo) (buffer : Duration) (now : Time) :
    (t.AccessToken = "" ∧ t.Cookies = [] → t.IsExpired buffer now = true)
    ∧ (t.Expiry = 0 →
        (t.IsExpired buffer now = true ↔ t.AccessToken = "" ∧ t.Cookies = []))
    ∧ (t.Expiry = 0 → (t.AccessToken ≠ "" ∨ t.Cookies ≠ []) →
        t.IsExpired buffer now = false) := by
  have hlen : t.Cookies.length = 0 ↔ t.Cookies = [] := List.length_eq_zero
  unfold TokenInfo.IsExpired
  refine ⟨?_, ?_, ?_⟩
  · rintro ⟨h1, h2⟩
    simp [h1, h2]
  · intro h0
    by_cases hc : t.AccessToken = "" ∧ t.Cookies = []
    · simp [hc.1, hc.2]
    · have hc' : ¬ (t.AccessToken = "" ∧ t.Cookies.length = 0) := by
        rw [hlen]; exact hc
      simp only [hc', if_false, h0, if_true]
      simp [hc]
  · intro h0 hne
    have hc' : ¬ (t.AccessToken = "" ∧ t.Cookies.length = 0) := by
      rw [hlen]
      rintro ⟨h1, h2⟩
      rcases hne with h | h
      · exact h h1
      · exact h h2
    simp only [hc', if_false, h0, if_true]

/-- C20, at the golden tests "no token and no cookies => expired" and "zero
expiry with token => not expired (indefinite)". -/
theorem IsExpired_empty_or_zero_expiry_witness :
    (({} : TokenInfo).IsExpired 60 1000 = true)
    ∧ (({ AccessToken := "abc" } : TokenInfo).IsExpired 60 1000 = false) :=
  ⟨(IsExpired_empty_or_zero_expiry {} 60 1000).1 ⟨rfl, rfl⟩,
   (IsExpired_empty_or_zero_expiry { AccessToken := "abc" } 60 1000).2.2 rfl
     (Or.inl (by decide))⟩


/-- C16: on a hub that satisfies the invariant, publishing an `IN_PROGRESS`
notification returns without handing any send to a goroutine; a listener of the
source URL whose buffer holds 10 notifications keeps its buffer as it is (the
notification is dropped for it), a listener of that URL with fewer pending
notifications gets it appended after them, and the channels of the listeners of
every other URL, like every channel that is not a listener of the source URL,
are unchanged. -/
theorem publishTransferUpdate_progress (h : Hub) (n : TransferNotification) (hwf : h.WF)
    (hst : n.Status = TransferStatus.IN_PROGRESS) :
    ∃ h1, h.publishTransferUpdate n = some h1
      ∧ h1.spawned = h.spawned
      ∧ h1.listenersByURL = h.listenersByURL
      ∧ (∀ ch ∈ h.listeners n.Source, ∃ c c1, h.chans[ch]? = some c ∧ h1.chans[ch]? = some c1
          ∧ c1.closed = false
          ∧ (c.buf.length = 10 → c1.buf = c.buf)
          ∧ (c.buf.length < 10 → c1.buf = c.buf ++ [n]))
      ∧ (∀ url, url ≠ n.Source → ∀ ch ∈ h.listeners url, h1.chans[ch]? = h.chans[ch]?)
      ∧ (∀ ch, ch ∉ h.listeners n.Source → h1.chans[ch]? = h.chans[ch]?) := by
  obtain ⟨h1, hp, e1, -, -, e4, e5, -⟩ := publishTransferUpdate_spec h n hwf
  obtain ⟨w1, w2, w3, w4⟩ := hwf
  have hnt : n.Status.isTerminal = false := by rw [hst]; rfl
  refine ⟨h1, hp, e4 hnt, e1, ?_, ?_, ?_⟩
  · intro ch hch
    obtain ⟨c, hc, ho, hcap, hlen⟩ :=
      (chanOK_iff h ch).mp (w4 _ (listeners_mem h n.Source ch hch) ch hch)
    refine ⟨c, c.offer n, hc, by rw [e5 ch]; simp [hch, hc], (offer_ok c n ⟨ho, hcap, hlen⟩).1,
      ?_, ?_⟩
    · intro hfull
      simp [Chan.offer, hcap, hfull]
    · intro hroom
      simp [Chan.offer, hcap, hroom]
  · intro url hne ch hch
    have hnot : ch ∉ h.listeners n.Source := by
      intro hin
      exact hne (w3 _ (listeners_mem h url ch hch) _ (listeners_mem h n.Source ch hin) ch hch hin)
    rw [e5 ch]
    simp [hnot]
  · intro ch hnot
    rw [e5 ch]
    simp [hnot]

/-- C16, at a hub with a full listener and a listener with room on `"u"` and a
listener on `"v"`, for a progress notification of `"u"`. -/
theorem publishTransferUpdate_progress_witness :
    ∃ h1, exampleHub.publishTransferUpdate (progressNote 2) = some h1
      ∧ h1.spawned = exampleHub.spawned
      ∧ h1.listenersByURL = exampleHub.listenersByURL
      ∧ (∀ ch ∈ exampleHub.listeners (progressNote 2).Source,
          ∃ c c1, exampleHub.chans[ch]? = some c ∧ h1.chans[ch]? = some c1
          ∧ c1.closed = false
          ∧ (c.buf.length = 10 → c1.buf = c.buf)
          ∧ (c.buf.length < 10 → c1.buf = c.buf ++ [progressNote 2]))
      ∧ (∀ url, url ≠ (progressNote 2).Source → ∀ ch ∈ exampleHub.listeners url,
          h1.chans[ch]? = exampleHub.chans[ch]?)
      ∧ (∀ ch, ch ∉ exampleHub.listeners (progressNote 2).Source →
          h1.chans[ch]? = exampleHub.chans[ch]?) :=
  publishTransferUpdate_progress exampleHub (progressNote 2) (by decide) rfl


/-- C17: on a hub that satisfies the invariant, for a channel `ch` registered
under `url`, the closure returned by `TransferListener` returns and leaves the
listeners of `url` without `ch` and otherwise as they were, in their order; the
entry of `url` is deleted when no listener remains and holds the remaining
listeners otherwise; the entries of all other URLs are unchanged; `ch` is closed
and no other channel changes.  Subscribing to a URL that has no entry and then
calling the returned closure gives back the registry as it was. -/
theorem unsub_removes_listener (h : Hub) (url : String) (hwf : h.WF) :
    (∀ ch ∈ h.listeners url, ∃ h1, h.unsub url ch = some h1
      ∧ h1.listeners url = (h.listeners url).erase ch
      ∧ ch ∉ h1.listeners url
      ∧ entriesGet h1.listenersByURL url
          = (if (h.listeners url).erase ch = [] then none
             else some ((h.listeners url).erase ch))
      ∧ (∀ u, u ≠ url → entriesGet h1.listenersByURL u = entriesGet h.listenersByURL u)
      ∧ (∃ c, h.chans[ch]? = some c ∧ c.closed = false
          ∧ h1.chans[ch]? = some { c with closed := true })
      ∧ (∀ i, i ≠ ch → h1.chans[i]? = h.chans[i]?))
    ∧ (entriesGet h.listenersByURL url = none →
        ∃ h1, (h.TransferListener url).2.unsub url (h.TransferListener url).1 = some h1
          ∧ h1.listenersByURL = h.listenersByURL) := by
  obtain ⟨w1, w2, w3, w4⟩ := hwf
  constructor
  · intro ch hch
    have hmem := listeners_mem h url ch hch
    have hnd : (h.listeners url).Nodup := (w2 _ hmem).1
    obtain ⟨c, hc, ho, -, -⟩ := (chanOK_iff h ch).mp (w4 _ hmem ch hch)
    have hlt : ch < h.chans.length := by
      rcases Nat.lt_or_ge ch h.chans.length with h1 | h1
      · exact h1
      · rw [List.getElem?_eq_none h1] at hc; cases hc
    have hfilter : (h.listeners url).filter (fun c => decide (c ≠ ch))
        = (h.listeners url).erase ch := by
      rw [hnd.erase_eq_filter]
      apply List.filter_congr
      intro x _
      by_cases hx : x = ch <;> simp [hx]
    have hnot : ch ∉ (h.listeners url).erase ch := fun hin => (hnd.not_mem_erase) hin
    unfold Hub.unsub
    simp only [hfilter, List.length_eq_zero]
    by_cases hempty : (h.listeners url).erase ch = []
    · simp only [hempty, if_true, Hub.close, hc, ho, Bool.false_eq_true, if_false]
      have hget : entriesGet (entriesDelete h.listenersByURL url) url = none :=
        entriesGet_entriesDelete_self _ _ w1
      refine ⟨_, rfl, ?_, ?_, hget, ?_, ⟨c, rfl, ho, ?_⟩, ?_⟩
      · simp [Hub.listeners, hget]
      · simp [Hub.listeners, hget]
      · intro u hu
        exact entriesGet_entriesDelete_ne _ _ _ hu
      · simp [hlt]
      · intro i hi
        simp [List.getElem?_set_ne (Ne.symm hi)]
    · simp only [hempty, if_false, Hub.close, hc, ho, Bool.false_eq_true]
      have hget : entriesGet (entriesSet h.listenersByURL url ((h.listeners url).erase ch)) url
          = some ((h.listeners url).erase ch) := entriesGet_entriesSet_self _ _ _
      refine ⟨_, rfl, ?_, ?_, hget, ?_, ⟨c, rfl, ho, ?_⟩, ?_⟩
      · show (entriesGet (entriesSet h.listenersByURL url ((h.listeners url).erase ch)) url).getD []
          = (h.listeners url).erase ch
        rw [hget]; rfl
      · show ch ∉ (entriesGet (entriesSet h.listenersByURL url
          ((h.listeners url).erase ch)) url).getD []
        rw [hget]; exact hnot
      · intro u hu
        exact entriesGet_entriesSet_ne _ _ _ _ hu
      · simp [hlt]
      · intro i hi
        simp [List.getElem?_set_ne (Ne.symm hi)]
  · intro habs
    have hl : h.listeners url = [] := by simp [Hub.listeners, habs]
    unfold Hub.unsub Hub.TransferListener
    simp only [Hub.listeners, entriesGet_entriesSet_self, Option.getD_some, habs,
      Option.getD_none, List.nil_append, List.filter_cons, ne_eq, not_true_eq_false,
      decide_False, Bool.false_eq_true, if_false, List.filter_nil, List.length_nil, if_true,
      Hub.close]
    simp only [List.getElem?_concat_length, Bool.false_eq_true, if_false]
    exact ⟨_, rfl, entriesDelete_entriesSet_absent _ _ _ habs⟩

/-- C17, at the second listener of `"u"` in a hub with two listeners of `"u"` and
one of `"v"`. -/
theorem unsub_removes_listener_witness :
    (∃ h1, exampleHub.unsub "u" 1 = some h1
      ∧ h1.listeners "u" = (exampleHub.listeners "u").erase 1
      ∧ 1 ∉ h1.listeners "u"
      ∧ entriesGet h1.listenersByURL "u"
          = (if (exampleHub.listeners "u").erase 1 = [] then none
             else some ((exampleHub.listeners "u").erase 1))
      ∧ (∀ u, u ≠ "u" →
          entriesGet h1.listenersByURL u = entriesGet exampleHub.listenersByURL u)
      ∧ (∃ c, exampleHub.chans[1]? = some c ∧ c.closed = false
          ∧ h1.chans[1]? = some { c with closed := true })
      ∧ (∀ i, i ≠ 1 → h1.chans[i]? = exampleHub.chans[i]?))
    ∧ (∃ h1, (exampleHub.TransferListener "w").2.unsub "w" (exampleHub.TransferListener "w").1
            = some h1
          ∧ h1.listenersByURL = exampleHub.listenersByURL) :=
  ⟨(unsub_removes_listener exampleHub "u" (by decide)).1 1 (by decide),
   (unsub_removes_listener exampleHub "w" (by decide)).2 (by decide)⟩


/-- C13, the code at the failing input: a native-backend download whose context
deadline passes during the body copy (the first read delivers 4 bytes, the
check before the second read finds `context.DeadlineExceeded`) publishes `ERROR`
as its only notification and returns the error wrapped as a failed file
transfer, where a cancellation at the same point publishes `STOPPED` alone and
returns `context.Canceled`, and a deadline that passes before the response
arrives publishes `STOPPED` alone too. -/
theorem DownloadFile_deadline_during_copy :
    runDownload { ctxErr := fun t => if t ≥ 1 then some contextDeadlineExceeded else none } {}
        { URL := "http://h/f.txt", DestinationFolder := "/tmp" }
      = some (some (GoError.errorf "file transfer failed for http://h/f.txt: "
          contextDeadlineExceeded), [TransferStatus.ERROR])
    ∧ runDownload { ctxErr := fun t => if t ≥ 1 then some contextCanceled else none } {}
        { URL := "http://h/f.txt", DestinationFolder := "/tmp" }
      = some (some contextCanceled, [TransferStatus.STOPPED])
    ∧ runDownload
        { doResult := .error (GoError.errorf "Get \"http://h/f.txt\": " contextDeadlineExceeded)
          ctxErr := fun _ => some contextDeadlineExceeded } {}
        { URL := "http://h/f.txt", DestinationFolder := "/tmp" }
      = some (some (GoError.errorf "Get \"http://h/f.txt\": " contextDeadlineExceeded),
          [TransferStatus.STOPPED]) := by
  decide

/-- C14, the code at the failing inputs: with the curl backend, a destination
directory that cannot be created and a subprocess that cannot be started make
`DownloadFile` return a non-nil error with no notification published, and so
does, in either backend, a URL from which no file name can be derived; the
native backend publishes `ERROR` when the directory cannot be created. -/
theorem DownloadFile_error_without_notification :
    runDownload { mkdirErr := some (GoError.errorsNew "permission denied") }
        { PreferCurlDownloads := true } { URL := "http://h/f.txt", DestinationFolder := "/tmp" }
      = some (some (GoError.errorf "could not create destination folder \"/tmp/f.txt\": "
          (GoError.errorsNew "permission denied")), [])
    ∧ runDownload { startErr := some (GoError.errorsNew "exec: no curl") }
        { PreferCurlDownloads := true } { URL := "http://h/f.txt", DestinationFolder := "/tmp" }
      = some (some (GoError.errorf "failed to start curl: " (GoError.errorsNew "exec: no curl")),
          [])
    ∧ runDownload { parseErr := some (GoError.errorsNew "parse: invalid URL") } {}
        { URL := "http://h/%zz", DestinationFolder := "/tmp" }
      = some (some (GoError.errorsNew "parse: invalid URL"), [])
    ∧ runDownload { parseErr := some (GoError.errorsNew "parse: invalid URL") }
        { PreferCurlDownloads := true } { URL := "http://h/%zz", DestinationFolder := "/tmp" }
      = some (some (GoError.errorsNew "parse: invalid URL"), [])
    ∧ runDownload { mkdirErr := some (GoError.errorsNew "permission denied") } {}
        { URL := "http://h/f.txt", DestinationFolder := "/tmp" }
      = some (some (GoError.errorf "could not create destination folder \"/tmp/f.txt\": "
          (GoError.errorsNew "permission denied")), [TransferStatus.ERROR]) := by
  decide


/-- C18, the code at the failing input: for a put config whose
`ExtraOpts["metadata"]` is the map `a = 1`, `NewRequest` copies the reference to
that map into the request, and `StaticS3MetaMiddleware` with `app = gonetic`,
applied to the request, writes into the map both share: the config's metadata
holds `a = 1` before the call and `a = 1, app = gonetic` after it, while its
top-level maps keep their entries. -/
theorem NewRequest_shares_metadata_map :
    (sharedMetaCfg.load sharedMetaStore).ExtraOpts
      = some [("metadata", ExtraOpt.stringMap (some [("a", "1")]))]
    ∧ (StaticS3MetaMiddleware [("app", "gonetic")] sharedMetaStore sharedMetaCfg.NewRequest).2.ExtraOpts
      = some [("metadata", ExtraRef.stringMapAt (some 0))]
    ∧ (sharedMetaCfg.load
        (StaticS3MetaMiddleware [("app", "gonetic")] sharedMetaStore
          sharedMetaCfg.NewRequest).1).ExtraOpts
      = some [("metadata", ExtraOpt.stringMap (some [("a", "1"), ("app", "gonetic")]))]
    ∧ (sharedMetaCfg.load
        (StaticS3MetaMiddleware [("app", "gonetic")] sharedMetaStore
          sharedMetaCfg.NewRequest).1).Headers
      = (sharedMetaCfg.load sharedMetaStore).Headers := by
  decide


/-- C22: `attachAuth` is the definition in the words of the spec, whatever the
lower-case mapping beyond ASCII is: it changes the header map of the request
alone, and the entries of that map become `attachAuthSpec`.  So with a
non-empty access token the `Authorization` entry is the canonical token type,
one space and the access token, and every other entry, the `Cookie` entry among
them, is as before, whatever cookies are stored; with an empty access token and
a non-empty store the `Cookie` entry is the text `name=value; ` of each cookie
in store order and every other entry is as before; with neither, every entry is
as before. -/
theorem attachAuth_eq_spec (toLowerCase : Char → Char) (token : TokenInfo) (r : HTTPRequest) :
    attachAuth toLowerCase token r
      = { r with Headers := some (attachAuthSpec toLowerCase token r.Headers.entries) }
    ∧ (token.AccessToken ≠ "" →
        entriesGet (attachAuth toLowerCase token r).Headers.entries "Authorization"
          = some (normalizeAuthType toLowerCase token.TokenType ++ " " ++ token.AccessToken)
        ∧ ∀ k, k ≠ "Authorization" →
            entriesGet (attachAuth toLowerCase token r).Headers.entries k
              = entriesGet r.Headers.entries k)
    ∧ (token.AccessToken = "" → token.Cookies ≠ [] →
        entriesGet (attachAuth toLowerCase token r).Headers.entries "Cookie"
          = some (String.join (token.Cookies.map fun ck => ck.Name ++ "=" ++ ck.Value ++ "; "))
        ∧ ∀ k, k ≠ "Cookie" →
            entriesGet (attachAuth toLowerCase token r).Headers.entries k
              = entriesGet r.Headers.entries k)
    ∧ (token.AccessToken = "" → token.Cookies = [] →
        ∀ k, entriesGet (attachAuth toLowerCase token r).Headers.entries k
          = entriesGet r.Headers.entries k) := by
  have hjoin : String.join (token.Cookies.map fun ck => ck.Name ++ "=" ++ ck.Value ++ "; ")
      = cookieHeader token.Cookies := by
    unfold cookieHeader
    congr 1
    apply List.map_congr_left
    intro ck _
    simp [String.append_assoc]
  have hmain : attachAuth toLowerCase token r
      = { r with Headers := some (attachAuthSpec toLowerCase token r.Headers.entries) } := by
    obtain ⟨m, u, b, bt, hs, bb, ct⟩ := r
    have hfold := foldl_cookies token.Cookies ""
    simp only [String.empty_append] at hfold
    unfold attachAuth attachAuthSpec
    by_cases hat : token.AccessToken = ""
    · by_cases hck : token.Cookies = []
      · cases hs <;> simp [hat, hck, GoMap.entries]
      · have hlen : token.Cookies.length > 0 := List.length_pos.mpr hck
        cases hs <;> simp [hat, hck, hlen, GoMap.entries, hfold]
    · cases hs <;> simp [hat, GoMap.entries, String.append_assoc]
  refine ⟨hmain, ?_, ?_, ?_⟩
  · intro hat
    rw [hmain]
    simp only [GoMap.entries, Option.getD_some, attachAuthSpec, hat, ne_eq, not_false_eq_true,
      if_true]
    refine ⟨by rw [entriesGet_entriesSet_self]; simp [String.append_assoc], ?_⟩
    intro k hk
    exact entriesGet_entriesSet_ne _ _ _ _ hk
  · intro hat hck
    rw [hmain, hjoin]
    simp only [GoMap.entries, Option.getD_some, attachAuthSpec, hat, hck, ne_eq,
      not_true_eq_false, not_false_eq_true, if_false, if_true]
    refine ⟨entriesGet_entriesSet_self _ _ _, ?_⟩
    intro k hk
    exact entriesGet_entriesSet_ne _ _ _ _ hk
  · intro hat hck k
    rw [hmain]
    simp [GoMap.entries, attachAuthSpec, hat, hck]

/-- C22, at a token with the access token `tok` and one stored cookie, and at a
session of two cookies, on requests with a header of their own. -/
theorem attachAuth_eq_spec_witness :
    (entriesGet (attachAuth lowerCaseDouble bearerWithCookie
        { Headers := some [("Cookie", "own=1")] }).Headers.entries "Authorization"
      = some ("Bearer" ++ " " ++ "tok"))
    ∧ (entriesGet (attachAuth lowerCaseDouble bearerWithCookie
        { Headers := some [("Cookie", "own=1")] }).Headers.entries "Cookie"
      = some "own=1")
    ∧ (entriesGet (attachAuth lowerCaseDouble cookieSession
        { Headers := some [("X-A", "1")] }).Headers.entries "Cookie"
      = some "sid=1; lang=en; ") :=
  ⟨((attachAuth_eq_spec lowerCaseDouble bearerWithCookie
      { Headers := some [("Cookie", "own=1")] }).2.1 (by decide)).1,
   (((attachAuth_eq_spec lowerCaseDouble bearerWithCookie
      { Headers := some [("Cookie", "own=1")] }).2.1 (by decide)).2 "Cookie" (by decide)).trans
      (by decide),
   ((attachAuth_eq_spec lowerCaseDouble cookieSession
      { Headers := some [("X-A", "1")] }).2.2.1 rfl (by decide)).1.trans (by decide)⟩

/-- C24: for every string `t`, and whatever the lower-case mapping of
`strings.ToLower` beyond ASCII is, `normalizeAuthType t` is `Bearer` when `t` is
empty or is `bearer` after trimming the surrounding white space and
lower-casing, `Basic` when it is `basic` after the same, and `t` itself in
every other case. -/
theorem normalizeAuthType_cases (toLowerCase : Char → Char) (t : String) :
    (t = "" ∨ ToLower toLowerCase (TrimSpace t) = "bearer" →
        normalizeAuthType toLowerCase t = "Bearer")
    ∧ (ToLower toLowerCase (TrimSpace t) = "basic" → normalizeAuthType toLowerCase t = "Basic")
    ∧ (t ≠ "" → ToLower toLowerCase (TrimSpace t) ≠ "bearer" →
        ToLower toLowerCase (TrimSpace t) ≠ "basic" →
        normalizeAuthType toLowerCase t = t) := by
  have hempty : ToLower toLowerCase (TrimSpace "") = "" := rfl
  unfold normalizeAuthType
  refine ⟨?_, ?_, ?_⟩
  · rintro (h | h)
    · subst h
      rw [hempty]
      decide
    · simp [h]
  · intro h
    have hne : ToLower toLowerCase (TrimSpace t) ≠ "bearer" := by rw [h]; decide
    simp [h]
  · intro h1 h2 h3
    simp [h1, h2, h3]

/-- C24, at the inputs of the test `Test_normalizeAuthType` and at `BASİC`, whose
third letter is U+0130 and has the lower case `i`. -/
theorem normalizeAuthType_cases_witness :
    normalizeAuthType lowerCaseDouble "" = "Bearer"
    ∧ normalizeAuthType lowerCaseDouble " BEARER " = "Bearer"
    ∧ normalizeAuthType lowerCaseDouble "basic" = "Basic"
    ∧ normalizeAuthType lowerCaseDouble "BAS\u0130C" = "Basic"
    ∧ normalizeAuthType lowerCaseDouble "Token" = "Token" :=
  ⟨(normalizeAuthType_cases lowerCaseDouble "").1 (Or.inl rfl),
   (normalizeAuthType_cases lowerCaseDouble " BEARER ").1 (Or.inr (by decide)),
   (normalizeAuthType_cases lowerCaseDouble "basic").2.1 (by decide),
   (normalizeAuthType_cases lowerCaseDouble "BAS\u0130C").2.1 (by decide),
   (normalizeAuthType_cases lowerCaseDouble "Token").2.2 (by decide) (by decide) (by decide)⟩


/-- C21, refuted as stated: a provider whose `Authenticate` returns the access
token `new` with an empty token type leaves the stored token with the type
`Bearer`, which is not the provider's result. -/
theorem refreshToken_normalises_token_type :
    ((providerClient (.ok { AccessToken := "new" }) (.error (GoError.errorsNew "no")) {}).refreshToken
        (fakeEnv id 200) ⟨0, []⟩).2.1.token
      = { AccessToken := "new", TokenType := "Bearer" }
    ∧ ((providerClient (.ok { AccessToken := "new" }) (.error (GoError.errorsNew "no"))
          {}).refreshToken (fakeEnv id 200) ⟨0, []⟩).2.1.token
      ≠ { AccessToken := "new" } := by
  decide

/-- C21, amended: with an auth provider and no OAuth source, and a stored token
that is expired at the clock reading, `refreshToken` calls `Authenticate` alone
when the stored token has an empty access token and no cookies; otherwise it
calls `Refresh` with the stored token and, only if that fails, `Authenticate`
after it.  When the call that decides succeeds with the token `newTok`,
`refreshToken` returns nil and the stored token is `newTok` with its token type
normalised by `normalizeAuthType`: the access token, the expiry and the cookies
are those of `newTok`, so the cookie jar is replaced, not merged. -/
theorem refreshToken_provider (env : HTTPEnv σ) (c : HTTPClient σ) (w : ClientWorld σ)
    (provider : AuthProvider σ)
    (hs : c.cfg.OAuthSource = none) (hp : c.cfg.AuthProvider = some provider)
    (hx : c.token.IsExpired c.cfg.RefreshBuffer (env.Now w.ext).1 = true) :
    (c.token.AccessToken = "" ∧ c.token.Cookies = [] →
      (c.refreshToken env w).2.2.log = w.log ++ [ClientEvent.authenticate]
      ∧ ∀ newTok, (provider.Authenticate (env.Now w.ext).2).1 = .ok newTok →
          (c.refreshToken env w).1 = none
          ∧ (c.refreshToken env w).2.1.token
              = { newTok with TokenType := normalizeAuthType env.codec.toLowerCase newTok.TokenType }
          ∧ (c.refreshToken env w).2.1.token.Cookies = newTok.Cookies)
    ∧ (¬ (c.token.AccessToken = "" ∧ c.token.Cookies = []) →
      (∀ newTok, (provider.Refresh (env.Now w.ext).2 c.token).1 = .ok newTok →
          (c.refreshToken env w).2.2.log = w.log ++ [ClientEvent.refresh c.token]
          ∧ (c.refreshToken env w).1 = none
          ∧ (c.refreshToken env w).2.1.token
              = { newTok with TokenType := normalizeAuthType env.codec.toLowerCase newTok.TokenType }
          ∧ (c.refreshToken env w).2.1.token.Cookies = newTok.Cookies)
      ∧ (∀ e, (provider.Refresh (env.Now w.ext).2 c.token).1 = .error e →
          (c.refreshToken env w).2.2.log
            = w.log ++ [ClientEvent.refresh c.token, ClientEvent.authenticate]
          ∧ ∀ newTok,
              (provider.Authenticate (provider.Refresh (env.Now w.ext).2 c.token).2).1
                = .ok newTok →
              (c.refreshToken env w).1 = none
              ∧ (c.refreshToken env w).2.1.token
                  = { newTok with TokenType := normalizeAuthType env.codec.toLowerCase newTok.TokenType }
              ∧ (c.refreshToken env w).2.1.token.Cookies = newTok.Cookies)) := by
  have hlen : c.token.Cookies.length = 0 ↔ c.token.Cookies = [] := List.length_eq_zero
  unfold HTTPClient.refreshToken
  simp only [hx, Bool.not_true, Bool.false_eq_true, if_false, hs, hp, hlen]
  constructor
  · intro hcred
    simp only [hcred, and_self, if_true]
    refine ⟨?_, ?_⟩
    · cases ha : (provider.Authenticate (env.Now w.ext).2).1 <;> rfl
    · intro newTok ha
      simp only [ha]
      simp
  · intro hcred
    simp only [hcred, if_false]
    refine ⟨?_, ?_⟩
    · intro newTok hr
      simp only [hr]
      simp
    · intro e hr
      simp only [hr]
      refine ⟨?_, ?_⟩
      · cases ha : (provider.Authenticate (provider.Refresh (env.Now w.ext).2 c.token).2).1
        · simp
        · simp
      · intro newTok ha
        simp only [ha]
        simp


/-- C21 amended, at a client whose stored token `old` expired, whose provider
refuses the `Refresh` and answers `Authenticate` with the token `fresh`. -/
theorem refreshToken_provider_witness :
    (reloginClient.refreshToken (fakeEnv id 200) ⟨0, []⟩).2.2.log
      = [] ++ [ClientEvent.refresh reloginClient.token, ClientEvent.authenticate]
    ∧ (reloginClient.refreshToken (fakeEnv id 200) ⟨0, []⟩).1 = none
    ∧ (reloginClient.refreshToken (fakeEnv id 200) ⟨0, []⟩).2.1.token
      = { AccessToken := "fresh", TokenType := "Basic", Expiry := 5000,
          Cookies := [⟨"sid", "2"⟩] } :=
  have h := ((refreshToken_provider (fakeEnv id 200) reloginClient ⟨0, []⟩
    (fakeAuthProvider
      (.ok { AccessToken := "fresh", TokenType := "basic", Expiry := 5000,
             Cookies := [⟨"sid", "2"⟩] })
      (.error (GoError.errorsNew "refresh refused")))
    rfl rfl (by decide)).2 (by decide)).2 (GoError.errorsNew "refresh refused") rfl
  ⟨h.1, (h.2 _ rfl).1, (h.2 _ rfl).2.1⟩


/-- C23: capturing the cookies of a response into a store whose names are
pairwise distinct is an upsert by name.  Afterwards the names are pairwise
distinct; the names of the store are the old names, in their places, followed by
the captured names that were not in the store, each once and in the order of
first appearance; every captured name is held with the last cookie captured
under it; a cookie of the old store whose name was captured is replaced in its
place by the last cookie captured under that name, and one whose name was not
captured is unchanged in its place; the other fields of the token are
unchanged. -/
theorem captureCookies_upsert (env : HTTPEnv σ) (token : TokenInfo) (resp : Response)
    (hnd : (token.Cookies.map Cookie.Name).Nodup) :
    ((captureCookiesFromResponse env token resp).Cookies.map Cookie.Name).Nodup
    ∧ (captureCookiesFromResponse env token resp).Cookies.map Cookie.Name
        = token.Cookies.map Cookie.Name
          ++ newNames (token.Cookies.map Cookie.Name)
              ((capturedCookies env resp).map Cookie.Name)
    ∧ (∀ c ∈ capturedCookies env resp,
        ∃ c1 ∈ (captureCookiesFromResponse env token resp).Cookies,
          c1.Name = c.Name ∧ lastWith c.Name (capturedCookies env resp) = some c1)
    ∧ (∀ (i : Nat) (c0 : Cookie), token.Cookies[i]? = some c0 →
        c0.Name ∈ (capturedCookies env resp).map Cookie.Name →
        (captureCookiesFromResponse env token resp).Cookies[i]?
          = lastWith c0.Name (capturedCookies env resp))
    ∧ (∀ (i : Nat) (c0 : Cookie), token.Cookies[i]? = some c0 →
        c0.Name ∉ (capturedCookies env resp).map Cookie.Name →
        (captureCookiesFromResponse env token resp).Cookies[i]? = some c0)
    ∧ (captureCookiesFromResponse env token resp).AccessToken = token.AccessToken
    ∧ (captureCookiesFromResponse env token resp).TokenType = token.TokenType
    ∧ (captureCookiesFromResponse env token resp).Expiry = token.Expiry := by
  have hjar : (captureCookiesFromResponse env token resp).Cookies
      = (capturedCookies env resp).foldl storeOrReplaceCookie token.Cookies := by
    unfold captureCookiesFromResponse capturedCookies
    simp only
    rw [← foldl_flatten_cookies, List.foldl_map]
  obtain ⟨p1, p2, p3, p4, p5⟩ := foldl_storeOrReplaceCookie (capturedCookies env resp)
    token.Cookies hnd
  rw [hjar]
  refine ⟨p1, p2, ?_, ?_, p4, rfl, rfl, rfl⟩
  · intro c hc
    have hname : c.Name ∈ (capturedCookies env resp).map Cookie.Name :=
      List.mem_map_of_mem Cookie.Name hc
    have hin : c.Name ∈ ((capturedCookies env resp).foldl storeOrReplaceCookie
        token.Cookies).map Cookie.Name := by
      rw [p2]
      rcases newNames_complete _ (token.Cookies.map Cookie.Name) c.Name hname with h | h
      · exact List.mem_append_left _ h
      · exact List.mem_append_right _ h
    obtain ⟨c1, hc1, hn⟩ := List.mem_map.mp hin
    exact ⟨c1, hc1, hn, by rw [← hn]; exact p3 c1 hc1 (hn ▸ hname)⟩
  · intro i c0 h0 hname
    have hlt : i < token.Cookies.length := by
      rcases Nat.lt_or_ge i token.Cookies.length with h | h
      · exact h
      · rw [List.getElem?_eq_none h] at h0; cases h0
    have hnm : (((capturedCookies env resp).foldl storeOrReplaceCookie
        token.Cookies).map Cookie.Name)[i]? = some c0.Name := by
      rw [p2, List.getElem?_append_left (by simpa using hlt)]
      simp [h0]
    rw [List.getElem?_map] at hnm
    cases hr : ((capturedCookies env resp).foldl storeOrReplaceCookie token.Cookies)[i]? with
    | none => rw [hr] at hnm; simp at hnm
    | some c1 =>
      rw [hr] at hnm
      simp only [Option.map_some', Option.some.injEq] at hnm
      have hmem : c1 ∈ (capturedCookies env resp).foldl storeOrReplaceCookie token.Cookies :=
        List.getElem?_mem hr
      rw [← hnm]
      exact (p3 c1 hmem (hnm ▸ hname)).symm

/-- C23, at a store holding `lang` and `sid` and a response that sets `sid`
twice, `theme` and `lang`. -/
theorem captureCookies_upsert_witness :
    (captureCookiesFromResponse cookieEnv { Cookies := [⟨"lang", "en"⟩, ⟨"sid", "1"⟩] }
        cookieResponse).Cookies.map Cookie.Name
      = ["lang", "sid"] ++ newNames ["lang", "sid"] ["sid", "theme", "sid", "lang"]
    ∧ (captureCookiesFromResponse cookieEnv { Cookies := [⟨"lang", "en"⟩, ⟨"sid", "1"⟩] }
        cookieResponse).Cookies
      = [⟨"lang", "fr"⟩, ⟨"sid", "3"⟩, ⟨"theme", "dark"⟩] :=
  ⟨(captureCookies_upsert cookieEnv { Cookies := [⟨"lang", "en"⟩, ⟨"sid", "1"⟩] }
      cookieResponse (by decide)).2.1,
   by decide⟩


/-- C25: for a body that is not nil, and whatever the lower-case mapping of
`strings.ToLower` beyond ASCII is, `PrepareBody` takes its default branch (nil
bytes, empty content type and the error `unsupported body_type`) exactly when
the declared type, in lower case, is neither `application/json` nor
`application/x-www-form-urlencoded`; for a supported type the content type it
returns is the declared type in lower case; and `FinalizeBody`, on a request
with such a body, no `BodyBytes` yet and an unsupported type, returns the
wrapped error and leaves the request, so also `BodyBytes`, as it was. -/
theorem PrepareBody_unsupported (codec : BodyCodec) (entries : List (String × Value))
    (bodyType : String) :
    (PrepareBody codec (some entries) bodyType
        = (none, "", some (GoError.errorsNew ("unsupported body_type: " ++ bodyType)))
      ↔ ¬ (ToLower codec.toLowerCase bodyType = "application/json"
            ∨ ToLower codec.toLowerCase bodyType = "application/x-www-form-urlencoded"))
    ∧ (ToLower codec.toLowerCase bodyType = "application/json"
          ∨ ToLower codec.toLowerCase bodyType = "application/x-www-form-urlencoded" →
        (PrepareBody codec (some entries) bodyType).2.1 = ToLower codec.toLowerCase bodyType)
    ∧ (ToLower codec.toLowerCase bodyType = "application/x-www-form-urlencoded" →
        (PrepareBody codec (some entries) bodyType).2.2 = none)
    ∧ (∀ r : HTTPRequest, r.Body = some entries → r.BodyType = bodyType →
        r.BodyBytes = none →
        ¬ (ToLower codec.toLowerCase bodyType = "application/json"
            ∨ ToLower codec.toLowerCase bodyType = "application/x-www-form-urlencoded") →
        (r.FinalizeBody codec).2
            = some (GoError.errorf "prepare body: "
                (GoError.errorsNew ("unsupported body_type: " ++ bodyType)))
          ∧ (r.FinalizeBody codec).1 = r
          ∧ (r.FinalizeBody codec).1.BodyBytes = none) := by
  have hdiff : ("application/x-www-form-urlencoded" : String) ≠ "application/json" := by decide
  refine ⟨?_, ?_, ?_, ?_⟩
  · unfold PrepareBody
    by_cases hj : ToLower codec.toLowerCase bodyType = "application/json"
    · simp only [hj, if_true, true_or, not_true_eq_false, iff_false]
      cases codec.jsonMarshal entries <;> simp
    · by_cases hf : ToLower codec.toLowerCase bodyType = "application/x-www-form-urlencoded"
      · simp [hj, hf]
      · simp [hj, hf]
  · unfold PrepareBody
    rintro (hj | hf)
    · simp only [hj, if_true]
      cases codec.jsonMarshal entries <;> rfl
    · simp [hf, hdiff]
  · intro hf
    unfold PrepareBody
    simp [hf, hdiff]
  · intro r hb ht hbb hun
    simp only [not_or] at hun
    unfold HTTPRequest.FinalizeBody PrepareBody
    simp [hb, ht, hbb, hun.1, hun.2]

/-- C25, at the tests "unsupported body type errors" and "bodyType
case-insensitive", and at `APPL\u0130CAT\u0130ON/JSON`, whose letters U+0130
have the lower case `i`. -/
theorem PrepareBody_unsupported_witness :
    PrepareBody emptyBodyCodec (some [("a", Value.int 1)]) "text/plain"
      = (none, "", some (GoError.errorsNew ("unsupported body_type: " ++ "text/plain")))
    ∧ (PrepareBody emptyBodyCodec (some [("a", Value.str "b")]) "Application/JSON").2.1
      = ToLower emptyBodyCodec.toLowerCase "Application/JSON"
    ∧ (PrepareBody emptyBodyCodec (some []) "APPL\u0130CAT\u0130ON/JSON").2.1
      = ToLower emptyBodyCodec.toLowerCase "APPL\u0130CAT\u0130ON/JSON"
    ∧ (HTTPRequest.FinalizeBody emptyBodyCodec
        { Body := some [("a", Value.str "b")], BodyType := "text/plain" }).1.BodyBytes = none :=
  ⟨(PrepareBody_unsupported emptyBodyCodec [("a", Value.int 1)] "text/plain").1.mpr (by decide),
   (PrepareBody_unsupported emptyBodyCodec [("a", Value.str "b")] "Application/JSON").2.1
     (Or.inl (by decide)),
   (PrepareBody_unsupported emptyBodyCodec [] "APPL\u0130CAT\u0130ON/JSON").2.1
     (Or.inl (by decide)),
   ((PrepareBody_unsupported emptyBodyCodec [("a", Value.str "b")] "text/plain").2.2.2
     { Body := some [("a", Value.str "b")], BodyType := "text/plain" } rfl rfl rfl
     (by decide)).2.2⟩

/-- C26, the code at the failing input: with `MaxRetries = 2` and a client that
fails every call with `boom`, `RequestWithRetry` calls the client three times
and returns the error of the last attempt as `RequestOnce` wrapped it, with the
text `perform request: boom`: it is not wrapped in `failed after 3 attempts`,
which a server that answers 503 three times does get. -/
theorem RequestWithRetry_exhausted_without_count :
    (RequestWithRetry (failingSvc (GoError.errorsNew "boom")) (some (retryCfg 2)) ⟨0, []⟩).map
      (fun r => (r.err, r.err.map GoError.Error, callCount r.world.log))
      = some (some (GoError.errorf "perform request: " (GoError.errorsNew "boom")),
          some "perform request: boom", 3)
    ∧ (RequestWithRetry (failingSvc (GoError.errorsNew "boom")) (some (retryCfg 2)) ⟨0, []⟩).map
        (fun r => r.err)
      ≠ some (some (failedAfter 3
          (some (GoError.errorf "perform request: " (GoError.errorsNew "boom")))))
    ∧ (RequestWithRetry (svcOf (fakeNetClient "" fun _ => ({ StatusCode := 503 }, none)))
        (some (retryCfg 2)) ⟨0, []⟩).map
      (fun r => (r.err.map GoError.Error, callCount r.world.log))
      = some (some "failed after 3 attempts: server error (503)", 3) := by
  decide


/-- C27, the code at the failing input: for `https://h/a/b/c++.zip`, whose last
path segment `c++.zip` has no percent-escape, `FilenameFromUrl` returns
`c  .zip`: `url.QueryUnescape` turns each `+` of the path into a space.  The
three URLs of the golden test give `c.txt`, `hello world.zip` and `b`, and the
URL that does not parse gives an error. -/
theorem FilenameFromUrl_plus_becomes_space :
    (FilenameFromUrl urlEnv "https://h/a/b/c++.zip").toOption = some "c  .zip"
    ∧ (FilenameFromUrl urlEnv "https://example.com/a/b/c.txt").toOption = some "c.txt"
    ∧ (FilenameFromUrl urlEnv "https://example.com/a/b/hello%20world.zip").toOption
        = some "hello world.zip"
    ∧ (FilenameFromUrl urlEnv "https://example.com/a/b/").toOption = some "b"
    ∧ (FilenameFromUrl urlEnv "http://[::1").toOption = none := by
  decide


/-- C29, the code at the failing input: a native-backend download from a server
that declares no content length (`ContentLength = -1`) and sends 8 bytes in two
reads succeeds, writes 8 bytes to the destination file, and publishes a
`COMPLETE` notification whose `Downloaded` and `TotalSize` are both -1. -/
theorem DownloadFile_complete_reports_content_length :
    (DownloadFile (fakeDownloadEnv { doResult := .ok ⟨200, "200 OK", -1⟩ }) {} 100 ⟨{}, {}⟩
        { URL := "http://h/f.txt", DestinationFolder := "/tmp" }).map
      (fun r => (r.1,
        r.2.2.hub.published.getLast?.map (fun n => (n.Status, n.Downloaded, n.TotalSize)),
        r.2.2.ext.written))
      = some (none, some (TransferStatus.COMPLETE, -1, -1), 8) := by
  decide

/-- C30, the code at the failing inputs: after one subscription to `"u"` on the
empty hub, the first call of the returned closure succeeds and empties the
registry, and a second call panics on the close of the closed channel; a call
of the closure after `TransferListenerClose` for `"u"` panics in the same way. -/
theorem unsub_twice_panics :
    ((({} : Hub).TransferListener "u").2.unsub "u" (({} : Hub).TransferListener "u").1).map
        (fun h => (h.listenersByURL, h.chans.map fun c => c.closed))
      = some ([], [true])
    ∧ ((({} : Hub).TransferListener "u").2.unsub "u" (({} : Hub).TransferListener "u").1).bind
        (fun h => h.unsub "u" (({} : Hub).TransferListener "u").1)
      = none
    ∧ ((({} : Hub).TransferListener "u").2.TransferListenerClose "u").map
        (fun h => (h.listenersByURL, h.chans.map fun c => c.closed))
      = some ([], [true])
    ∧ ((({} : Hub).TransferListener "u").2.TransferListenerClose "u").bind
        (fun h => h.unsub "u" (({} : Hub).TransferListener "u").1)
      = none := by
  decide


/-- C28, the counterexample: the progress reader of a download of 25 bytes that
reads 7 bytes and then 18, with reports one second apart, publishes for the
first read `Downloaded = 7`, `TotalSize = 25` and the percentage `28 + 2 ^ -48`
(the `float64` printed as 28.000000000000004), where `min(100, 100 * 7 / 25)` is
28; the whole download publishes the same notification. -/
theorem progress_reader_percentage_is_rounded :
    (readRun (fakeDownloadEnv sevenOfTwentyFive) "http://h/f.txt" "/tmp/f.txt" (64 * 1024) 2
        readerOfTwentyFive ⟨{}, {}⟩).map
      (fun r => (r.1.map ReadRecord.n, (r.1.map ReadRecord.emitted).flatten.map fun n =>
        (n.Status, n.Downloaded, n.TotalSize, n.Percentage)))
      = some ([7, 18], [(TransferStatus.IN_PROGRESS, 7, 25, 28 + 1 / 2 ^ 48),
              (TransferStatus.IN_PROGRESS, 25, 25, 100)])
    ∧ exactPercentage 7 25 = 28
    ∧ (28 + 1 / 2 ^ 48 : ℚ) ≠ exactPercentage 7 25
    ∧ (DownloadFile (fakeDownloadEnv sevenOfTwentyFive) { DownloadCallbackInterval := 1000000000 }
        100 ⟨{}, {}⟩ { URL := "http://h/f.txt", DestinationFolder := "/tmp" }).map
      (fun r => (r.1, r.2.2.hub.published.map fun n =>
        (n.Status, n.Downloaded, n.TotalSize, n.Percentage)))
      = some (none, [(TransferStatus.IN_PROGRESS, 7, 25, 28 + 1 / 2 ^ 48),
              (TransferStatus.IN_PROGRESS, 25, 25, 100),
              (TransferStatus.COMPLETE, 25, 25, 100)]) :=
  ⟨by decide!, by decide!, by decide!, by decide!⟩

/-- C28, amended: for every run of reads through the progress reader of the
native backend, started with no bytes read on a service whose hub satisfies the
invariant, the run returns, the byte counts of its reads are those that the
body returned, and it publishes exactly what its reads emitted; while the byte
counts sum to less than `2^63`, a read emits one `IN_PROGRESS` notification,
whose `Downloaded` is the sum of the counts returned by all reads up to and
including it and whose `Percentage` is, for a positive total size, the
smaller of 100 and `float64(Downloaded) / float64(TotalSize) * 100` with the
conversions, the quotient and the product each rounded to `float64`, and 0
otherwise, when it returned bytes and its clock reading is at least the
interval past the previous emission (or past the start, before any), and
nothing otherwise: in particular a read less than the interval after the
previous emission emits nothing. -/
theorem progress_reader_notifications (env : DownloadEnv σ) (url destination : String)
    (k m : Nat) (pr : progressReader) (s : Svc σ)
    (hwf : s.hub.WF) (hstart : pr.readSoFar = 0) :
    ∃ recs pr1 s1, readRun env url destination k m pr s = some (recs, pr1, s1)
      ∧ recs.length = m
      ∧ recs.map ReadRecord.n = bodyCounts env k m s.ext
      ∧ s1.hub.published = s.hub.published ++ (recs.map ReadRecord.emitted).flatten
      ∧ ((((recs.map ReadRecord.n).sum : Nat) : Int) < 2 ^ 63 →
          ∀ (i : Nat) (r : ReadRecord), recs[i]? = some r →
            (r.emitted
              = if r.n > 0 ∧ r.now - lastEmission pr.lastReport (recs.take i) ≥ pr.interval
                then [progressNotification url destination
                  ((((recs.take (i + 1)).map ReadRecord.n).sum : Nat) : Int) pr.total]
                else [])
            ∧ (r.now - lastEmission pr.lastReport (recs.take i) < pr.interval →
                r.emitted = [])) := by
  obtain ⟨recs, pr1, s1, hrun, hlen, -, hpub, hmain⟩ :=
    readRun_spec env url destination k m pr s hwf
  refine ⟨recs, pr1, s1, hrun, hlen,
    readRun_counts env url destination k m pr pr1 s s1 recs hrun, hpub, ?_⟩
  intro hbound i r hi
  have h := hmain (by rw [hstart]) (by rw [hstart]; simpa using hbound) i r hi
  rw [hstart, Int.zero_add] at h
  refine ⟨h, ?_⟩
  intro hlt
  rw [h]
  have hnot : ¬ (r.n > 0 ∧ r.now - lastEmission pr.lastReport (recs.take i) ≥ pr.interval) :=
    fun hc => absurd hlt (not_lt.mpr hc.2)
  simp only [hnot, if_false]

/-- C28, amended, at three reads (4 bytes, 4 bytes, end of file) of a body of 8
bytes, one second apart, with the interval of two seconds: the reads return 4,
4 and 0 bytes and only the second one emits, 8 bytes of 8 at 100 per cent. -/
theorem progress_reader_notifications_witness :
    (∃ recs pr1 s1, readRun (fakeDownloadEnv {}) "http://h/f.txt" "/tmp/f.txt" (64 * 1024) 3
        freshReader ⟨{}, {}⟩ = some (recs, pr1, s1)
      ∧ recs.length = 3
      ∧ recs.map ReadRecord.n
          = bodyCounts (fakeDownloadEnv {}) (64 * 1024) 3 (⟨{}, {}⟩ : Svc FakeWorld).ext
      ∧ s1.hub.published
          = (⟨{}, {}⟩ : Svc FakeWorld).hub.published ++ (recs.map ReadRecord.emitted).flatten
      ∧ ((((recs.map ReadRecord.n).sum : Nat) : Int) < 2 ^ 63 →
          ∀ (i : Nat) (r : ReadRecord), recs[i]? = some r →
            (r.emitted
              = if r.n > 0
                    ∧ r.now - lastEmission freshReader.lastReport (recs.take i)
                        ≥ freshReader.interval
                then [progressNotification "http://h/f.txt" "/tmp/f.txt"
                  ((((recs.take (i + 1)).map ReadRecord.n).sum : Nat) : Int) freshReader.total]
                else [])
            ∧ (r.now - lastEmission freshReader.lastReport (recs.take i)
                  < freshReader.interval →
                r.emitted = [])))
    ∧ (readRun (fakeDownloadEnv {}) "http://h/f.txt" "/tmp/f.txt" (64 * 1024) 3
        freshReader ⟨{}, {}⟩).map
      (fun r => (r.1.map ReadRecord.n, r.1.map fun x => x.emitted.map fun n =>
        (n.Downloaded, n.TotalSize, n.Percentage)))
      = some ([4, 4, 0], [[], [(8, 8, 100)], []]) :=
  ⟨progress_reader_notifications (fakeDownloadEnv {}) "http://h/f.txt" "/tmp/f.txt" (64 * 1024) 3
    freshReader ⟨{}, {}⟩ (by decide) rfl, by decide!⟩

end Gonetic
